import Mathlib

/-
Verification of the plugin-builder core (scripts/plugin_builder_tui/builder.py
and the repair command of scripts/plugin-builder.py) against its specification.

The filesystem state operated on by `PluginBuilder` is embedded shallowly:

* the marketplace tree is a value of type `FS` holding the registry
  directories (`registry/<kind>/`, each an optional list of entries, `none`
  meaning the directory does not exist), the plugin directories
  (`plugins/<name>/`, each with an optional manifest and three optional kind
  subdirectories) and a list `other` of further existing paths;
* paths are lists of components relative to the marketplace root
  (`["registry", "skills", "writer"]`);
* a symbolic link stores its target as such a root-relative path, already in
  resolved (normalized, absolute) form: the Python code always creates links
  via `os.path.relpath` against a resolved registry path, and `Path.resolve`
  on a link returns exactly the normalized target, so storing the resolved
  form loses nothing for link targets that do not traverse further symlinks.
  Targets that pass through another plugin symlink are outside this model;
* file contents are `Option String`, `none` standing for a read that raises
  (permission error, undecodable bytes);
* fallible operations return `Except String`, mirroring raised `ValueError`s.

Python string primitives used by the code (`str.strip`, `str.split`,
`str.startswith`, `str.endswith`, slicing, `in`) are re-implemented over
`String.data` so that every definition evaluates inside the kernel.
-/

/-! ## Python string primitives -/

/-- Character-list version of Python `needle in hay` (substring test). -/
def strContainsChars : List Char → List Char → Bool
  | [], needle => needle.isEmpty
  | c :: t, needle => needle.isPrefixOf (c :: t) || strContainsChars t needle

/-- Python `needle in hay` on strings. -/
def strContains (hay needle : String) : Bool :=
  strContainsChars hay.data needle.data

/-- Python `s.startswith(pre)`. -/
def pyStartsWith (s pre : String) : Bool :=
  pre.data.isPrefixOf s.data

/-- Python `s.endswith(suf)`. -/
def pyEndsWith (s suf : String) : Bool :=
  suf.data.isSuffixOf s.data

/-- The whitespace set stripped by Python `str.strip()`:
space, tab, newline, carriage return, vertical tab, form feed. -/
def pySpace (c : Char) : Bool :=
  c == Char.ofNat 32 || c == Char.ofNat 9 || c == Char.ofNat 10 ||
  c == Char.ofNat 13 || c == Char.ofNat 11 || c == Char.ofNat 12

/-- Python `s.strip()`. -/
def pyTrim (s : String) : String :=
  ⟨((s.data.dropWhile pySpace).reverse.dropWhile pySpace).reverse⟩

/-- Split a character list on newline characters; `[]` yields `[[]]`,
matching Python `"".split("\n") == [""]`. -/
def splitNl : List Char → List (List Char)
  | [] => [[]]
  | c :: rest =>
    match splitNl rest with
    | [] => [[]]
    | g :: gs => if c == Char.ofNat 10 then [] :: g :: gs else (c :: g) :: gs

/-- Python `s.split("\n")`. -/
def splitLines (s : String) : List String :=
  (splitNl s.data).map (fun l => ⟨l⟩)

/-- Quote characters stripped from front-matter description values
(`.strip("\"'")`). -/
def isQuoteChar (c : Char) : Bool :=
  c == Char.ofNat 34 || c == Char.ofNat 39

/-- Python `s.strip("\"'")`. -/
def stripQuotes (s : String) : String :=
  ⟨((s.data.dropWhile isQuoteChar).reverse.dropWhile isQuoteChar).reverse⟩

/-- Whether the file name has a `.md` suffix in the `pathlib` sense.  Names
starting with a dot never reach this test in the code (hidden entries are
skipped first), so a plain suffix check is faithful. -/
def isMdName (s : String) : Bool :=
  pyEndsWith s ".md"

/-- `name[:-3]` applied when the name ends in `.md`, else the name itself:
the normalization used throughout `builder.py` for link and file names. -/
def stripMd (s : String) : String :=
  if isMdName s then ⟨s.data.take (s.data.length - 3)⟩ else s

/-- Index of the last occurrence of `c` in `l`, if any. -/
def lastIdxOf (c : Char) (l : List Char) : Option Nat :=
  match l with
  | [] => none
  | a :: as =>
    match lastIdxOf c as with
    | some i => some (i + 1)
    | none => if a == c then some 0 else none

/-- Python `PurePath(s).stem`: the name up to the last dot, provided that dot
is neither the leading character nor the trailing one. -/
def pyStem (s : String) : String :=
  match lastIdxOf (Char.ofNat 46) s.data with
  | some i => if 0 < i && i < s.data.length - 1 then ⟨s.data.take i⟩ else s
  | none => s

/-- Python `s.replace(".md", "")` (every occurrence, left to right), as used
by the repair command on a recovered link file name. -/
def replaceMdChars : List Char → List Char
  | [] => []
  | c :: rest =>
    if (".md".data).isPrefixOf (c :: rest) then
      replaceMdChars (rest.drop 2)
    else
      c :: replaceMdChars rest
termination_by l => l.length
decreasing_by
  · simp only [List.length_cons, List.length_drop]
    omega
  · simp

/-- Python `s.replace(".md", "")` on strings. -/
def replaceMd (s : String) : String :=
  ⟨replaceMdChars s.data⟩

/-! ## String ordering and sorting

Python `sorted` on strings orders by code point; `sorted` on tuples orders
lexicographically.  The functions below give an evaluable total order and an
insertion sort, used wherever `builder.py` sorts its result lists. -/

/-- Code-point lexicographic strict order on character lists. -/
def lexLtChars : List Char → List Char → Bool
  | [], [] => false
  | [], _ :: _ => true
  | _ :: _, [] => false
  | a :: as, b :: bs =>
    a.toNat < b.toNat || (a == b && lexLtChars as bs)

/-- Python `<` on strings. -/
def strLt (a b : String) : Bool := lexLtChars a.data b.data

/-- Python `<=` on strings. -/
def strLe (a b : String) : Bool := strLt a b || a == b

/-- Insert into a list sorted by `le`. -/
def insertLe (le : α → α → Bool) (a : α) : List α → List α
  | [] => [a]
  | b :: bs => if le a b then a :: b :: bs else b :: insertLe le a bs

/-- Insertion sort by `le`; same multiset as Python `sorted`. -/
def sortLe (le : α → α → Bool) (l : List α) : List α :=
  l.foldr (insertLe le) []

/-- `sorted(set(..))` needs only the distinct elements: deduplication keeping
first occurrences. -/
def dedupSeen (seen : List String) : List String → List String
  | [] => []
  | a :: as =>
    if seen.contains a then dedupSeen seen as
    else a :: dedupSeen (a :: seen) as

/-- Distinct elements of a list of strings, in first-occurrence order. -/
def dedupStr (l : List String) : List String :=
  dedupSeen [] l

/-! ## Data model

Mirrors the dataclasses of `builder.py` (`AssetType`, `Asset`, `Plugin`,
`UsageInfo`, `ValidationIssue`) plus the filesystem state the class walks. -/

/-- Path relative to the marketplace root, as a list of components. -/
abbrev FsPath := List String

/-- `AssetType`: types of assets in the registry. -/
inductive AssetType
  | command
  | agent
  | skill
deriving DecidableEq

/-- The `value` of the enum member: the registry/plugin directory name. -/
def AssetType.value : AssetType → String
  | .command => "commands"
  | .agent => "agents"
  | .skill => "skills"

/-- Iteration order of `list(AssetType)` / `for asset_type in AssetType`. -/
def AssetType.all : List AssetType := [.command, .agent, .skill]

/-- Directory name back to asset type, for paths built from components. -/
def kindOf? (s : String) : Option AssetType :=
  if s == "commands" then some .command
  else if s == "agents" then some .agent
  else if s == "skills" then some .skill
  else none

/-- Storage form of a registry entry (and of an external source path): a
content file whose text is `some` when readable, or a directory, of whose
subtree only the two description candidates `SKILL.md` and `README.md` are
relevant to the core (outer `Option`: the file exists; inner: it is
readable).  Size and modification metadata are not modeled: no claim
touches them. -/
inductive RegNode
  | file (content : Option String)
  | dir (skillMd : Option (Option String)) (readmeMd : Option (Option String))
deriving DecidableEq

/-- An on-disk entry of `registry/<kind>/`: its file name and storage form. -/
structure RegEntry where
  name : String
  node : RegNode
deriving DecidableEq

/-- An entry of `plugins/<name>/<kind>/`: a symbolic link carrying its
resolved target, a plain file, or a plain directory (the two legacy,
not-yet-linked forms). -/
inductive PNode
  | link (target : FsPath)
  | file
  | dir
deriving DecidableEq

/-- An on-disk entry of a plugin kind subdirectory. -/
structure PEntry where
  name : String
  node : PNode
deriving DecidableEq

/-- The fields `plugin.json` may carry; `none` when the key is absent
(`data.get(key, default)` supplies the default). -/
structure Manifest where
  mname : Option String
  mdescription : Option String
  mversion : Option String
  mkeywords : Option (List String)
deriving DecidableEq

/-- State of `plugins/<dir>/.claude-plugin/plugin.json`: missing, present
but failing `json.loads` (or not shaped like a dict), or parsed. -/
inductive ManifestState
  | absent
  | invalid
  | valid (m : Manifest)
deriving DecidableEq

/-- A directory under `plugins/`: its directory name, its manifest state and
its three optional kind subdirectories (`none` = the subdirectory does not
exist). -/
structure PluginDir where
  dirName : String
  manifest : ManifestState
  pCommands : Option (List PEntry)
  pAgents : Option (List PEntry)
  pSkills : Option (List PEntry)
deriving DecidableEq

/-- The kind subdirectory of a plugin directory. -/
def PluginDir.kindDir (pd : PluginDir) : AssetType → Option (List PEntry)
  | .command => pd.pCommands
  | .agent => pd.pAgents
  | .skill => pd.pSkills

/-- Replace one kind subdirectory. -/
def PluginDir.setKindDir (pd : PluginDir) : AssetType → Option (List PEntry) → PluginDir
  | .command, v => { pd with pCommands := v }
  | .agent, v => { pd with pAgents := v }
  | .skill, v => { pd with pSkills := v }

/-- The marketplace tree.  `root` is the rendered textual prefix of the
marketplace root path (it takes part only in `str(item)` substring tests);
`other` lists further existing filesystem paths outside the modeled registry
and plugin entries (e.g. symlink targets elsewhere on disk). -/
structure FS where
  root : String
  regCommands : Option (List RegEntry)
  regAgents : Option (List RegEntry)
  regSkills : Option (List RegEntry)
  plugins : List PluginDir
  other : List FsPath
deriving DecidableEq

/-- The registry directory of one kind. -/
def FS.registry (fs : FS) : AssetType → Option (List RegEntry)
  | .command => fs.regCommands
  | .agent => fs.regAgents
  | .skill => fs.regSkills

/-- Replace the registry directory of one kind. -/
def FS.setRegistry (fs : FS) : AssetType → Option (List RegEntry) → FS
  | .command, v => { fs with regCommands := v }
  | .agent, v => { fs with regAgents := v }
  | .skill, v => { fs with regSkills := v }

/-- Look up a registry entry by file name, as `(registry_dir/kind/n).exists()`
does. -/
def FS.regEntryLookup (fs : FS) (k : AssetType) (n : String) : Option RegEntry :=
  match fs.registry k with
  | none => none
  | some es => es.find? (fun e => e.name == n)

/-- Look up a plugin directory by directory name. -/
def FS.pluginDir? (fs : FS) (n : String) : Option PluginDir :=
  fs.plugins.find? (fun pd => pd.dirName == n)

/-- Existence of a path without following a final symlink: a plugin entry
counts as present whatever its node.  Paths outside the recognized shapes
fall back to the `other` list. -/
def FS.presentNF (fs : FS) (p : FsPath) : Bool :=
  match p with
  | [] => true
  | [d] =>
    if d == "registry" then true
    else if d == "plugins" then true
    else fs.other.contains p
  | [d, a] =>
    if d == "registry" then
      match kindOf? a with
      | some k => (fs.registry k).isSome
      | none => fs.other.contains p
    else if d == "plugins" then (fs.pluginDir? a).isSome
    else fs.other.contains p
  | [d, a, b] =>
    if d == "registry" then
      match kindOf? a with
      | some k => (fs.regEntryLookup k b).isSome
      | none => fs.other.contains p
    else if d == "plugins" then
      match kindOf? b, fs.pluginDir? a with
      | some k, some pd => (pd.kindDir k).isSome
      | _, _ => fs.other.contains p
    else fs.other.contains p
  | [d, a, b, c] =>
    if d == "plugins" then
      match kindOf? b, fs.pluginDir? a with
      | some k, some pd =>
        match pd.kindDir k with
        | some es => (es.find? (fun x => x.name == c)).isSome
        | none => fs.other.contains p
      | _, _ => fs.other.contains p
    else fs.other.contains p
  | _ => fs.other.contains p

/-- Python `Path.exists()` (which follows symlinks) for the paths the code
tests: when the path names a plugin entry that is a symlink, existence of
its target decides.  Per the model assumption, targets do not traverse
further plugin symlinks, so one level of following is exact. -/
def FS.present (fs : FS) (p : FsPath) : Bool :=
  match p with
  | [d, a, b, c] =>
    if d == "plugins" then
      match kindOf? b, fs.pluginDir? a with
      | some k, some pd =>
        match pd.kindDir k with
        | some es =>
          match es.find? (fun x => x.name == c) with
          | some ent =>
            match ent.node with
            | .link t => fs.presentNF t
            | _ => true
          | none => fs.presentNF p
        | none => fs.presentNF p
      | _, _ => fs.presentNF p
    else fs.presentNF p
  | _ => fs.presentNF p

/-- `Path.exists()` of a plugin directory entry already in hand. -/
def FS.pentryExists (fs : FS) (e : PEntry) : Bool :=
  match e.node with
  | .link t => fs.presentNF t
  | _ => true

/-- `str(item)` for `item = plugins_dir / plugin / kind.value / name`:
the textual path against which `rename_asset` runs its substring
heuristic. -/
def itemStr (root plugin : String) (k : AssetType) (name : String) : String :=
  root ++ "/plugins/" ++ plugin ++ "/" ++ k.value ++ "/" ++ name

/-! ## Asset catalog (`get_registry_assets`, `_get_asset_description`) -/

/-- Scan of front-matter lines (`_get_asset_description`, first loop): stop
at the closing delimiter, return on a `description:` key. -/
def fmScan : List String → Option String
  | [] => none
  | l :: ls =>
    if l == "---" then none
    else if pyStartsWith l "description:" then
      some (stripQuotes (pyTrim (l.drop 12)))
    else fmScan ls

/-- Fallback scan (`_get_asset_description`, second loop): first stripped
line that is non-empty and starts with neither `#` nor `---`, truncated to
100 characters. -/
def firstContentLine : List String → String
  | [] => ""
  | l :: ls =>
    let t := pyTrim l
    if t == "" then firstContentLine ls
    else if pyStartsWith t "#" then firstContentLine ls
    else if pyStartsWith t "---" then firstContentLine ls
    else t.take 100

/-- Description extraction from a content string
(`_get_asset_description` after the read succeeded). -/
def parseDescription (content : String) : String :=
  let lines := splitLines (pyTrim content)
  let fromFm : Option String :=
    match lines with
    | l0 :: rest => if l0 == "---" then fmScan rest else none
    | [] => none
  match fromFm with
  | some d => d
  | none => firstContentLine lines

/-- `_get_asset_description` on a registry entry: read the content file (for
a directory, `SKILL.md` then `README.md`), empty string when nothing is
there or the read raises. -/
def RegNode.description : RegNode → String
  | .file none => ""
  | .file (some c) => parseDescription c
  | .dir sk rm =>
    match sk with
    | some (some c) => parseDescription c
    | some none => ""
    | none =>
      match rm with
      | some (some c) => parseDescription c
      | some none => ""
      | none => ""

/-- The dataclass `Asset`, restricted to the fields the claims touch
(`size_bytes` and `modified` are stat-derived metadata, unmodeled). -/
structure Asset where
  name : String
  asset_type : AssetType
  path : FsPath
  description : String
deriving DecidableEq

/-- Sort key of `get_registry_assets`: the tuple
`(a.asset_type.value, a.name)`. -/
def assetLe (a b : Asset) : Bool :=
  strLt a.asset_type.value b.asset_type.value ||
    (a.asset_type.value == b.asset_type.value && strLe a.name b.name)

/-- One registry directory item of `get_registry_assets`: hidden entries and
files without the `.md` suffix are skipped; files are named by their stem,
directories by their name. -/
def regEntryAsset (k : AssetType) (e : RegEntry) : Option Asset :=
  if pyStartsWith e.name "." then none
  else
    match e.node with
    | .file _ =>
      if isMdName e.name then
        some ⟨stripMd e.name, k, ["registry", k.value, e.name], e.node.description⟩
      else none
    | .dir _ _ =>
      some ⟨e.name, k, ["registry", k.value, e.name], e.node.description⟩

/-- `get_registry_assets(asset_type=None|k)`. -/
def getRegistryAssets (fs : FS) (kq : Option AssetType) : List Asset :=
  let kinds := match kq with | some k => [k] | none => AssetType.all
  let raw := kinds.flatMap (fun k =>
    match fs.registry k with
    | none => []
    | some es => es.filterMap (regEntryAsset k))
  sortLe assetLe raw

/-! ## Plugin catalog (`get_plugins`, `_list_plugin_assets`) -/

/-- The names one plugin directory entry contributes in
`_list_plugin_assets`: hidden entries skipped; a plain file only with the
`.md` suffix, by stem; a directory or symlink (broken or not) by its name
with a `.md` suffix stripped.  For `.md` names the stem equals the stripped
name, so both branches reduce to `stripMd`. -/
def pentryNames (e : PEntry) : List String :=
  if pyStartsWith e.name "." then []
  else
    match e.node with
    | .file => if isMdName e.name then [stripMd e.name] else []
    | .dir => [stripMd e.name]
    | .link _ => [stripMd e.name]

/-- `_list_plugin_assets(plugin_dir, asset_type)`: `sorted(set(names))`. -/
def listPluginAssets (pd : PluginDir) (k : AssetType) : List String :=
  match pd.kindDir k with
  | none => []
  | some es => sortLe strLe (dedupStr (es.flatMap pentryNames))

/-- The dataclass `Plugin`. -/
structure Plugin where
  name : String
  description : String
  version : String
  commands : List String
  agents : List String
  skills : List String
  keywords : List String
deriving DecidableEq

/-- The membership list of one kind. -/
def Plugin.kindList (p : Plugin) : AssetType → List String
  | .command => p.commands
  | .agent => p.agents
  | .skill => p.skills

/-- One directory of the `get_plugins` scan: skipped when hidden, when the
manifest is missing, or when reading it raises (`except Exception: pass`). -/
def PluginDir.toPlugin? (pd : PluginDir) : Option Plugin :=
  if pyStartsWith pd.dirName "." then none
  else
    match pd.manifest with
    | .valid m =>
      some
        { name := m.mname.getD pd.dirName
          description := m.mdescription.getD ""
          version := m.mversion.getD "1.0.0"
          commands := listPluginAssets pd .command
          agents := listPluginAssets pd .agent
          skills := listPluginAssets pd .skill
          keywords := m.mkeywords.getD [] }
    | _ => none

/-- Sort order of `get_plugins`: by manifest name. -/
def plugLe (p q : Plugin) : Bool := strLe p.name q.name

/-- `get_plugins()`. -/
def getPlugins (fs : FS) : List Plugin :=
  sortLe plugLe (fs.plugins.filterMap PluginDir.toPlugin?)

/-! ## Usage index (`get_usage_info`) -/

/-- Lookup view of the `get_usage_info` dictionary at key
`"<kind>:<name>"`: `none` when the key is absent (the name is not in the
registry catalog), else the list of plugin names appended by the scan — one
occurrence per occurrence of the name in the plugin's membership list of
that kind, in catalog order. -/
def usageInfo? (fs : FS) (k : AssetType) (name : String) : Option (List String) :=
  if (getRegistryAssets fs none).any
      (fun a => a.asset_type == k && a.name == name) then
    some ((getPlugins fs).flatMap (fun p =>
      ((p.kindList k).filter (fun s => s == name)).map (fun _ => p.name)))
  else none

/-! ## Mutators -/

/-- Apply `f` to every plugin directory of the given name (on a real
filesystem there is at most one). -/
def FS.updatePluginsNamed (fs : FS) (n : String) (f : PluginDir → PluginDir) : FS :=
  { fs with plugins := fs.plugins.map (fun pd => if pd.dirName == n then f pd else pd) }

/-- The two-step registry lookup `(type_dir / name).exists()` falling back
to `(type_dir / (name + ".md")).exists()`, shared by `add_asset_to_plugin`,
`delete_asset` and `rename_asset`. -/
def regResolve (fs : FS) (k : AssetType) (name : String) : Option RegEntry :=
  match fs.regEntryLookup k name with
  | some e => some e
  | none => fs.regEntryLookup k (name ++ ".md")

/-- The name of the link created in the plugin directory:
`registry_path.name` for a file entry, the asset name for a directory. -/
def linkNameFor (re : RegEntry) (assetName : String) : String :=
  match re.node with
  | .file _ => re.name
  | .dir _ _ => assetName

/-- `add_asset_to_plugin(plugin_name, asset_name, asset_type)`.  Success
carries the updated tree and the boolean result (`False`: the target entry
already exists).  A present-but-broken link at the target name makes
`os.symlink` raise `FileExistsError`, uncaught in the source. -/
def addAssetToPlugin (fs : FS) (pluginName assetName : String) (k : AssetType) :
    Except String (FS × Bool) :=
  match fs.pluginDir? pluginName with
  | none => .error ("Plugin '" ++ pluginName ++ "' does not exist")
  | some pd =>
    match regResolve fs k assetName with
    | none =>
      .error ("Asset '" ++ assetName ++ "' not found in registry/" ++ k.value)
    | some re =>
      let linkName := linkNameFor re assetName
      let es := (pd.kindDir k).getD []
      match es.find? (fun e => e.name == linkName) with
      | some ent =>
        if fs.pentryExists ent then .ok (fs, false)
        else .error "FileExistsError"
      | none =>
        let newEs := es ++ [⟨linkName, .link ["registry", k.value, re.name]⟩]
        .ok (fs.updatePluginsNamed pluginName (fun p => p.setKindDir k (some newEs)), true)

/-- `remove_asset_from_plugin(plugin_name, asset_name, asset_type)`.  The
candidate entry is chosen by `Path.exists()`, which follows symlinks, so a
present-but-broken link never matches. -/
def removeAssetFromPlugin (fs : FS) (pluginName assetName : String) (k : AssetType) :
    Except String (FS × Bool) :=
  match fs.pluginDir? pluginName with
  | none => .error ("Plugin '" ++ pluginName ++ "' does not exist")
  | some pd =>
    let es := (pd.kindDir k).getD []
    let mdCand : Option String :=
      match es.find? (fun e => e.name == assetName ++ ".md") with
      | some e => if fs.pentryExists e then some (assetName ++ ".md") else none
      | none => none
    let cand? : Option String :=
      match es.find? (fun e => e.name == assetName) with
      | some e => if fs.pentryExists e then some assetName else mdCand
      | none => mdCand
    match cand? with
    | none => .ok (fs, false)
    | some nm =>
      .ok (fs.updatePluginsNamed pluginName
            (fun p => p.setKindDir k (some (es.eraseP (fun e => e.name == nm)))),
          true)

/-- An external source path handed to `add_to_registry`: its rendered text
(for the error message), whether it exists, its final name component, and
its storage form. -/
structure Src where
  pathStr : String
  present : Bool
  name : String
  node : RegNode
deriving DecidableEq

/-- `add_to_registry(source_path, asset_type, name)`.  `copy2`/`copytree`
duplicate the source contents into the new registry entry; the source value
itself is input data here, so it is untouched by construction.  (The
`mkdir(parents=True, exist_ok=True)` of the kind directory is folded into
the success path; an error path thus leaves the tree exactly as it was,
whereas the script may leave behind an empty kind directory — a difference
no catalog operation can observe.) -/
def addToRegistry (fs : FS) (src : Src) (k : AssetType) (nameArg : Option String) :
    Except String (FS × Asset) :=
  if !src.present then .error ("Source path does not exist: " ++ src.pathStr)
  else
    let name :=
      match nameArg with
      | some n => n
      | none =>
        match src.node with
        | .file _ => pyStem src.name
        | .dir _ _ => src.name
    let es := (fs.registry k).getD []
    let targetName :=
      match src.node with
      | .file _ => src.name
      | .dir _ _ => name
    if (es.find? (fun e => e.name == targetName)).isSome then
      .error ("Asset already exists in registry: " ++ fs.root ++ "/registry/" ++
        k.value ++ "/" ++ targetName)
    else
      let fs1 := fs.setRegistry k (some (es ++ [⟨targetName, src.node⟩]))
      .ok (fs1, ⟨name, k, ["registry", k.value, targetName], src.node.description⟩)

/-- Is this entry a symlink whose resolved target equals the given path
(`item.is_symlink() and item.resolve() == asset_path.resolve()`)? -/
def pentryIsLinkTo (e : PEntry) (p : FsPath) : Bool :=
  match e.node with
  | .link t => t == p
  | _ => false

/-- The per-plugin unlink pass of `delete_asset`: drop every symlink of the
kind directory of the plugin named `pname` that resolves to `path`. -/
def removeLinksTo (fs : FS) (pname : String) (k : AssetType) (path : FsPath) : FS :=
  fs.updatePluginsNamed pname (fun pd =>
    match pd.kindDir k with
    | none => pd
    | some es => pd.setKindDir k (some (es.filter (fun e => !pentryIsLinkTo e path))))

/-- `delete_asset` after the usage gate: locate the entry, unlink matching
symlinks across every cataloged plugin, delete the registry entry. -/
def deleteAssetGo (fs : FS) (assetName : String) (k : AssetType) : Except String FS :=
  match regResolve fs k assetName with
  | none => .error ("Asset '" ++ assetName ++ "' not found")
  | some e =>
    let assetPath : FsPath := ["registry", k.value, e.name]
    let fs1 := (getPlugins fs).foldl (fun acc p => removeLinksTo acc p.name k assetPath) fs
    .ok (fs1.setRegistry k
          (some (((fs1.registry k).getD []).eraseP (fun r => r.name == e.name))))

/-- `delete_asset(asset_name, asset_type, force)`. -/
def deleteAsset (fs : FS) (assetName : String) (k : AssetType) (force : Bool) :
    Except String FS :=
  match usageInfo? fs k assetName with
  | some ps =>
    if !ps.isEmpty && !force then
      .error ("Asset is used by plugins: " ++ String.intercalate ", " ps ++
        ". Use force=True to delete anyway.")
    else deleteAssetGo fs assetName k
  | none => deleteAssetGo fs assetName k

/-- One entry of the `rename_asset` symlink-update loop over the snapshot of
a kind directory.  `cur` is the directory as mutated so far.  The second
disjunct is the heuristic of the source: the target no longer resolves to an
existing path and the old name occurs in `str(item)` — the textual path of
the link itself.  On a hit the old link is unlinked and a link named after
the new name is created unless that name is already taken
(`FileExistsError`, swallowed by the `except` after the unlink).  Existence
of the target is read off `base` (the tree as of this plugin's turn): per
the model assumption link targets do not point back into plugin
directories, so intra-loop link edits cannot change it. -/
def renameStep (base : FS) (pname : String) (k : AssetType) (oldPath : FsPath)
    (oldName newLinkName : String) (newTarget : FsPath)
    (cur : List PEntry) (e : PEntry) : List PEntry :=
  match e.node with
  | .link t =>
    if t == oldPath ||
        (!(base.presentNF t) && strContains (itemStr base.root pname k e.name) oldName) then
      let cur1 := cur.eraseP (fun x => x.name == e.name)
      if (cur1.find? (fun x => x.name == newLinkName)).isSome then cur1
      else cur1 ++ [⟨newLinkName, .link newTarget⟩]
    else cur
  | _ => cur

/-- The symlink-update loop of `rename_asset` over one plugin's kind
directory. -/
def renameDir (base : FS) (pname : String) (k : AssetType) (oldPath : FsPath)
    (oldName newLinkName : String) (newTarget : FsPath) (es : List PEntry) :
    List PEntry :=
  es.foldl (renameStep base pname k oldPath oldName newLinkName newTarget) es

/-- The per-plugin pass of `rename_asset`. -/
def renamePlugin (acc : FS) (pname : String) (k : AssetType) (oldPath : FsPath)
    (oldName newLinkName : String) (newTarget : FsPath) : FS :=
  match acc.pluginDir? pname with
  | none => acc
  | some pd =>
    match pd.kindDir k with
    | none => acc
    | some es =>
      acc.updatePluginsNamed pname (fun p =>
        p.setKindDir k (some (renameDir acc pname k oldPath oldName newLinkName newTarget es)))

/-- `rename_asset(old_name, new_name, asset_type)`. -/
def renameAsset (fs : FS) (oldName newName : String) (k : AssetType) :
    Except String FS :=
  match regResolve fs k oldName with
  | none => .error ("Asset '" ++ oldName ++ "' not found in " ++ k.value)
  | some oe =>
    let newEntryName :=
      match oe.node with
      | .file _ => newName ++ ".md"
      | .dir _ _ => newName
    if (fs.regEntryLookup k newEntryName).isSome then
      .error ("Asset '" ++ newName ++ "' already exists")
    else
      let fs1 := fs.setRegistry k
        (some (((fs.registry k).getD []).map (fun r =>
          if r.name == oe.name then { r with name := newEntryName } else r)))
      let oldPath : FsPath := ["registry", k.value, oe.name]
      let newLinkName := if isMdName newEntryName then newName ++ ".md" else newName
      let newTarget : FsPath := ["registry", k.value, newEntryName]
      let fs2 := (getPlugins fs1).foldl
        (fun acc p => renamePlugin acc p.name k oldPath oldName newLinkName newTarget) fs1
      .ok fs2

/-! ## Validator (`validate`) and repairer (`cmd_repair`) -/

/-- The dataclass `ValidationIssue`.  `path` is rendered root-relative; the
root prefix takes no part in validation or repair. -/
structure ValidationIssue where
  path : FsPath
  issue_type : String
  message : String
deriving DecidableEq

/-- Issues one plugin directory entry contributes in `validate`: only
symlinks are inspected; a target that does not exist is `broken`, an
existing target that `relative_to(registry_dir)` rejects is a `warning`. -/
def linkIssue (fs : FS) (pname : String) (k : AssetType) (e : PEntry) :
    List ValidationIssue :=
  match e.node with
  | .link t =>
    let ipath : FsPath := ["plugins", pname, k.value, e.name]
    if !(fs.presentNF t) then [⟨ipath, "broken", "Broken symlink"⟩]
    else
      match t with
      | d :: _ =>
        if d == "registry" then []
        else [⟨ipath, "warning", "Not pointing to registry"⟩]
      | [] => [⟨ipath, "warning", "Not pointing to registry"⟩]
  | _ => []

/-- The entries iterated for `plugins_dir/<pname>/<kind>/`: empty when the
plugin directory or the kind subdirectory does not exist (the
`if not assets_dir.exists(): continue` guard). -/
def pluginKindEntries (fs : FS) (pname : String) (k : AssetType) : List PEntry :=
  match fs.pluginDir? pname with
  | none => []
  | some pd => (pd.kindDir k).getD []

/-- The `issues` list accumulated by `validate()`: for every cataloged
plugin, for every kind, walk `plugins_dir/plugin.name/kind.value` when it
exists. -/
def validateIssues (fs : FS) : List ValidationIssue :=
  (getPlugins fs).flatMap (fun p =>
    AssetType.all.flatMap (fun k =>
      (pluginKindEntries fs p.name k).flatMap (linkIssue fs p.name k)))

/-- `validate()`: `(is_valid, issues)` with `is_valid` true iff no issue is
`broken`. -/
def validate (fs : FS) : Bool × List ValidationIssue :=
  (!(validateIssues fs).any (fun i => i.issue_type == "broken"), validateIssues fs)

/-- The candidate search of `cmd_repair`: in `registry/<kindName>/`, the
first existing entry among the recovered name, the name with `.md`
appended (when it lacks it), and the name with `.md` removed (when it has
it). -/
def findRepairMatch (fs : FS) (kindName targetName : String) : Option String :=
  match kindOf? kindName with
  | none => none
  | some k =>
    match fs.registry k with
    | none => none
    | some es =>
      let cands : List String := List.reduceOption
        [some targetName,
         if !(isMdName targetName) then some (targetName ++ ".md") else none,
         if isMdName targetName then some (replaceMd targetName) else none]
      cands.find? (fun c => (es.find? (fun e => e.name == c)).isSome)

/-- Remove a plugin directory entry by name (`path.unlink()`). -/
def removeEntryAt (fs : FS) (pname : String) (k : AssetType) (ename : String) : FS :=
  fs.updatePluginsNamed pname (fun pd =>
    match pd.kindDir k with
    | none => pd
    | some es => pd.setKindDir k (some (es.eraseP (fun e => e.name == ename))))

/-- Replace a plugin directory entry by a fresh symlink to `newT`
(`path.unlink()` followed by `os.symlink(rel_path, path)`). -/
def relinkEntryAt (fs : FS) (pname : String) (k : AssetType) (ename : String)
    (newT : FsPath) : FS :=
  fs.updatePluginsNamed pname (fun pd =>
    match pd.kindDir k with
    | none => pd
    | some es =>
      pd.setKindDir k (some (es.map (fun e =>
        if e.name == ename then ⟨ename, .link newT⟩ else e))))

/-- State threaded through the repair loop: the tree and the
broken/fixed/removed tallies. -/
structure RepairState where
  tree : FS
  broken : Nat
  fixed : Nat
  removed : Nat

/-- One iteration of the `cmd_repair` loop over the validation issues.
Non-`broken` issues are skipped; a path that is no longer a symlink is
counted broken and skipped; otherwise the raw link target's file name is
recovered (`os.readlink` + `Path(target).name` — the final component) and
the registry is searched next to the path's kind directory. -/
def repairStep (dryRun removeOnly : Bool) (st : RepairState) (issue : ValidationIssue) :
    RepairState :=
  if issue.issue_type != "broken" then st
  else
    let b := st.broken + 1
    match issue.path with
    | ["plugins", pname, kindName, ename] =>
      (match kindOf? kindName, st.tree.pluginDir? pname with
       | some k, some pd =>
         (match (pd.kindDir k).bind (List.find? (fun e => e.name == ename)) with
          | some ent =>
            (match ent.node with
             | .link t =>
               let targetName := t.getLastD ""
               (match findRepairMatch st.tree kindName targetName with
                | some m =>
                  if removeOnly then
                    { tree := if dryRun then st.tree else removeEntryAt st.tree pname k ename
                      broken := b, fixed := st.fixed, removed := st.removed + 1 }
                  else
                    { tree :=
                        if dryRun then st.tree
                        else relinkEntryAt st.tree pname k ename ["registry", kindName, m]
                      broken := b, fixed := st.fixed + 1, removed := st.removed }
                | none =>
                  { tree := if dryRun then st.tree else removeEntryAt st.tree pname k ename
                    broken := b, fixed := st.fixed, removed := st.removed + 1 })
             | _ => { st with broken := b })
          | none => { st with broken := b })
       | _, _ => { st with broken := b })
    | _ => { st with broken := b }

/-- `cmd_repair(args, builder)`: run `validate`, then walk its issues. -/
def repair (fs : FS) (dryRun removeOnly : Bool) : RepairState :=
  (validate fs).2.foldl (repairStep dryRun removeOnly)
    { tree := fs, broken := 0, fixed := 0, removed := 0 }

/-! ## Well-formedness of a marketplace tree

Facts any real on-disk tree satisfies (the OS enforces them), used as
hypotheses by the theorems: directory names are unique, names inside one
directory are unique, and each manifest's `name` field agrees with its
directory (the tool itself writes manifests that way). -/

/-- The manifest name (with its `data.get("name", dir)` default) matches the
directory name. -/
def manifestNameOk (pd : PluginDir) : Bool :=
  match pd.manifest with
  | .valid m => m.mname.getD pd.dirName == pd.dirName
  | _ => true

/-- Entry names of one optional directory listing are distinct. -/
def entNodup (o : Option (List PEntry)) : Prop :=
  ((o.getD []).map PEntry.name).Nodup

/-- Entry names of each kind subdirectory are distinct. -/
def PluginDir.dirsWF (pd : PluginDir) : Prop :=
  entNodup pd.pCommands ∧ entNodup pd.pAgents ∧ entNodup pd.pSkills

/-- Well-formed tree: distinct plugin directory names, manifests naming
their own directory, distinct entry names per directory. -/
def FS.wf (fs : FS) : Prop :=
  (fs.plugins.map PluginDir.dirName).Nodup ∧
  (∀ pd ∈ fs.plugins, manifestNameOk pd = true) ∧
  (∀ pd ∈ fs.plugins, pd.dirsWF)

instance (fs : FS) : Decidable fs.wf := by
  unfold FS.wf PluginDir.dirsWF entNodup
  infer_instance

theorem dirsWF_kindDir {pd : PluginDir} (h : pd.dirsWF) {k : AssetType}
    {es : List PEntry} (hes : pd.kindDir k = some es) :
    (es.map PEntry.name).Nodup := by
  obtain ⟨h1, h2, h3⟩ := h
  cases k <;> simp only [PluginDir.kindDir] at hes <;>
    simp_all [entNodup]

/-! ## Toolkit: sorting, deduplication, lookup -/

theorem perm_insertLe (le : α → α → Bool) (a : α) (l : List α) :
    (insertLe le a l).Perm (a :: l) := by
  induction l with
  | nil => simp [insertLe]
  | cons b bs ih =>
    by_cases h : le a b = true
    · simp [insertLe, h]
    · simp only [insertLe, h, if_false]
      exact ((ih.cons b).trans (List.Perm.swap a b bs))

theorem perm_sortLe (le : α → α → Bool) (l : List α) : (sortLe le l).Perm l := by
  induction l with
  | nil => simp [sortLe]
  | cons a as ih =>
    simp only [sortLe, List.foldr_cons]
    exact (perm_insertLe le a _).trans (ih.cons a)

theorem mem_sortLe {le : α → α → Bool} {l : List α} {a : α} :
    a ∈ sortLe le l ↔ a ∈ l :=
  (perm_sortLe le l).mem_iff

theorem countP_sortLe (le : α → α → Bool) (l : List α) (p : α → Bool) :
    (sortLe le l).countP p = l.countP p :=
  (perm_sortLe le l).countP_eq p

theorem nodup_sortLe {le : α → α → Bool} {l : List α} (h : l.Nodup) :
    (sortLe le l).Nodup :=
  ((perm_sortLe le l).nodup_iff).mpr h

theorem mem_dedupSeen {l : List String} {seen : List String} {a : String} :
    a ∈ dedupSeen seen l ↔ a ∈ l ∧ a ∉ seen := by
  induction l generalizing seen with
  | nil => simp [dedupSeen]
  | cons b bs ih =>
    simp only [dedupSeen]
    by_cases h : b ∈ seen
    · rw [if_pos (by simpa using h), ih, List.mem_cons]
      constructor
      · rintro ⟨hm, hn⟩
        exact ⟨Or.inr hm, hn⟩
      · rintro ⟨hm | hm, hn⟩
        · exact absurd (hm ▸ h) hn
        · exact ⟨hm, hn⟩
    · rw [if_neg (by simpa using h), List.mem_cons, List.mem_cons, ih]
      constructor
      · rintro (rfl | ⟨hm, hn⟩)
        · exact ⟨Or.inl rfl, h⟩
        · exact ⟨Or.inr hm, fun hs => hn (List.mem_cons_of_mem b hs)⟩
      · rintro ⟨rfl | hm, hn⟩
        · exact Or.inl rfl
        · by_cases hab : a = b
          · exact Or.inl hab
          · exact Or.inr ⟨hm, by simp [List.mem_cons, hab, hn]⟩

theorem nodup_dedupSeen (l : List String) (seen : List String) :
    (dedupSeen seen l).Nodup := by
  induction l generalizing seen with
  | nil => simp [dedupSeen]
  | cons b bs ih =>
    simp only [dedupSeen]
    by_cases h : b ∈ seen
    · rw [if_pos (by simpa using h)]
      exact ih seen
    · rw [if_neg (by simpa using h), List.nodup_cons]
      refine ⟨fun hmem => ?_, ih (b :: seen)⟩
      exact (mem_dedupSeen.mp hmem).2 (List.mem_cons_self b seen)

theorem mem_dedupStr {l : List String} {a : String} : a ∈ dedupStr l ↔ a ∈ l := by
  simp [dedupStr, mem_dedupSeen]

theorem nodup_dedupStr (l : List String) : (dedupStr l).Nodup :=
  nodup_dedupSeen l []

/-- `find?` by directory name returns the member itself when directory
names are unique. -/
theorem find?_dirName_of_nodup {l : List PluginDir}
    (h : (l.map PluginDir.dirName).Nodup) {pd : PluginDir} (hm : pd ∈ l) :
    l.find? (fun x => x.dirName == pd.dirName) = some pd := by
  induction l with
  | nil => cases hm
  | cons a as ih =>
    rcases List.mem_cons.mp hm with rfl | hm'
    · simp [List.find?]
    · have hne : a.dirName ≠ pd.dirName := by
        intro he
        have : pd.dirName ∈ as.map PluginDir.dirName :=
          List.mem_map.mpr ⟨pd, hm', rfl⟩
        simp only [List.map_cons, List.nodup_cons] at h
        exact h.1 (he ▸ this)
      have hna : (a.dirName == pd.dirName) = false := by
        simpa using hne
      simp only [List.find?, hna]
      exact ih (by simpa using (List.nodup_cons.mp (by simpa using h)).2) hm'

/-! ## Toolkit: structural lemmas about tree updates -/

@[simp] theorem kindDir_setKindDir_self (pd : PluginDir) (k : AssetType)
    (v : Option (List PEntry)) : (pd.setKindDir k v).kindDir k = v := by
  cases k <;> rfl

theorem kindDir_setKindDir_ne (pd : PluginDir) {k k' : AssetType}
    (h : k' ≠ k) (v : Option (List PEntry)) :
    (pd.setKindDir k v).kindDir k' = pd.kindDir k' := by
  cases k <;> cases k' <;> first | rfl | exact absurd rfl h

@[simp] theorem dirName_setKindDir (pd : PluginDir) (k : AssetType)
    (v : Option (List PEntry)) : (pd.setKindDir k v).dirName = pd.dirName := by
  cases k <;> rfl

@[simp] theorem manifest_setKindDir (pd : PluginDir) (k : AssetType)
    (v : Option (List PEntry)) : (pd.setKindDir k v).manifest = pd.manifest := by
  cases k <;> rfl

@[simp] theorem registry_setRegistry_self (fs : FS) (k : AssetType)
    (v : Option (List RegEntry)) : (fs.setRegistry k v).registry k = v := by
  cases k <;> rfl

theorem registry_setRegistry_ne (fs : FS) {k k' : AssetType} (h : k' ≠ k)
    (v : Option (List RegEntry)) :
    (fs.setRegistry k v).registry k' = fs.registry k' := by
  cases k <;> cases k' <;> first | rfl | exact absurd rfl h

@[simp] theorem plugins_setRegistry (fs : FS) (k : AssetType)
    (v : Option (List RegEntry)) : (fs.setRegistry k v).plugins = fs.plugins := by
  cases k <;> rfl

@[simp] theorem root_setRegistry (fs : FS) (k : AssetType)
    (v : Option (List RegEntry)) : (fs.setRegistry k v).root = fs.root := by
  cases k <;> rfl

@[simp] theorem other_setRegistry (fs : FS) (k : AssetType)
    (v : Option (List RegEntry)) : (fs.setRegistry k v).other = fs.other := by
  cases k <;> rfl

@[simp] theorem root_updatePluginsNamed (fs : FS) (n : String) (f : PluginDir → PluginDir) :
    (fs.updatePluginsNamed n f).root = fs.root := rfl

@[simp] theorem other_updatePluginsNamed (fs : FS) (n : String) (f : PluginDir → PluginDir) :
    (fs.updatePluginsNamed n f).other = fs.other := rfl

@[simp] theorem registry_updatePluginsNamed (fs : FS) (n : String)
    (f : PluginDir → PluginDir) (k : AssetType) :
    (fs.updatePluginsNamed n f).registry k = fs.registry k := by
  cases k <;> rfl

@[simp] theorem plugins_updatePluginsNamed (fs : FS) (n : String)
    (f : PluginDir → PluginDir) :
    (fs.updatePluginsNamed n f).plugins =
      fs.plugins.map (fun pd => if pd.dirName == n then f pd else pd) := rfl

@[simp] theorem regEntryLookup_updatePluginsNamed (fs : FS) (n : String)
    (f : PluginDir → PluginDir) (k : AssetType) (s : String) :
    (fs.updatePluginsNamed n f).regEntryLookup k s = fs.regEntryLookup k s := by
  simp [FS.regEntryLookup]

/-- `presentNF` of a registry-rooted path reads only the registry
directories and the `other` list, so plugin-directory edits do not change
it. -/
theorem presentNF_registry_invariant (fs fs' : FS)
    (hreg : ∀ k, fs'.registry k = fs.registry k) (hoth : fs'.other = fs.other)
    (rest : List String) :
    fs'.presentNF ("registry" :: rest) = fs.presentNF ("registry" :: rest) := by
  have hlook : ∀ k s, fs'.regEntryLookup k s = fs.regEntryLookup k s := by
    intro k s
    simp [FS.regEntryLookup, hreg k]
  have hrp : ("registry" == "plugins") = false := by decide
  match rest with
  | [] => simp [FS.presentNF]
  | [kv] =>
    simp only [FS.presentNF, beq_self_eq_true, if_true]
    cases kindOf? kv <;> simp [hreg, hoth]
  | [kv, e] =>
    simp only [FS.presentNF, beq_self_eq_true, if_true]
    cases kindOf? kv <;> simp [hlook, hoth]
  | kv :: e :: x :: more =>
    cases more with
    | nil => simp [FS.presentNF, hrp, hoth]
    | cons y ys => simp [FS.presentNF, hoth]

/-! ## Toolkit: catalog characterizations -/

theorem mem_getPlugins {fs : FS} {p : Plugin} :
    p ∈ getPlugins fs ↔ ∃ pd ∈ fs.plugins, pd.toPlugin? = some p := by
  simp [getPlugins, mem_sortLe, List.mem_filterMap]

theorem toPlugin?_name {pd : PluginDir} {p : Plugin}
    (h : pd.toPlugin? = some p) (hok : manifestNameOk pd = true) :
    p.name = pd.dirName := by
  unfold PluginDir.toPlugin? at h
  split at h
  · exact absurd h (by simp)
  · revert h
    unfold manifestNameOk at hok
    cases hm : pd.manifest with
    | valid m =>
      intro h
      simp only [hm] at h
      cases h
      simpa [hm] using hok
    | absent => intro h; simp [hm] at h
    | invalid => intro h; simp [hm] at h

theorem toPlugin?_manifest {pd : PluginDir} {p : Plugin}
    (h : pd.toPlugin? = some p) : ∃ m, pd.manifest = .valid m := by
  unfold PluginDir.toPlugin? at h
  split at h
  · exact absurd h (by simp)
  · cases hm : pd.manifest with
    | valid m => exact ⟨m, rfl⟩
    | absent => simp [hm] at h
    | invalid => simp [hm] at h

theorem toPlugin?_kindList {pd : PluginDir} {p : Plugin}
    (h : pd.toPlugin? = some p) (k : AssetType) :
    p.kindList k = listPluginAssets pd k := by
  unfold PluginDir.toPlugin? at h
  split at h
  · exact absurd h (by simp)
  · cases hm : pd.manifest with
    | valid m =>
      simp only [hm] at h
      cases h
      cases k <;> rfl
    | absent => simp [hm] at h
    | invalid => simp [hm] at h

theorem toPlugin?_isSome_of_valid {pd : PluginDir} {m : Manifest}
    (hm : pd.manifest = .valid m) (hdot : pyStartsWith pd.dirName "." = false) :
    ∃ p, pd.toPlugin? = some p := by
  simp [PluginDir.toPlugin?, hdot, hm]

theorem mem_listPluginAssets {pd : PluginDir} {k : AssetType} {s : String} :
    s ∈ listPluginAssets pd k ↔
      ∃ es, pd.kindDir k = some es ∧ ∃ e ∈ es, s ∈ pentryNames e := by
  unfold listPluginAssets
  cases h : pd.kindDir k with
  | none => simp
  | some es => simp [mem_sortLe, mem_dedupStr, List.mem_flatMap]

/-! ## Toolkit: validate characterizations -/

theorem validate_fst_iff (fs : FS) :
    (validate fs).1 = true ↔ ∀ i ∈ (validate fs).2, i.issue_type ≠ "broken" := by
  show (!(validateIssues fs).any (fun i => i.issue_type == "broken")) = true ↔ _
  rw [Bool.not_eq_true', List.any_eq_false]
  constructor
  · intro h i hi
    simpa using h i hi
  · intro h i hi
    simpa using h i hi

theorem mem_pluginKindEntries {fs : FS} {n : String} {k : AssetType} {e : PEntry} :
    e ∈ pluginKindEntries fs n k ↔
      ∃ pd, fs.pluginDir? n = some pd ∧ ∃ es, pd.kindDir k = some es ∧ e ∈ es := by
  unfold pluginKindEntries
  cases hpd : fs.pluginDir? n with
  | none => simp
  | some pd =>
    cases hes : pd.kindDir k with
    | none => simp [hes]
    | some es => simp [hes]

theorem mem_validateIssues {fs : FS} {i : ValidationIssue} :
    i ∈ validateIssues fs ↔
      ∃ p ∈ getPlugins fs, ∃ k ∈ AssetType.all, ∃ pd,
        fs.pluginDir? p.name = some pd ∧ ∃ es, pd.kindDir k = some es ∧
          ∃ e ∈ es, i ∈ linkIssue fs p.name k e := by
  unfold validateIssues
  simp only [List.mem_flatMap]
  constructor
  · rintro ⟨p, hp, k, hk, e, he, hie⟩
    rcases mem_pluginKindEntries.mp he with ⟨pd, hpd, es, hes, hees⟩
    exact ⟨p, hp, k, hk, pd, hpd, es, hes, e, hees, hie⟩
  · rintro ⟨p, hp, k, hk, pd, hpd, es, hes, e, he, hie⟩
    exact ⟨p, hp, k, hk, e, mem_pluginKindEntries.mpr ⟨pd, hpd, es, hes, he⟩, hie⟩

theorem validateIssues_eq_nil_iff (fs : FS) :
    validateIssues fs = [] ↔
      ∀ p ∈ getPlugins fs, ∀ k : AssetType,
        ∀ e ∈ pluginKindEntries fs p.name k, linkIssue fs p.name k e = [] := by
  unfold validateIssues
  rw [List.flatMap_eq_nil_iff]
  constructor
  · intro h p hp k e he
    have h2 := h p hp
    rw [List.flatMap_eq_nil_iff] at h2
    have h3 := h2 k (by cases k <;> simp [AssetType.all])
    rw [List.flatMap_eq_nil_iff] at h3
    exact h3 e he
  · intro h p hp
    rw [List.flatMap_eq_nil_iff]
    intro k hk
    rw [List.flatMap_eq_nil_iff]
    exact fun e he => h p hp k e he

theorem linkIssue_eq_nil_iff {fs : FS} {n : String} {k : AssetType} {e : PEntry} :
    linkIssue fs n k e = [] ↔
      ∀ t, e.node = .link t → fs.presentNF t = true ∧ ∃ r, t = "registry" :: r := by
  cases hn : e.node with
  | file => simp [linkIssue, hn]
  | dir => simp [linkIssue, hn]
  | link t =>
    simp only [linkIssue, hn]
    by_cases hp : fs.presentNF t = true
    · rw [hp]
      simp only [Bool.not_true, Bool.false_eq_true, if_false]
      cases t with
      | nil => simp [hp]
      | cons d r0 =>
        by_cases hreg : d = "registry"
        · subst hreg
          simp [hp]
        · have hd : (d == "registry") = false := by simpa using hreg
          simp only [hd, Bool.false_eq_true, if_false]
          constructor
          · intro hcontra
            cases hcontra
          intro hcontra
          exfalso
          have h2 := hcontra (d :: r0) rfl
          rcases h2.2 with ⟨r, hr⟩
          cases hr
          exact hreg rfl
    · have hp' : fs.presentNF t = false := by
        simpa using hp
      rw [hp']
      simp only [Bool.not_false, if_true]
      constructor
      · intro h
        cases h
      · intro h
        exact absurd (h t rfl).1 hp

theorem validate_snd (fs : FS) : (validate fs).2 = validateIssues fs := rfl

theorem mem_linkIssue_iff {fs : FS} {n : String} {k : AssetType} {e : PEntry}
    {i : ValidationIssue} :
    i ∈ linkIssue fs n k e ↔
      ∃ t, e.node = .link t ∧
        ((fs.presentNF t = false ∧
            i = ⟨["plugins", n, k.value, e.name], "broken", "Broken symlink"⟩) ∨
          (fs.presentNF t = true ∧ (∀ r, t ≠ "registry" :: r) ∧
            i = ⟨["plugins", n, k.value, e.name], "warning",
                  "Not pointing to registry"⟩)) := by
  cases hn : e.node with
  | file => simp [linkIssue, hn]
  | dir => simp [linkIssue, hn]
  | link t =>
    simp only [linkIssue, hn, PNode.link.injEq]
    by_cases hp : fs.presentNF t = true
    · rw [hp]
      simp only [Bool.not_true, Bool.false_eq_true, if_false]
      cases t with
      | nil =>
        simp only [List.mem_singleton]
        constructor
        · intro h
          exact ⟨[], rfl, Or.inr (by simp [hp, h])⟩
        · rintro ⟨t', rfl, (⟨hf, _⟩ | ⟨_, _, hi⟩)⟩
          · rw [hp] at hf
            cases hf
          · exact hi
      | cons d r0 =>
        by_cases hreg : d = "registry"
        · subst hreg
          simp only [beq_self_eq_true, if_true, List.not_mem_nil, false_iff]
          rintro ⟨t', rfl, (⟨hf, _⟩ | ⟨_, hne, _⟩)⟩
          · rw [hp] at hf
            cases hf
          · exact hne r0 rfl
        · have hd : (d == "registry") = false := by simpa using hreg
          simp only [hd, Bool.false_eq_true, if_false, List.mem_singleton]
          constructor
          · intro h
            refine ⟨d :: r0, rfl, Or.inr ⟨hp, ?_, h⟩⟩
            intro r hr
            cases hr
            exact hreg rfl
          · rintro ⟨t', rfl, (⟨hf, _⟩ | ⟨_, _, hi⟩)⟩
            · rw [hp] at hf
              cases hf
            · exact hi
    · have hp' : fs.presentNF t = false := by simpa using hp
      rw [hp']
      simp only [Bool.not_false, if_true, List.mem_singleton]
      constructor
      · intro h
        exact ⟨t, rfl, Or.inl ⟨hp', h⟩⟩
      · rintro ⟨t', rfl, (⟨_, hi⟩ | ⟨ht, _, _⟩)⟩
        · exact hi
        · rw [hp'] at ht
          cases ht

/-- Two entries of a directory with distinct names are equal when their
names agree. -/
theorem pentry_eq_of_name_eq {es : List PEntry} (h : (es.map PEntry.name).Nodup)
    {a b : PEntry} (ha : a ∈ es) (hb : b ∈ es) (hn : a.name = b.name) : a = b := by
  induction es with
  | nil => cases ha
  | cons x xs ih =>
    simp only [List.map_cons, List.nodup_cons] at h
    rcases List.mem_cons.mp ha with rfl | ha' <;>
      rcases List.mem_cons.mp hb with rfl | hb'
    · rfl
    · exfalso
      apply h.1
      rw [hn]
      exact List.mem_map.mpr ⟨b, hb', rfl⟩
    · exfalso
      apply h.1
      rw [← hn]
      exact List.mem_map.mpr ⟨a, ha', rfl⟩
    · exact ih h.2 ha' hb'

theorem assetTypeValue_inj {k k' : AssetType} (h : k.value = k'.value) : k = k' := by
  cases k <;> cases k' <;> first | rfl | (exfalso; revert h; decide)

theorem pluginDir?_of_wf {fs : FS} (hwf : fs.wf) {pd : PluginDir}
    (hm : pd ∈ fs.plugins) : fs.pluginDir? pd.dirName = some pd :=
  find?_dirName_of_nodup hwf.1 hm

/-- Under well-formedness, a valid, non-hidden plugin directory contributes
every issue of each of its entries to `validate`'s issue list. -/
theorem linkIssue_sub_validateIssues {fs : FS} (hwf : fs.wf) {pd : PluginDir}
    (hm : pd ∈ fs.plugins) {m : Manifest} (hman : pd.manifest = .valid m)
    (hdot : pyStartsWith pd.dirName "." = false)
    {k : AssetType} {es : List PEntry} (hes : pd.kindDir k = some es)
    {e : PEntry} (he : e ∈ es) {i : ValidationIssue}
    (hi : i ∈ linkIssue fs pd.dirName k e) : i ∈ validateIssues fs := by
  rcases toPlugin?_isSome_of_valid hman hdot with ⟨p, hp⟩
  have hname : p.name = pd.dirName := toPlugin?_name hp (hwf.2.1 pd hm)
  refine mem_validateIssues.mpr ⟨p, mem_getPlugins.mpr ⟨pd, hm, hp⟩, k,
    (by cases k <;> simp [AssetType.all]), pd, ?_, es, hes, e, he, ?_⟩
  · rw [hname]
    exact pluginDir?_of_wf hwf hm
  · rw [hname]
    exact hi

/-- Under well-formedness, every issue whose path points into the directory
of `pd` at kind `k` and entry `e` comes from `e` itself. -/
theorem issue_at_path_from_entry {fs : FS} (hwf : fs.wf) {pd : PluginDir}
    (hm : pd ∈ fs.plugins) {k : AssetType} {es : List PEntry}
    (hes : pd.kindDir k = some es) {e : PEntry} (he : e ∈ es)
    {i : ValidationIssue} (hi : i ∈ validateIssues fs)
    (hpath : i.path = ["plugins", pd.dirName, k.value, e.name]) :
    i ∈ linkIssue fs pd.dirName k e := by
  rcases mem_validateIssues.mp hi with
    ⟨p', _, k', _, pd', hpd', es', hes', e', he', hie'⟩
  rcases mem_linkIssue_iff.mp hie' with ⟨t', hn', hcase⟩
  have hpath' : i.path = ["plugins", p'.name, k'.value, e'.name] := by
    rcases hcase with ⟨_, rfl⟩ | ⟨_, _, rfl⟩ <;> rfl
  rw [hpath] at hpath'
  simp only [List.cons.injEq, and_true] at hpath'
  obtain ⟨-, hpn', hkv', hen'⟩ := hpath'
  have hpn : p'.name = pd.dirName := hpn'.symm
  have hen : e'.name = e.name := hen'.symm
  have hk : k' = k := assetTypeValue_inj hkv'.symm
  subst hk
  have hpd'' : pd' = pd := by
    rw [hpn, pluginDir?_of_wf hwf hm] at hpd'
    exact (Option.some.inj hpd').symm
  subst hpd''
  have hese : es' = es := by
    rw [hes] at hes'
    exact (Option.some.inj hes').symm
  subst hese
  have hee : e' = e :=
    pentry_eq_of_name_eq (dirsWF_kindDir (hwf.2.2 _ hm) hes) he' he hen
  subst hee
  rw [hpn] at hie'
  exact hie'

/-- C3.  `validate()` returns `is_valid = true` iff its issue list has no
`broken` issue; a symlink with a nonexistent target contributes a `broken`
issue at its path; a symlink whose target exists outside the registry root
contributes a `warning` at its path and no `broken` issue there; and a
state whose issues are all warnings still validates. -/
theorem c3_validate_broken_and_warning
    (fs : FS) (hwf : fs.wf)
    (pd : PluginDir) (hm : pd ∈ fs.plugins)
    (man : Manifest) (hman : pd.manifest = .valid man)
    (hdot : pyStartsWith pd.dirName "." = false)
    (k : AssetType) (es : List PEntry) (hes : pd.kindDir k = some es)
    (e : PEntry) (he : e ∈ es) (t : FsPath) (ht : e.node = .link t) :
    ((validate fs).1 = true ↔ ∀ i ∈ (validate fs).2, i.issue_type ≠ "broken") ∧
    ((∀ i ∈ (validate fs).2, i.issue_type = "warning") → (validate fs).1 = true) ∧
    (fs.presentNF t = false →
      (⟨["plugins", pd.dirName, k.value, e.name], "broken", "Broken symlink"⟩ :
        ValidationIssue) ∈ (validate fs).2) ∧
    (fs.presentNF t = true → (∀ r, t ≠ "registry" :: r) →
      ((⟨["plugins", pd.dirName, k.value, e.name], "warning",
          "Not pointing to registry"⟩ : ValidationIssue) ∈ (validate fs).2 ∧
        ∀ msg, (⟨["plugins", pd.dirName, k.value, e.name], "broken", msg⟩ :
          ValidationIssue) ∉ (validate fs).2)) := by
  refine ⟨validate_fst_iff fs, ?_, ?_, ?_⟩
  · intro hall
    rw [validate_fst_iff]
    intro i hi
    rw [hall i hi]
    decide
  · intro hbrok
    refine linkIssue_sub_validateIssues hwf hm hman hdot hes he ?_
    exact mem_linkIssue_iff.mpr ⟨t, ht, Or.inl ⟨hbrok, rfl⟩⟩
  · intro hpres hout
    constructor
    · refine linkIssue_sub_validateIssues hwf hm hman hdot hes he ?_
      exact mem_linkIssue_iff.mpr ⟨t, ht, Or.inr ⟨hpres, hout, rfl⟩⟩
    · intro msg hmem
      have hsrc := issue_at_path_from_entry hwf hm hes he hmem rfl
      rcases mem_linkIssue_iff.mp hsrc with ⟨t', hn', hcase⟩
      rw [ht] at hn'
      injection hn' with hn'
      subst hn'
      rcases hcase with ⟨hf, _⟩ | ⟨_, _, hi⟩
      · rw [hpres] at hf
        cases hf
      · have h2 : "broken" = "warning" := congrArg ValidationIssue.issue_type hi
        exact absurd h2 (by decide)

/-- A concrete tree for the C3 witness: one plugin with one broken link
and one link pointing outside the registry. -/
def c3Dir : PluginDir :=
  ⟨"demo", .valid ⟨some "demo", none, none, none⟩,
    some [⟨"gone.md", .link ["registry", "commands", "zap.md"]⟩,
          ⟨"ext", .link ["elsewhere", "x"]⟩], none, none⟩

/-- The tree holding `c3Dir`. -/
def c3Tree : FS := ⟨"/mp", some [], none, none, [c3Dir], [["elsewhere", "x"]]⟩

/-- Witness for C3 at the concrete tree. -/
theorem c3_witness :
    (validate c3Tree).1 = false ∧
    (⟨["plugins", "demo", "commands", "gone.md"], "broken", "Broken symlink"⟩ :
      ValidationIssue) ∈ (validate c3Tree).2 ∧
    (⟨["plugins", "demo", "commands", "ext"], "warning",
        "Not pointing to registry"⟩ : ValidationIssue) ∈ (validate c3Tree).2 := by
  refine ⟨by decide, ?_, ?_⟩
  · exact (c3_validate_broken_and_warning c3Tree (by decide) c3Dir (by decide)
      ⟨some "demo", none, none, none⟩ (by decide) (by decide) .command
      [⟨"gone.md", .link ["registry", "commands", "zap.md"]⟩,
       ⟨"ext", .link ["elsewhere", "x"]⟩] (by decide)
      ⟨"gone.md", .link ["registry", "commands", "zap.md"]⟩ (by decide)
      ["registry", "commands", "zap.md"] (by decide)).2.2.1 (by decide)
  · exact ((c3_validate_broken_and_warning c3Tree (by decide) c3Dir (by decide)
      ⟨some "demo", none, none, none⟩ (by decide) (by decide) .command
      [⟨"gone.md", .link ["registry", "commands", "zap.md"]⟩,
       ⟨"ext", .link ["elsewhere", "x"]⟩] (by decide)
      ⟨"ext", .link ["elsewhere", "x"]⟩ (by decide)
      ["elsewhere", "x"] (by decide)).2.2.2 (by decide)
      (by
        intro r h
        injection h with h1 h2
        exact absurd h1 (by decide))).1

/-- Whether a plugin entry is a symbolic link. -/
def PNode.isLink : PNode → Bool
  | .link _ => true
  | _ => false

/-- No entry of the listing is a symbolic link. -/
def noLinkEntries (o : Option (List PEntry)) : Bool :=
  (o.getD []).all (fun e => !e.node.isLink)

/-- The plugin directory holds only plain files and directories. -/
def PluginDir.noLinks (pd : PluginDir) : Bool :=
  noLinkEntries pd.pCommands && noLinkEntries pd.pAgents && noLinkEntries pd.pSkills

theorem noLinks_kindDir {pd : PluginDir} (h : pd.noLinks = true) {k : AssetType}
    {es : List PEntry} (hes : pd.kindDir k = some es) {e : PEntry} (he : e ∈ es)
    (t : FsPath) : e.node ≠ PNode.link t := by
  intro hn
  unfold PluginDir.noLinks at h
  rw [Bool.and_eq_true, Bool.and_eq_true] at h
  have hk : noLinkEntries (pd.kindDir k) = true := by
    cases k
    · exact h.1.1
    · exact h.1.2
    · exact h.2
  rw [hes] at hk
  unfold noLinkEntries at hk
  rw [List.all_eq_true] at hk
  have := hk e he
  rw [hn] at this
  simp [PNode.isLink] at this

/-- C10.  Every issue `validate()` reports originates in a symbolic-link
entry of some plugin's kind subdirectory (its path is exactly that entry's
path); plain files and plain directories inside plugin kind subdirectories
never produce an issue, so a tree whose plugins hold only plain content
validates cleanly. -/
theorem c10_issues_only_from_symlinks (fs : FS) :
    (∀ i ∈ (validate fs).2, ∃ pd ∈ fs.plugins, ∃ k : AssetType, ∃ es,
        pd.kindDir k = some es ∧ ∃ e ∈ es, (∃ t, e.node = PNode.link t) ∧
          i.path = ["plugins", pd.dirName, k.value, e.name]) ∧
    ((∀ pd ∈ fs.plugins, pd.noLinks = true) → validate fs = (true, [])) := by
  constructor
  · intro i hi
    rw [validate_snd] at hi
    rcases mem_validateIssues.mp hi with
      ⟨p, hp, k, hk, pd, hpd, es, hes, e, he, hie⟩
    have hpdmem : pd ∈ fs.plugins := List.mem_of_find?_eq_some hpd
    have hdn : pd.dirName = p.name := by
      have := List.find?_some hpd
      simpa using this
    rcases mem_linkIssue_iff.mp hie with ⟨t, hn, hcase⟩
    refine ⟨pd, hpdmem, k, es, hes, e, he, ⟨t, hn⟩, ?_⟩
    rw [hdn]
    rcases hcase with ⟨_, rfl⟩ | ⟨_, _, rfl⟩ <;> rfl
  · intro hnol
    have hnil : validateIssues fs = [] := by
      rw [validateIssues_eq_nil_iff]
      intro p hp k e he
      rcases mem_pluginKindEntries.mp he with ⟨pd, hpd, es, hes, hees⟩
      have hpdmem : pd ∈ fs.plugins := List.mem_of_find?_eq_some hpd
      rw [linkIssue_eq_nil_iff]
      intro t ht
      exact absurd ht (noLinks_kindDir (hnol pd hpdmem) hes hees t)
    show (!(validateIssues fs).any (fun i => i.issue_type == "broken"),
      validateIssues fs) = (true, [])
    rw [hnil]
    rfl

/-- A tree whose single plugin carries a legacy plain copy (a directory and
a plain file) instead of links. -/
def c10Tree : FS :=
  ⟨"/mp", some [⟨"lint.md", .file (some "x")⟩], none, none,
    [⟨"demo", .valid ⟨some "demo", none, none, none⟩,
      some [⟨"lint.md", .file⟩], none, some [⟨"writer", .dir⟩]⟩], []⟩

/-- Witness for C10: the legacy tree validates cleanly. -/
theorem c10_witness : validate c10Tree = (true, []) :=
  (c10_issues_only_from_symlinks c10Tree).2 (by decide)

/-- The content reads of `_get_asset_description` all fail: the entry is a
file whose read raises, or a directory whose `SKILL.md` (when present, else
`README.md`) raises, or a directory with neither candidate file. -/
def RegNode.readFails : RegNode → Prop
  | .file c => c = none
  | .dir sk rm => sk = some none ∨ (sk = none ∧ (rm = some none ∨ rm = none))

theorem toPlugin?_none_of_bad {pd : PluginDir}
    (h : pd.manifest = .invalid ∨ pd.manifest = .absent) :
    pd.toPlugin? = none := by
  unfold PluginDir.toPlugin?
  rcases h with h | h <;> rw [h] <;> split <;> rfl

/-- C9.  Read-side operations degrade instead of raising: description
extraction yields the empty string whenever the content reads fail, and a
plugin directory whose manifest is missing or unparsable is skipped by
`get_plugins` without affecting the rest of the scan.  (All read-side
functions of the embedding are total, mirroring the `try/except` guards of
the source.) -/
theorem c9_read_side_degrades :
    (∀ nd : RegNode, nd.readFails → nd.description = "") ∧
    (∀ (root : String) (rc ra rs : Option (List RegEntry))
        (l1 l2 : List PluginDir) (pd : PluginDir) (oth : List FsPath),
      pd.manifest = .invalid ∨ pd.manifest = .absent →
      getPlugins ⟨root, rc, ra, rs, l1 ++ pd :: l2, oth⟩ =
        getPlugins ⟨root, rc, ra, rs, l1 ++ l2, oth⟩) := by
  constructor
  · intro nd h
    cases nd with
    | file c =>
      have hc : c = none := h
      subst hc
      rfl
    | dir sk rm =>
      rcases h with h | ⟨h1, h2⟩
      · subst h
        rfl
      · subst h1
        rcases h2 with h2 | h2 <;> subst h2 <;> rfl
  · intro root rc ra rs l1 l2 pd oth h
    show sortLe plugLe (List.filterMap PluginDir.toPlugin? (l1 ++ pd :: l2)) =
      sortLe plugLe (List.filterMap PluginDir.toPlugin? (l1 ++ l2))
    rw [List.filterMap_append, List.filterMap_append,
      List.filterMap_cons_none (toPlugin?_none_of_bad h)]

/-- Witness for C9: a failing read yields the empty description, and the
scan of a concrete tree skips its unparsable plugin. -/
theorem c9_witness :
    RegNode.description (.dir (some none) (some (some "text"))) = "" ∧
    getPlugins ⟨"", none, none, none,
        [⟨"good", .valid ⟨some "good", none, none, none⟩, some [], none, none⟩,
         ⟨"bad", .invalid, some [], none, none⟩], []⟩ =
      getPlugins ⟨"", none, none, none,
        [⟨"good", .valid ⟨some "good", none, none, none⟩, some [], none, none⟩], []⟩ := by
  constructor
  · exact c9_read_side_degrades.1 (.dir (some none) (some (some "text")))
      (Or.inl rfl)
  · exact c9_read_side_degrades.2 "" none none none
      [⟨"good", .valid ⟨some "good", none, none, none⟩, some [], none, none⟩] []
      ⟨"bad", .invalid, some [], none, none⟩ [] (Or.inl rfl)

/-! ## Toolkit: name normalization facts -/

theorem isMdName_append_md (a : String) : isMdName (a ++ ".md") = true := by
  unfold isMdName pyEndsWith
  rw [List.isSuffixOf_iff_suffix, String.data_append]
  exact List.suffix_append a.data _

theorem stripMd_append_md (a : String) : stripMd (a ++ ".md") = a := by
  unfold stripMd
  rw [isMdName_append_md]
  simp only [if_true, String.data_append]
  have hlen : (a.data ++ ".md".data).length - 3 = a.data.length := by
    simp [List.length_append]
  rw [hlen]
  have : (a.data ++ ".md".data).take a.data.length = a.data :=
    List.take_left a.data _
  rw [this]

theorem stripMd_of_not_md {a : String} (h : isMdName a = false) : stripMd a = a := by
  unfold stripMd
  rw [h]
  rfl

theorem startsWith_dot_append_md {a : String} (hne : a ≠ "")
    (h : pyStartsWith a "." = false) : pyStartsWith (a ++ ".md") "." = false := by
  unfold pyStartsWith at h ⊢
  rw [String.data_append]
  cases hd : a.data with
  | nil => exact absurd (String.ext hd) hne
  | cons c cs =>
    rw [hd] at h
    simpa [List.isPrefixOf] using (by simpa [List.isPrefixOf] using h)

/-- The entry found by `regResolve` is named either by the asset name or by
the asset name with `.md` appended. -/
theorem regResolve_name {fs : FS} {k : AssetType} {a : String} {re : RegEntry}
    (h : regResolve fs k a = some re) : re.name = a ∨ re.name = a ++ ".md" := by
  unfold regResolve at h
  cases h1 : fs.regEntryLookup k a with
  | some e =>
    rw [h1] at h
    injection h with h
    subst h
    unfold FS.regEntryLookup at h1
    cases h2 : fs.registry k with
    | none => rw [h2] at h1; cases h1
    | some es =>
      rw [h2] at h1
      have := List.find?_some h1
      exact Or.inl (by simpa using this)
  | none =>
    rw [h1] at h
    unfold FS.regEntryLookup at h
    cases h2 : fs.registry k with
    | none => rw [h2] at h; cases h
    | some es =>
      rw [h2] at h
      have := List.find?_some h
      exact Or.inr (by simpa using this)

theorem kindOf?_value (k : AssetType) : kindOf? k.value = some k := by
  cases k <;> decide

theorem presentNF_reg_entry (fs : FS) (k : AssetType) (n : String) :
    fs.presentNF ["registry", k.value, n] = (fs.regEntryLookup k n).isSome := by
  simp [FS.presentNF, kindOf?_value]

theorem regResolve_isSome_lookup {fs : FS} {k : AssetType} {a : String}
    {re : RegEntry} (h : regResolve fs k a = some re) :
    (fs.regEntryLookup k re.name).isSome = true := by
  have hmem : ∃ es, fs.registry k = some es ∧ re ∈ es := by
    unfold regResolve FS.regEntryLookup at h
    cases h2 : fs.registry k with
    | none => rw [h2] at h; cases h
    | some es =>
      rw [h2] at h
      simp only [] at h
      refine ⟨es, rfl, ?_⟩
      cases h3 : es.find? (fun e => e.name == a) with
      | some e =>
        rw [h3] at h
        injection h with h
        exact h ▸ List.mem_of_find?_eq_some h3
      | none =>
        rw [h3] at h
        exact List.mem_of_find?_eq_some h
  rcases hmem with ⟨es, hes, hmem⟩
  unfold FS.regEntryLookup
  rw [hes]
  exact List.find?_isSome.mpr ⟨re, hmem, by simp⟩

theorem append_md_ne (a : String) : (a ++ ".md") ≠ a := by
  intro h
  have h2 := congrArg (fun s => s.data.length) h
  simp [String.data_append] at h2

theorem setKindDir_setKindDir (pd : PluginDir) (k : AssetType)
    (v w : Option (List PEntry)) :
    (pd.setKindDir k v).setKindDir k w = pd.setKindDir k w := by
  cases k <;> rfl

theorem listPluginAssets_setKindDir_getD (pd : PluginDir) (k : AssetType) :
    listPluginAssets (pd.setKindDir k (some ((pd.kindDir k).getD []))) k =
      listPluginAssets pd k := by
  cases h : pd.kindDir k <;>
    simp [listPluginAssets, h, dedupStr, dedupSeen, sortLe]

theorem manifestNameOk_congr {pd pd' : PluginDir} (hd : pd'.dirName = pd.dirName)
    (hm : pd'.manifest = pd.manifest) : manifestNameOk pd' = manifestNameOk pd := by
  unfold manifestNameOk
  rw [hd, hm]

/-- Updating one plugin directory's kind listing keeps the tree
well-formed provided the new listing keeps its names distinct. -/
theorem wf_updatePluginsNamed {fs : FS} (hwf : fs.wf) {n : String}
    {f : PluginDir → PluginDir}
    (hname : ∀ pd, (f pd).dirName = pd.dirName)
    (hman : ∀ pd, (f pd).manifest = pd.manifest)
    (hdirs : ∀ pd ∈ fs.plugins, (f pd).dirsWF) :
    (fs.updatePluginsNamed n f).wf := by
  obtain ⟨h1, h2, h3⟩ := hwf
  refine ⟨?_, ?_, ?_⟩
  · rw [plugins_updatePluginsNamed, List.map_map]
    have : fs.plugins.map (PluginDir.dirName ∘ fun pd =>
        if pd.dirName == n then f pd else pd) = fs.plugins.map PluginDir.dirName := by
      refine List.map_congr_left ?_
      intro pd _
      simp only [Function.comp_apply]
      split
      · exact hname pd
      · rfl
    rw [this]
    exact h1
  · intro pd' hpd'
    rw [plugins_updatePluginsNamed] at hpd'
    rcases List.mem_map.mp hpd' with ⟨pd, hpd, rfl⟩
    by_cases h : pd.dirName == n
    · rw [if_pos h, manifestNameOk_congr (hname pd) (hman pd)]
      exact h2 pd hpd
    · rw [if_neg h]
      exact h2 pd hpd
  · intro pd' hpd'
    rw [plugins_updatePluginsNamed] at hpd'
    rcases List.mem_map.mp hpd' with ⟨pd, hpd, rfl⟩
    by_cases h : pd.dirName == n
    · rw [if_pos h]
      exact hdirs pd hpd
    · rw [if_neg h]
      exact h3 pd hpd

/-- Membership of the updated directory in the updated tree. -/
theorem updated_mem {fs : FS} {pd : PluginDir} (hm : pd ∈ fs.plugins)
    (f : PluginDir → PluginDir) :
    f pd ∈ (fs.updatePluginsNamed pd.dirName f).plugins := by
  rw [plugins_updatePluginsNamed]
  exact List.mem_map.mpr ⟨pd, hm, by simp⟩

/-- Directories of other names are untouched by `updatePluginsNamed`. -/
theorem untouched_mem {fs : FS} {pd : PluginDir} (hm : pd ∈ fs.plugins)
    {n : String} (hne : pd.dirName ≠ n) (f : PluginDir → PluginDir) :
    pd ∈ (fs.updatePluginsNamed n f).plugins := by
  rw [plugins_updatePluginsNamed]
  exact List.mem_map.mpr ⟨pd, hm, by simp [hne]⟩

theorem linkNameFor_or (re : RegEntry) (a : String) :
    linkNameFor re a = re.name ∨ linkNameFor re a = a := by
  unfold linkNameFor
  cases re.node
  · exact Or.inl rfl
  · exact Or.inr rfl

theorem regResolve_updatePluginsNamed (fs : FS) (n : String)
    (f : PluginDir → PluginDir) (k : AssetType) (a : String) :
    regResolve (fs.updatePluginsNamed n f) k a = regResolve fs k a := by
  unfold regResolve
  simp

theorem entNodup_some {v : List PEntry} (h : (v.map PEntry.name).Nodup) :
    entNodup (some v) := h

theorem dirsWF_setKindDir {pd : PluginDir} (h : pd.dirsWF) {k : AssetType}
    {v : List PEntry} (hv : (v.map PEntry.name).Nodup) :
    (pd.setKindDir k (some v)).dirsWF := by
  obtain ⟨h1, h2, h3⟩ := h
  cases k
  · exact ⟨entNodup_some hv, h2, h3⟩
  · exact ⟨h1, entNodup_some hv, h3⟩
  · exact ⟨h1, h2, entNodup_some hv⟩

/-- C4.  For an existing plugin and a registry asset of kind `k`, on a
directory with no prior entry for the asset: adding links the asset and the
catalog thereafter shows it in the plugin's kind list; adding again is a
no-op returning the same tree; removing afterwards succeeds and restores
the plugin's kind membership to what the catalog showed before. -/
theorem c4_add_remove_roundtrip
    (fs : FS) (hwf : fs.wf)
    (pd : PluginDir) (hm : pd ∈ fs.plugins)
    (man : Manifest) (hman : pd.manifest = .valid man)
    (hdot : pyStartsWith pd.dirName "." = false)
    (k : AssetType) (a : String) (re : RegEntry)
    (hre : regResolve fs k a = some re)
    (hamd : isMdName a = false) (hadot : pyStartsWith a "." = false)
    (hane : a ≠ "")
    (hclean : ∀ e ∈ (pd.kindDir k).getD [], e.name ≠ a ∧ e.name ≠ a ++ ".md") :
    (∀ p₀ ∈ getPlugins fs, p₀.name = pd.dirName →
      p₀.kindList k = listPluginAssets pd k) ∧
    ∃ fs', addAssetToPlugin fs pd.dirName a k = .ok (fs', true) ∧
      (∃ p ∈ getPlugins fs', p.name = pd.dirName ∧ a ∈ p.kindList k) ∧
      addAssetToPlugin fs' pd.dirName a k = .ok (fs', false) ∧
      ∃ fs'', removeAssetFromPlugin fs' pd.dirName a k = .ok (fs'', true) ∧
        ∀ p'' ∈ getPlugins fs'', p''.name = pd.dirName →
          p''.kindList k = listPluginAssets pd k := by
  have hpd : fs.pluginDir? pd.dirName = some pd := pluginDir?_of_wf hwf hm
  set L := linkNameFor re a with hLdef
  set es := (pd.kindDir k).getD [] with hesdef
  have hLN : L = a ∨ L = a ++ ".md" := by
    rcases linkNameFor_or re a with h | h
    · rcases regResolve_name hre with h2 | h2
      · exact Or.inl (h.trans h2)
      · exact Or.inr (h.trans h2)
    · exact Or.inl h
  have hLNdot : pyStartsWith L "." = false := by
    rcases hLN with h | h <;> rw [h]
    · exact hadot
    · exact startsWith_dot_append_md hane hadot
  have hLNstrip : stripMd L = a := by
    rcases hLN with h | h <;> rw [h]
    · exact stripMd_of_not_md hamd
    · exact stripMd_append_md a
  have hLNclean : ∀ e ∈ es, (e.name == L) = false := by
    intro e he
    rcases hLN with h | h <;> rw [h] <;> simp only [beq_eq_false_iff_ne, ne_eq]
    · exact (hclean e he).1
    · exact (hclean e he).2
  have hfind : es.find? (fun e => e.name == L) = none :=
    List.find?_eq_none.mpr (fun e he => by rw [hLNclean e he]; simp)
  have hesnodup : (es.map PEntry.name).Nodup := by
    rw [hesdef]
    cases h : pd.kindDir k
    · simp
    · have := dirsWF_kindDir (hwf.2.2 pd hm) h
      simpa using this
  have hLnotin : L ∉ es.map PEntry.name := by
    intro hmem
    rcases List.mem_map.mp hmem with ⟨e, he, hne⟩
    have := hLNclean e he
    rw [hne] at this
    simp at this
  set newE : PEntry := ⟨L, .link ["registry", k.value, re.name]⟩ with hnewE
  set fA : PluginDir → PluginDir :=
    (fun p => p.setKindDir k (some (es ++ [newE]))) with hfA
  set fsA := fs.updatePluginsNamed pd.dirName fA with hfsA
  set pdA := pd.setKindDir k (some (es ++ [newE])) with hpdA
  have hadd : addAssetToPlugin fs pd.dirName a k = .ok (fsA, true) := by
    simp only [addAssetToPlugin, hpd, hre, hfsA, hfA, ← hLdef, ← hesdef, ← hnewE, hfind]
  have happend_nodup : ((es ++ [newE]).map PEntry.name).Nodup := by
    rw [List.map_append]
    simp only [hnewE, List.map_cons, List.map_nil]
    rw [List.nodup_append]
    exact ⟨hesnodup, List.nodup_singleton L, by simpa using hLnotin⟩
  have hwfA : fsA.wf := by
    rw [hfsA]
    refine wf_updatePluginsNamed hwf (by intro p; simp [hfA]) (by intro p; simp [hfA]) ?_
    intro p hp
    exact dirsWF_setKindDir (hwf.2.2 p hp) happend_nodup
  have hpdAmem : pdA ∈ fsA.plugins := by
    rw [hfsA, hpdA]
    exact updated_mem hm fA
  have hpdAdir : pdA.dirName = pd.dirName := by simp [hpdA]
  have hpdAman : pdA.manifest = .valid man := by simp [hpdA, hman]
  have hpdAdot : pyStartsWith pdA.dirName "." = false := by rw [hpdAdir]; exact hdot
  have hpdApd : fsA.pluginDir? pd.dirName = some pdA := by
    have := pluginDir?_of_wf hwfA hpdAmem
    rw [hpdAdir] at this
    exact this
  have hpdAkind : pdA.kindDir k = some (es ++ [newE]) := by
    rw [hpdA]
    simp
  rcases toPlugin?_isSome_of_valid hpdAman hpdAdot with ⟨pA, hpA⟩
  have hpAname : pA.name = pd.dirName := by
    rw [toPlugin?_name hpA (hwfA.2.1 pdA hpdAmem)]
    exact hpdAdir
  have hmemA : a ∈ pA.kindList k := by
    rw [toPlugin?_kindList hpA]
    refine mem_listPluginAssets.mpr ⟨es ++ [newE], hpdAkind, newE, by simp, ?_⟩
    unfold pentryNames
    rw [hnewE]
    simp only [hLNdot, Bool.false_eq_true, if_false]
    rw [hLNstrip]
    exact List.mem_singleton.mpr rfl
  have hfindA : (es ++ [newE]).find? (fun e => e.name == L) = some newE := by
    rw [List.find?_append, hfind]
    simp [hnewE]
  have hexistsA : fsA.pentryExists newE = true := by
    rw [hnewE]
    show fsA.presentNF ["registry", k.value, re.name] = true
    have hinv : fsA.presentNF ["registry", k.value, re.name] =
        fs.presentNF ["registry", k.value, re.name] := by
      rw [hfsA]
      exact presentNF_registry_invariant fs _ (by simp) (by simp) _
    rw [hinv, presentNF_reg_entry]
    exact regResolve_isSome_lookup hre
  have hadd2 : addAssetToPlugin fsA pd.dirName a k = .ok (fsA, false) := by
    have hreA : regResolve fsA k a = some re := by
      rw [hfsA, regResolve_updatePluginsNamed]
      exact hre
    simp only [addAssetToPlugin, hpdApd, hreA, hpdAkind, Option.getD_some,
      ← hLdef, hfindA, hexistsA, if_true]
  have hfind_a : (es ++ [newE]).find? (fun e => e.name == a) =
      (if L = a then some newE else none) := by
    rw [List.find?_append]
    have h1 : es.find? (fun e => e.name == a) = none :=
      List.find?_eq_none.mpr (fun e he => by simp [(hclean e he).1])
    rw [h1]
    by_cases h : L = a
    · simp [hnewE, h]
    · simp [hnewE, h]
  have hfind_md : (es ++ [newE]).find? (fun e => e.name == a ++ ".md") =
      (if L = a ++ ".md" then some newE else none) := by
    rw [List.find?_append]
    have h1 : es.find? (fun e => e.name == a ++ ".md") = none :=
      List.find?_eq_none.mpr (fun e he => by simp [(hclean e he).2])
    rw [h1]
    by_cases h : L = a ++ ".md"
    · simp [hnewE, h]
    · simp [hnewE, h]
  have herase : (es ++ [newE]).eraseP (fun e => e.name == L) = es := by
    rw [List.eraseP_append_right _ (fun e he => by rw [hLNclean e he]; simp)]
    rw [hnewE]
    simp [List.eraseP_cons_of_pos]
  set fB : PluginDir → PluginDir := (fun p => p.setKindDir k (some es)) with hfB
  set fsB := fsA.updatePluginsNamed pd.dirName fB with hfsB
  have hrem : removeAssetFromPlugin fsA pd.dirName a k = .ok (fsB, true) := by
    rcases hLN with h | h
    · have hf1 : (es ++ [newE]).find? (fun e => e.name == a) = some newE := by
        rw [hfind_a, if_pos h]
      have hf2 : (es ++ [newE]).find? (fun e => e.name == a ++ ".md") = none := by
        rw [hfind_md, if_neg]
        rw [h]
        intro h2
        exact append_md_ne a h2.symm
      have her : (es ++ [newE]).eraseP (fun e => e.name == a) = es := by
        rw [← h]
        exact herase
      simp only [removeAssetFromPlugin, hpdApd, hpdAkind, Option.getD_some, hf1, hf2,
        hexistsA, if_true, her]
    · have hf1 : (es ++ [newE]).find? (fun e => e.name == a) = none := by
        rw [hfind_a, if_neg]
        rw [h]
        exact append_md_ne a
      have hf2 : (es ++ [newE]).find? (fun e => e.name == a ++ ".md") = some newE := by
        rw [hfind_md, if_pos h]
      have her : (es ++ [newE]).eraseP (fun e => e.name == a ++ ".md") = es := by
        rw [← h]
        exact herase
      simp only [removeAssetFromPlugin, hpdApd, hpdAkind, Option.getD_some, hf1, hf2,
        hexistsA, if_true, her]
  have hwfB : fsB.wf := by
    rw [hfsB]
    exact wf_updatePluginsNamed hwfA (by intro p; simp [hfB]) (by intro p; simp [hfB])
      (fun p hp => dirsWF_setKindDir (hwfA.2.2 p hp) hesnodup)
  set pdB := pdA.setKindDir k (some es) with hpdB
  have hpdBmem : pdB ∈ fsB.plugins := by
    have h2 := updated_mem hpdAmem fB
    rw [hpdAdir] at h2
    rw [hfsB, hpdB]
    exact h2
  have hpdBdir : pdB.dirName = pd.dirName := by
    rw [hpdB]
    simpa using hpdAdir
  have hpdBpd : fsB.pluginDir? pd.dirName = some pdB := by
    have := pluginDir?_of_wf hwfB hpdBmem
    rw [hpdBdir] at this
    exact this
  have hfinal : listPluginAssets pdB k = listPluginAssets pd k := by
    rw [hpdB, hpdA, setKindDir_setKindDir, hesdef]
    exact listPluginAssets_setKindDir_getD pd k
  have horig : ∀ p₀ ∈ getPlugins fs, p₀.name = pd.dirName →
      p₀.kindList k = listPluginAssets pd k := by
    intro p₀ hp₀ hname
    rcases mem_getPlugins.mp hp₀ with ⟨pd₀, hpd₀, hto⟩
    have hd : pd₀.dirName = p₀.name := (toPlugin?_name hto (hwf.2.1 pd₀ hpd₀)).symm
    have h2 : fs.pluginDir? pd.dirName = some pd₀ := by
      rw [← hname, ← hd]
      exact pluginDir?_of_wf hwf hpd₀
    rw [hpd] at h2
    have h3 : pd₀ = pd := (Option.some.inj h2).symm
    subst h3
    rw [toPlugin?_kindList hto]
  refine ⟨horig, fsA, hadd,
    ⟨pA, mem_getPlugins.mpr ⟨pdA, hpdAmem, hpA⟩, hpAname, hmemA⟩, hadd2,
    fsB, hrem, ?_⟩
  intro p2 hp2 hname2
  rcases mem_getPlugins.mp hp2 with ⟨pd₂, hpd₂, hto₂⟩
  have hd₂ : pd₂.dirName = p2.name := (toPlugin?_name hto₂ (hwfB.2.1 pd₂ hpd₂)).symm
  have h2 : fsB.pluginDir? pd.dirName = some pd₂ := by
    rw [← hname2, ← hd₂]
    exact pluginDir?_of_wf hwfB hpd₂
  rw [hpdBpd] at h2
  have h3 : pd₂ = pdB := (Option.some.inj h2).symm
  subst h3
  rw [toPlugin?_kindList hto₂]
  exact hfinal

/-- The plugin directory of the C4 witness. -/
def c4Dir : PluginDir :=
  ⟨"demo", .valid ⟨some "demo", none, none, none⟩, some [], none, none⟩

/-- The tree of the C4 witness: one registry command, one empty plugin. -/
def c4Tree : FS :=
  ⟨"/mp", some [⟨"lint.md", .file (some "desc")⟩], none, none, [c4Dir], []⟩

/-- Witness for C4 at the concrete tree. -/
theorem c4_witness :
    (∀ p₀ ∈ getPlugins c4Tree, p₀.name = "demo" →
      p₀.kindList .command = listPluginAssets c4Dir .command) ∧
    ∃ fs', addAssetToPlugin c4Tree "demo" "lint" .command = .ok (fs', true) ∧
      (∃ p ∈ getPlugins fs', p.name = "demo" ∧ "lint" ∈ p.kindList .command) ∧
      addAssetToPlugin fs' "demo" "lint" .command = .ok (fs', false) ∧
      ∃ fs'', removeAssetFromPlugin fs' "demo" "lint" .command = .ok (fs'', true) ∧
        ∀ p'' ∈ getPlugins fs'', p''.name = "demo" →
          p''.kindList .command = listPluginAssets c4Dir .command :=
  c4_add_remove_roundtrip c4Tree (by decide) c4Dir (by decide)
    ⟨some "demo", none, none, none⟩ (by decide) (by decide) .command "lint"
    ⟨"lint.md", .file (some "desc")⟩ (by decide) (by decide) (by decide)
    (by decide) (by decide)

/-- `find?` by entry name returns the member itself when entry names are
distinct. -/
theorem find?_name_of_nodup {es : List PEntry}
    (h : (es.map PEntry.name).Nodup) {e : PEntry} (he : e ∈ es) :
    es.find? (fun x => x.name == e.name) = some e := by
  induction es with
  | nil => cases he
  | cons b bs ih =>
    simp only [List.map_cons, List.nodup_cons] at h
    rcases List.mem_cons.mp he with rfl | he'
    · simp [List.find?]
    · have hne : b.name ≠ e.name := by
        intro h2
        exact h.1 (h2 ▸ List.mem_map.mpr ⟨e, he', rfl⟩)
      have hnb : (b.name == e.name) = false := by simpa using hne
      simp only [List.find?, hnb]
      exact ih h.2 he'

/-- C8 (amended).  `remove_asset_from_plugin` matches an entry only when it
exists after following symlinks: an entry named after the asset (or the
asset plus `.md`) that is a plain file, a directory, or a symlink with an
existing target is removed with a success result; when every entry bearing
one of the two candidate names fails `Path.exists()` — in particular when
only a broken symlink bears the name — the call returns a failure result
and the tree is unchanged. -/
theorem c8_remove_follows_exists
    (fs : FS) (hwf : fs.wf) (pd : PluginDir) (hm : pd ∈ fs.plugins)
    (k : AssetType) (a : String) (es : List PEntry)
    (hes : (pd.kindDir k).getD [] = es) :
    (∀ e ∈ es, e.name = a → fs.pentryExists e = true →
      removeAssetFromPlugin fs pd.dirName a k =
        .ok (fs.updatePluginsNamed pd.dirName
          (fun p => p.setKindDir k (some (es.eraseP (fun x => x.name == a)))),
          true)) ∧
    (∀ e ∈ es, e.name = a ++ ".md" → fs.pentryExists e = true →
      (∀ e' ∈ es, e'.name = a → fs.pentryExists e' = false) →
      removeAssetFromPlugin fs pd.dirName a k =
        .ok (fs.updatePluginsNamed pd.dirName
          (fun p => p.setKindDir k
            (some (es.eraseP (fun x => x.name == a ++ ".md")))), true)) ∧
    ((∀ e ∈ es, e.name = a ∨ e.name = a ++ ".md" → fs.pentryExists e = false) →
      removeAssetFromPlugin fs pd.dirName a k = .ok (fs, false)) := by
  have hpd : fs.pluginDir? pd.dirName = some pd := pluginDir?_of_wf hwf hm
  have hnodup : (es.map PEntry.name).Nodup := by
    rw [← hes]
    cases h : pd.kindDir k
    · simp
    · simpa using dirsWF_kindDir (hwf.2.2 pd hm) h
  refine ⟨?_, ?_, ?_⟩
  · intro e he hname hex
    have hfa : es.find? (fun x => x.name == a) = some e := by
      rw [← hname]
      exact find?_name_of_nodup hnodup he
    simp only [removeAssetFromPlugin, hpd, hes, hfa, hex, if_true]
  · intro e he hname hex hnone
    have hfmd : es.find? (fun x => x.name == a ++ ".md") = some e := by
      rw [← hname]
      exact find?_name_of_nodup hnodup he
    cases hfa : es.find? (fun x => x.name == a) with
    | some e0 =>
      have he0 : e0.name = a := by
        have := List.find?_some hfa
        simpa using this
      have hex0 : fs.pentryExists e0 = false :=
        hnone e0 (List.mem_of_find?_eq_some hfa) he0
      simp only [removeAssetFromPlugin, hpd, hes, hfa, hfmd, hex, hex0, if_true,
        Bool.false_eq_true, if_false]
    | none =>
      simp only [removeAssetFromPlugin, hpd, hes, hfa, hfmd, hex, if_true]
  · intro hall
    have hmd : (match es.find? (fun x => x.name == a ++ ".md") with
        | some e => if fs.pentryExists e then some (a ++ ".md") else none
        | none => none) = (none : Option String) := by
      cases hfmd : es.find? (fun x => x.name == a ++ ".md") with
      | some e0 =>
        have he0 : e0.name = a ++ ".md" := by
          have := List.find?_some hfmd
          simpa using this
        have hex0 : fs.pentryExists e0 = false :=
          hall e0 (List.mem_of_find?_eq_some hfmd) (Or.inr he0)
        simp [hex0]
      | none => rfl
    cases hfa : es.find? (fun x => x.name == a) with
    | some e0 =>
      have he0 : e0.name = a := by
        have := List.find?_some hfa
        simpa using this
      have hex0 : fs.pentryExists e0 = false :=
        hall e0 (List.mem_of_find?_eq_some hfa) (Or.inl he0)
      simp only [removeAssetFromPlugin, hpd, hes, hfa, hmd, hex0,
        Bool.false_eq_true, if_false]
    | none =>
      simp only [removeAssetFromPlugin, hpd, hes, hfa, hmd]

deriving instance DecidableEq for Except

/-- The tree of the C8 counterexample and witness: plugin `p` whose
commands directory holds exactly one entry, a symlink named `a` whose
target does not exist, plus a working link named `b.md`. -/
def c8Dir : PluginDir :=
  ⟨"p", .valid ⟨some "p", none, none, none⟩,
    some [⟨"a", .link ["registry", "commands", "gone"]⟩,
          ⟨"b.md", .link ["registry", "commands", "b.md"]⟩], none, none⟩

/-- The tree holding `c8Dir`. -/
def c8Tree : FS :=
  ⟨"", some [⟨"b.md", .file (some "")⟩], none, none, [c8Dir], []⟩

/-- C8 counterexample: the entry named `a` under plugin `p` is a
symbolic link (broken: its target does not exist), yet
`remove_asset_from_plugin("p", "a")` returns a failure result and leaves
the tree unchanged, contradicting the claim that a broken symlink is
located and removed with success. -/
theorem c8_counterexample :
    (∃ e, c8Tree.pluginDir? "p" = some c8Dir ∧
      c8Dir.kindDir .command = some [e, ⟨"b.md", .link ["registry", "commands", "b.md"]⟩] ∧
      e.name = "a" ∧ e.node = .link ["registry", "commands", "gone"] ∧
      c8Tree.presentNF ["registry", "commands", "gone"] = false) ∧
    removeAssetFromPlugin c8Tree "p" "a" .command = .ok (c8Tree, false) := by
  constructor
  · exact ⟨⟨"a", .link ["registry", "commands", "gone"]⟩, by decide, by decide,
      rfl, rfl, by decide⟩
  · decide

/-- Witness for the amended C8: the broken link fails to match (failure,
tree unchanged) while the working `b.md` link is matched and removed. -/
theorem c8_witness :
    removeAssetFromPlugin c8Tree "p" "a" .command = .ok (c8Tree, false) ∧
    removeAssetFromPlugin c8Tree "p" "b" .command =
      .ok (c8Tree.updatePluginsNamed "p"
        (fun p => p.setKindDir .command
          (some ([⟨"a", .link ["registry", "commands", "gone"]⟩,
                  ⟨"b.md", .link ["registry", "commands", "b.md"]⟩].eraseP
            (fun x => x.name == "b" ++ ".md")))), true) := by
  constructor
  · exact (c8_remove_follows_exists c8Tree (by decide) c8Dir (by decide) .command "a"
      [⟨"a", .link ["registry", "commands", "gone"]⟩,
       ⟨"b.md", .link ["registry", "commands", "b.md"]⟩] (by decide)).2.2
      (by decide)
  · exact (c8_remove_follows_exists c8Tree (by decide) c8Dir (by decide) .command "b"
      [⟨"a", .link ["registry", "commands", "gone"]⟩,
       ⟨"b.md", .link ["registry", "commands", "b.md"]⟩] (by decide)).2.1
      ⟨"b.md", .link ["registry", "commands", "b.md"]⟩ (by decide) (by decide)
      (by decide) (by decide)

/-! ## Toolkit: the unlink pass of `delete_asset` -/

/-- A plugin directory holds no symlink of kind `k` resolving to `path`. -/
def cleanedDir (path : FsPath) (k : AssetType) (pd : PluginDir) : Prop :=
  ∀ es, pd.kindDir k = some es → ∀ e ∈ es, pentryIsLinkTo e path = false

/-- One unlink pass makes every directory of the processed name clean. -/
theorem removeLinksTo_cleans {acc : FS} {n : String} {k : AssetType} {path : FsPath} :
    ∀ pd₁ ∈ (removeLinksTo acc n k path).plugins, pd₁.dirName = n →
      cleanedDir path k pd₁ := by
  intro pd₁ hpd₁ hdir
  unfold removeLinksTo at hpd₁
  rw [plugins_updatePluginsNamed] at hpd₁
  rcases List.mem_map.mp hpd₁ with ⟨pd, hpd, heq⟩
  by_cases h : pd.dirName == n
  · rw [if_pos h] at heq
    cases hkd : pd.kindDir k with
    | none =>
      rw [hkd] at heq
      simp only [] at heq
      intro es hes e he
      rw [← heq, hkd] at hes
      cases hes
    | some es0 =>
      rw [hkd] at heq
      simp only [] at heq
      intro es hes e he
      rw [← heq, kindDir_setKindDir_self] at hes
      cases hes
      have := List.of_mem_filter he
      simpa using this
  · rw [if_neg h] at heq
    rw [← heq] at hdir
    exact absurd hdir (by simpa using h)

/-- One unlink pass keeps clean directories clean (it only filters). -/
theorem removeLinksTo_preserves {acc : FS} {n m : String} {k : AssetType}
    {path : FsPath}
    (h : ∀ pd₁ ∈ acc.plugins, pd₁.dirName = m → cleanedDir path k pd₁) :
    ∀ pd₁ ∈ (removeLinksTo acc n k path).plugins, pd₁.dirName = m →
      cleanedDir path k pd₁ := by
  intro pd₁ hpd₁ hdir
  unfold removeLinksTo at hpd₁
  rw [plugins_updatePluginsNamed] at hpd₁
  rcases List.mem_map.mp hpd₁ with ⟨pd, hpd, heq⟩
  by_cases hb : pd.dirName == n
  · rw [if_pos hb] at heq
    cases hkd : pd.kindDir k with
    | none =>
      rw [hkd] at heq
      simp only [] at heq
      rw [← heq] at hdir ⊢
      exact h pd hpd hdir
    | some es0 =>
      rw [hkd] at heq
      simp only [] at heq
      intro es hes e he
      rw [← heq, kindDir_setKindDir_self] at hes
      cases hes
      have := List.of_mem_filter he
      simpa using this
  · rw [if_neg hb] at heq
    rw [← heq] at hdir ⊢
    exact h pd hpd hdir

/-- The unlink fold of `delete_asset`, abstracted over the plugin list. -/
def deleteFold (l : List Plugin) (fs : FS) (k : AssetType) (path : FsPath) : FS :=
  l.foldl (fun acc p => removeLinksTo acc p.name k path) fs

theorem deleteFold_cons (q : Plugin) (l : List Plugin) (fs : FS) (k : AssetType)
    (path : FsPath) :
    deleteFold (q :: l) fs k path =
      deleteFold l (removeLinksTo fs q.name k path) k path := rfl

theorem deleteFold_preserves {l : List Plugin} {fs : FS} {k : AssetType}
    {path : FsPath} {m : String}
    (h : ∀ pd₁ ∈ fs.plugins, pd₁.dirName = m → cleanedDir path k pd₁) :
    ∀ pd₁ ∈ (deleteFold l fs k path).plugins, pd₁.dirName = m →
      cleanedDir path k pd₁ := by
  induction l generalizing fs with
  | nil => exact h
  | cons q l ih =>
    rw [deleteFold_cons]
    exact ih (removeLinksTo_preserves h)

theorem deleteFold_cleans {l : List Plugin} {fs : FS} {k : AssetType}
    {path : FsPath} {p : Plugin} (hp : p ∈ l) :
    ∀ pd₁ ∈ (deleteFold l fs k path).plugins, pd₁.dirName = p.name →
      cleanedDir path k pd₁ := by
  induction l generalizing fs with
  | nil => cases hp
  | cons q l ih =>
    rcases List.mem_cons.mp hp with rfl | hp'
    · rw [deleteFold_cons]
      exact deleteFold_preserves
        (fun pd₁ h1 h2 => removeLinksTo_cleans pd₁ h1 h2)
    · rw [deleteFold_cons]
      exact ih hp'

/-- The fold keeps every field but the plugin listings, and maps the
listing entry-wise preserving directory names and manifests. -/
theorem deleteFold_shape (l : List Plugin) (fs : FS) (k : AssetType) (path : FsPath) :
    ∃ F : PluginDir → PluginDir,
      (deleteFold l fs k path).plugins = fs.plugins.map F ∧
      (∀ pd, (F pd).dirName = pd.dirName) ∧
      (∀ pd, (F pd).manifest = pd.manifest) ∧
      (∀ k', (deleteFold l fs k path).registry k' = fs.registry k') ∧
      (deleteFold l fs k path).root = fs.root ∧
      (deleteFold l fs k path).other = fs.other := by
  induction l generalizing fs with
  | nil =>
    exact ⟨id, by simp [deleteFold], by simp, by simp, fun k' => by simp [deleteFold],
      by simp [deleteFold], by simp [deleteFold]⟩
  | cons q l ih =>
    obtain ⟨F, hF1, hF2, hF3, hF4, hF5, hF6⟩ := ih (removeLinksTo fs q.name k path)
    set g : PluginDir → PluginDir := fun pd =>
      if pd.dirName == q.name then
        (match pd.kindDir k with
         | none => pd
         | some es =>
           pd.setKindDir k (some (es.filter (fun e => !pentryIsLinkTo e path))))
      else pd with hg
    have h1 : (removeLinksTo fs q.name k path).plugins = fs.plugins.map g := rfl
    have hgd : ∀ pd, (g pd).dirName = pd.dirName := by
      intro pd
      simp only [hg]
      by_cases hb : pd.dirName == q.name
      · rw [if_pos hb]
        cases pd.kindDir k
        · rfl
        · simp
      · rw [if_neg hb]
    have hgm : ∀ pd, (g pd).manifest = pd.manifest := by
      intro pd
      simp only [hg]
      by_cases hb : pd.dirName == q.name
      · rw [if_pos hb]
        cases pd.kindDir k
        · rfl
        · simp
      · rw [if_neg hb]
    have hrf : ∀ k', (removeLinksTo fs q.name k path).registry k' = fs.registry k' := by
      intro k'
      unfold removeLinksTo
      simp
    refine ⟨fun pd => F (g pd), ?_, ?_, ?_, ?_, ?_, ?_⟩
    · rw [deleteFold_cons, hF1, h1, List.map_map]
      rfl
    · intro pd
      rw [hF2, hgd]
    · intro pd
      rw [hF3, hgm]
    · intro k'
      rw [deleteFold_cons, hF4, hrf]
    · rw [deleteFold_cons, hF5]
      unfold removeLinksTo
      simp
    · rw [deleteFold_cons, hF6]
      unfold removeLinksTo
      simp

theorem find?_eraseP_none {es : List RegEntry}
    (h : (es.map RegEntry.name).Nodup) (n : String) :
    (es.eraseP (fun r => r.name == n)).find? (fun r => r.name == n) = none := by
  induction es with
  | nil => rfl
  | cons b bs ih =>
    simp only [List.map_cons, List.nodup_cons] at h
    by_cases hb : (b.name == n) = true
    · rw [show (b :: bs).eraseP (fun r => r.name == n) = bs by
        simp [List.eraseP_cons, hb]]
      refine List.find?_eq_none.mpr ?_
      intro r hr
      simp only [Bool.not_eq_true, beq_eq_false_iff_ne, ne_eq]
      intro hrn
      apply h.1
      have hbn : b.name = n := by simpa using hb
      rw [hbn, ← hrn]
      exact List.mem_map.mpr ⟨r, hr, rfl⟩
    · have hb' : (b.name == n) = false := by simpa using hb
      rw [show (b :: bs).eraseP (fun r => r.name == n) =
          b :: bs.eraseP (fun r => r.name == n) by
        simp [List.eraseP_cons, hb']]
      simp only [List.find?, hb']
      exact ih h.2

theorem toPlugin?_not_hidden {pd : PluginDir} {p : Plugin}
    (h : pd.toPlugin? = some p) : pyStartsWith pd.dirName "." = false := by
  unfold PluginDir.toPlugin? at h
  split at h
  · cases h
  · simpa using (by assumption : ¬pyStartsWith pd.dirName "." = true)

/-- C2.  Deleting an asset referenced by at least one plugin without
`force` raises an error naming every referencing plugin (and, returning an
error, performs no mutation); the same call with `force=True` succeeds:
afterwards the registry entry is gone (other kinds untouched) and no entry
of any cataloged plugin's kind directory is a symlink resolving to the
asset's registry path. -/
theorem c2_delete_gate_and_force
    (fs : FS) (hwf : fs.wf)
    (k : AssetType) (a : String) (ps : List String)
    (hu : usageInfo? fs k a = some ps) (hps : ps ≠ [])
    (re : RegEntry) (hre : regResolve fs k a = some re)
    (es : List RegEntry) (hes : fs.registry k = some es)
    (hregnodup : (es.map RegEntry.name).Nodup) :
    deleteAsset fs a k false =
      .error ("Asset is used by plugins: " ++ String.intercalate ", " ps ++
        ". Use force=True to delete anyway.") ∧
    ∃ fs', deleteAsset fs a k true = .ok fs' ∧
      fs'.registry k = some (es.eraseP (fun r => r.name == re.name)) ∧
      fs'.regEntryLookup k re.name = none ∧
      (∀ k', k' ≠ k → fs'.registry k' = fs.registry k') ∧
      ∀ pd₁ ∈ fs'.plugins, ∀ p₁, pd₁.toPlugin? = some p₁ →
        ∀ es₁, pd₁.kindDir k = some es₁ → ∀ e ∈ es₁,
          pentryIsLinkTo e ["registry", k.value, re.name] = false := by
  have hempty : ps.isEmpty = false := by
    cases ps
    · exact absurd rfl hps
    · rfl
  constructor
  · simp only [deleteAsset, hu, hempty, Bool.not_false, Bool.not_true,
      Bool.and_true, if_true]
  · set path : FsPath := ["registry", k.value, re.name] with hpath
    set fs1 := deleteFold (getPlugins fs) fs k path with hfs1
    have hgo : deleteAsset fs a k true =
        .ok (fs1.setRegistry k
          (some (((fs1.registry k).getD []).eraseP (fun r => r.name == re.name)))) := by
      simp only [deleteAsset, hu, Bool.not_true, Bool.and_false, Bool.false_eq_true,
        if_false, deleteAssetGo, hre]
      rfl
    obtain ⟨F, hF1, hF2, hF3, hF4, hF5, hF6⟩ := deleteFold_shape (getPlugins fs) fs k path
    rw [← hfs1] at hF1 hF4 hF5 hF6
    have hreg1 : fs1.registry k = some es := by rw [hF4, hes]
    set fs' := fs1.setRegistry k
      (some (es.eraseP (fun r => r.name == re.name))) with hfs'
    have hgo2 : deleteAsset fs a k true = .ok fs' := by
      rw [hgo, hfs']
      congr 2
      rw [hreg1]
      rfl
    refine ⟨fs', hgo2, ?_, ?_, ?_, ?_⟩
    · rw [hfs']
      simp
    · unfold FS.regEntryLookup
      rw [hfs', registry_setRegistry_self]
      exact find?_eraseP_none hregnodup re.name
    · intro k' hk'
      rw [hfs', registry_setRegistry_ne _ hk', hF4]
    · intro pd₁ hpd₁ p₁ hp₁ es₁ hes₁ e he
      rw [hfs', plugins_setRegistry, hF1] at hpd₁
      rcases List.mem_map.mp hpd₁ with ⟨pd₀, hpd₀, heq⟩
      rcases toPlugin?_manifest hp₁ with ⟨m, hman₁⟩
      have hdot₁ : pyStartsWith pd₁.dirName "." = false := toPlugin?_not_hidden hp₁
      have hman₀ : pd₀.manifest = .valid m := by
        rw [← hF3 pd₀, heq]
        exact hman₁
      have hdot₀ : pyStartsWith pd₀.dirName "." = false := by
        rw [← hF2 pd₀, heq]
        exact hdot₁
      rcases toPlugin?_isSome_of_valid hman₀ hdot₀ with ⟨p₀, hp₀⟩
      have hp₀mem : p₀ ∈ getPlugins fs := mem_getPlugins.mpr ⟨pd₀, hpd₀, hp₀⟩
      have hp₀name : p₀.name = pd₀.dirName := toPlugin?_name hp₀ (hwf.2.1 pd₀ hpd₀)
      have hpd₁mem : pd₁ ∈ fs1.plugins := by
        rw [hF1]
        exact List.mem_map.mpr ⟨pd₀, hpd₀, heq⟩
      have hdir₁ : pd₁.dirName = p₀.name := by
        rw [hp₀name, ← hF2 pd₀, heq]
      have := deleteFold_cleans hp₀mem pd₁ (by rw [hfs1] at hpd₁mem; exact hpd₁mem) hdir₁
      exact this es₁ hes₁ e he

/-- The tree of the C2 witness: skill `writer` linked by plugin `demo`. -/
def c2Tree : FS :=
  ⟨"/mp", none, none, some [⟨"writer", .dir (some (some "w")) none⟩],
    [⟨"demo", .valid ⟨some "demo", none, none, none⟩, none, none,
      some [⟨"writer", .link ["registry", "skills", "writer"]⟩]⟩], []⟩

/-- Witness for C2 at the concrete tree. -/
theorem c2_witness :
    deleteAsset c2Tree "writer" .skill false =
      .error ("Asset is used by plugins: " ++ String.intercalate ", " ["demo"] ++
        ". Use force=True to delete anyway.") ∧
    ∃ fs', deleteAsset c2Tree "writer" .skill true = .ok fs' ∧
      fs'.registry .skill =
        some ([⟨"writer", .dir (some (some "w")) none⟩].eraseP
          (fun r => r.name == "writer")) ∧
      fs'.regEntryLookup .skill "writer" = none ∧
      (∀ k', k' ≠ AssetType.skill → fs'.registry k' = c2Tree.registry k') ∧
      ∀ pd₁ ∈ fs'.plugins, ∀ p₁, pd₁.toPlugin? = some p₁ →
        ∀ es₁, pd₁.kindDir .skill = some es₁ → ∀ e ∈ es₁,
          pentryIsLinkTo e ["registry", "skills", "writer"] = false :=
  c2_delete_gate_and_force c2Tree (by decide) .skill "writer" ["demo"]
    (by decide) (by decide) ⟨"writer", .dir (some (some "w")) none⟩ (by decide)
    [⟨"writer", .dir (some (some "w")) none⟩] (by decide) (by decide)

theorem regEntryAsset_type {k : AssetType} {e : RegEntry} {x : Asset}
    (h : regEntryAsset k e = some x) : x.asset_type = k := by
  unfold regEntryAsset at h
  split at h
  · cases h
  · split at h
    · split at h
      · cases h
        rfl
      · cases h
    · cases h
      rfl

/-- Counting catalog assets with a kind-`k` predicate reduces to the kind-`k`
registry directory. -/
theorem countP_assets_by_kind (fs : FS) (k : AssetType) (pred : Asset → Bool)
    (hpred : ∀ x, x.asset_type ≠ k → pred x = false) :
    (getRegistryAssets fs none).countP pred =
      (match fs.registry k with
        | none => []
        | some es => es.filterMap (regEntryAsset k)).countP pred := by
  unfold getRegistryAssets
  rw [countP_sortLe]
  have hz : ∀ j : AssetType, j ≠ k →
      (match fs.registry j with
        | none => []
        | some es => es.filterMap (regEntryAsset j)).countP pred = 0 := by
    intro j hj
    cases hr : fs.registry j with
    | none => rfl
    | some es =>
      refine List.countP_eq_zero.mpr ?_
      intro x hx
      rcases List.mem_filterMap.mp hx with ⟨e, _, he⟩
      rw [hpred x (by rw [regEntryAsset_type he]; exact hj)]
      simp
  cases k with
  | command =>
    simp only [AssetType.all, List.flatMap_cons, List.flatMap_nil, List.append_nil,
      List.countP_append]
    rw [hz .agent (by decide), hz .skill (by decide)]
    omega
  | agent =>
    simp only [AssetType.all, List.flatMap_cons, List.flatMap_nil, List.append_nil,
      List.countP_append]
    rw [hz .command (by decide), hz .skill (by decide)]
    omega
  | skill =>
    simp only [AssetType.all, List.flatMap_cons, List.flatMap_nil, List.append_nil,
      List.countP_append]
    rw [hz .command (by decide), hz .agent (by decide)]
    omega

/-- C6 (amended).  `add_to_registry` fails when an entry with the
destination entry name — the source's own file name for file sources, the
resolved name for directory sources — already exists; otherwise it copies
the source in by appending a new registry entry (nothing is removed, and
the source, being external input, is untouched).  When the source is a
`.md` file, the stored entry keeps the source file name (a name override
only relabels the returned metadata), and if no other entry of the kind
yields the same catalog name the catalog thereafter lists that name
exactly once; a directory source is stored under the resolved name (the
override honored) with the same uniqueness guarantee. -/
theorem c6_add_to_registry_amended
    (fs : FS) (k : AssetType) (es : List RegEntry)
    (hes : (fs.registry k).getD [] = es) (src : Src) (hp : src.present = true)
    (nameArg : Option String) :
    (∀ c, src.node = .file c → isMdName src.name = true →
      pyStartsWith src.name "." = false →
      es.find? (fun e => e.name == src.name) = none →
      (∀ e ∈ es, ∀ x, regEntryAsset k e = some x → x.name ≠ stripMd src.name) →
      ∃ asset, addToRegistry fs src k nameArg =
          .ok (fs.setRegistry k (some (es ++ [⟨src.name, src.node⟩])), asset) ∧
        asset.name = nameArg.getD (pyStem src.name) ∧
        (getRegistryAssets
            (fs.setRegistry k (some (es ++ [⟨src.name, src.node⟩]))) none).countP
          (fun x => x.asset_type == k && x.name == stripMd src.name) = 1) ∧
    (∀ sk rm, src.node = .dir sk rm →
      pyStartsWith (nameArg.getD src.name) "." = false →
      es.find? (fun e => e.name == nameArg.getD src.name) = none →
      (∀ e ∈ es, ∀ x, regEntryAsset k e = some x → x.name ≠ nameArg.getD src.name) →
      ∃ asset, addToRegistry fs src k nameArg =
          .ok (fs.setRegistry k
            (some (es ++ [⟨nameArg.getD src.name, src.node⟩])), asset) ∧
        asset.name = nameArg.getD src.name ∧
        (getRegistryAssets
            (fs.setRegistry k
              (some (es ++ [⟨nameArg.getD src.name, src.node⟩]))) none).countP
          (fun x => x.asset_type == k && x.name == nameArg.getD src.name) = 1) ∧
    (∀ c, src.node = .file c →
      (es.find? (fun e => e.name == src.name)).isSome = true →
      addToRegistry fs src k nameArg =
        .error ("Asset already exists in registry: " ++ fs.root ++ "/registry/" ++
          k.value ++ "/" ++ src.name)) ∧
    (∀ sk rm, src.node = .dir sk rm →
      (es.find? (fun e => e.name == nameArg.getD src.name)).isSome = true →
      addToRegistry fs src k nameArg =
        .error ("Asset already exists in registry: " ++ fs.root ++ "/registry/" ++
          k.value ++ "/" ++ nameArg.getD src.name)) := by
  refine ⟨?_, ?_, ?_, ?_⟩
  · intro c hnode hmd hdotn hfound hcatalog
    have hpred : ∀ x : Asset, x.asset_type ≠ k →
        (x.asset_type == k && x.name == stripMd src.name) = false := by
      intro x hx
      have h2 : (x.asset_type == k) = false := by simpa using hx
      rw [h2, Bool.false_and]
    have hnew : regEntryAsset k ⟨src.name, src.node⟩ =
        some ⟨stripMd src.name, k, ["registry", k.value, src.name],
          src.node.description⟩ := by
      unfold regEntryAsset
      rw [hdotn]
      simp only [Bool.false_eq_true, if_false, hnode, hmd, if_true]
    have hcount : (getRegistryAssets
        (fs.setRegistry k (some (es ++ [⟨src.name, src.node⟩]))) none).countP
          (fun x => x.asset_type == k && x.name == stripMd src.name) = 1 := by
      rw [countP_assets_by_kind _ k _ hpred, registry_setRegistry_self]
      simp only []
      rw [List.filterMap_append, List.countP_append]
      have hz : (es.filterMap (regEntryAsset k)).countP
          (fun x => x.asset_type == k && x.name == stripMd src.name) = 0 := by
        refine List.countP_eq_zero.mpr ?_
        intro x hx
        rcases List.mem_filterMap.mp hx with ⟨e, he, hre⟩
        have := hcatalog e he x hre
        simp only [Bool.and_eq_true, not_and]
        intro _
        simpa using this
      rw [hz]
      simp [hnew]
    cases nameArg with
    | none =>
      refine ⟨⟨pyStem src.name, k, ["registry", k.value, src.name],
        src.node.description⟩, ?_, rfl, hcount⟩
      simp only [addToRegistry, hp, Bool.not_true, Bool.false_eq_true, if_false,
        hnode, hes, hfound, Option.isSome_none]
    | some nm =>
      refine ⟨⟨nm, k, ["registry", k.value, src.name], src.node.description⟩,
        ?_, rfl, hcount⟩
      simp only [addToRegistry, hp, Bool.not_true, Bool.false_eq_true, if_false,
        hnode, hes, hfound, Option.isSome_none]
  · intro sk rm hnode hdotn hfound hcatalog
    set n := nameArg.getD src.name with hn
    have hpred : ∀ x : Asset, x.asset_type ≠ k →
        (x.asset_type == k && x.name == n) = false := by
      intro x hx
      have h2 : (x.asset_type == k) = false := by simpa using hx
      rw [h2, Bool.false_and]
    have hnew : regEntryAsset k ⟨n, src.node⟩ =
        some ⟨n, k, ["registry", k.value, n], src.node.description⟩ := by
      unfold regEntryAsset
      rw [hdotn]
      simp only [Bool.false_eq_true, if_false, hnode]
    have hcount : (getRegistryAssets
        (fs.setRegistry k (some (es ++ [⟨n, src.node⟩]))) none).countP
          (fun x => x.asset_type == k && x.name == n) = 1 := by
      rw [countP_assets_by_kind _ k _ hpred, registry_setRegistry_self]
      simp only []
      rw [List.filterMap_append, List.countP_append]
      have hz : (es.filterMap (regEntryAsset k)).countP
          (fun x => x.asset_type == k && x.name == n) = 0 := by
        refine List.countP_eq_zero.mpr ?_
        intro x hx
        rcases List.mem_filterMap.mp hx with ⟨e, he, hre⟩
        have := hcatalog e he x hre
        simp only [Bool.and_eq_true, not_and]
        intro _
        simpa using this
      rw [hz]
      simp [hnew]
    cases nameArg with
    | none =>
      have hfound2 : es.find? (fun e => e.name == src.name) = none := hfound
      refine ⟨⟨n, k, ["registry", k.value, n], src.node.description⟩,
        ?_, rfl, hcount⟩
      simp only [addToRegistry, hp, Bool.not_true, Bool.false_eq_true, if_false,
        hnode, hes, hfound2, Option.isSome_none]
      rfl
    | some nm =>
      have hfound2 : es.find? (fun e => e.name == nm) = none := hfound
      refine ⟨⟨n, k, ["registry", k.value, n], src.node.description⟩,
        ?_, rfl, hcount⟩
      simp only [addToRegistry, hp, Bool.not_true, Bool.false_eq_true, if_false,
        hnode, hes, hfound2, Option.isSome_none]
      rfl
  · intro c hnode hfound
    cases nameArg with
    | none =>
      simp only [addToRegistry, hp, Bool.not_true, Bool.false_eq_true, if_false,
        hnode, hes, hfound, if_true]
    | some nm =>
      simp only [addToRegistry, hp, Bool.not_true, Bool.false_eq_true, if_false,
        hnode, hes, hfound, if_true]
  · intro sk rm hnode hfound
    cases nameArg with
    | none =>
      have hfound2 : (es.find? (fun e => e.name == src.name)).isSome = true :=
        hfound
      simp only [addToRegistry, hp, Bool.not_true, Bool.false_eq_true, if_false,
        hnode, hes, hfound2, if_true]
      rfl
    | some nm =>
      have hfound2 : (es.find? (fun e => e.name == nm)).isSome = true := hfound
      simp only [addToRegistry, hp, Bool.not_true, Bool.false_eq_true, if_false,
        hnode, hes, hfound2, if_true]
      rfl

/-- A registry already holding the command file `x.md` (catalog name `x`). -/
def c6TreeA : FS := ⟨"", some [⟨"x.md", .file (some "")⟩], none, none, [], []⟩

/-- A directory source named `x`. -/
def c6SrcDirX : Src := ⟨"/src/x", true, "x", .dir none none⟩

/-- An empty tree. -/
def c6TreeB : FS := ⟨"", none, none, none, [], []⟩

/-- A file source without the `.md` extension. -/
def c6SrcPy : Src := ⟨"/src/tool.py", true, "tool.py", .file (some "")⟩

/-- A `.md` file source. -/
def c6SrcAMd : Src := ⟨"/src/a.md", true, "a.md", .file (some "")⟩

/-- C6 counterexample.  Three concrete runs refute the claim as stated:
(1) with command file `x.md` already in the registry, adding a directory
source named `x` succeeds — the destination-name check does not fire — and
the catalog thereafter lists the name `x` twice, not once; (2) adding the
file source `tool.py` succeeds but the catalog never lists `tool` (only
`.md` files are cataloged); (3) adding the file source `a.md` under the
override name `b` stores the entry as `a.md`, so no asset named `b` ever
appears (the override is ignored for file sources). -/
theorem c6_counterexample :
    (addToRegistry c6TreeA c6SrcDirX .command none =
        .ok (⟨"", some [⟨"x.md", .file (some "")⟩, ⟨"x", .dir none none⟩],
              none, none, [], []⟩,
             ⟨"x", .command, ["registry", "commands", "x"], ""⟩) ∧
      (getRegistryAssets
          (⟨"", some [⟨"x.md", .file (some "")⟩, ⟨"x", .dir none none⟩],
            none, none, [], []⟩ : FS) none).countP
        (fun x => x.asset_type == .command && x.name == "x") = 2) ∧
    (addToRegistry c6TreeB c6SrcPy .command none =
        .ok (⟨"", some [⟨"tool.py", .file (some "")⟩], none, none, [], []⟩,
             ⟨"tool", .command, ["registry", "commands", "tool.py"], ""⟩) ∧
      (getRegistryAssets
          (⟨"", some [⟨"tool.py", .file (some "")⟩], none, none, [], []⟩ : FS)
          none).countP (fun x => x.name == "tool") = 0) ∧
    (addToRegistry c6TreeB c6SrcAMd .command (some "b") =
        .ok (⟨"", some [⟨"a.md", .file (some "")⟩], none, none, [], []⟩,
             ⟨"b", .command, ["registry", "commands", "a.md"], ""⟩) ∧
      (getRegistryAssets
          (⟨"", some [⟨"a.md", .file (some "")⟩], none, none, [], []⟩ : FS)
          none).countP (fun x => x.name == "b") = 0) := by
  refine ⟨⟨?_, ?_⟩, ⟨?_, ?_⟩, ⟨?_, ?_⟩⟩ <;> decide

/-- A `.md` file source whose name collides with the registry entry of
`c6TreeA`. -/
def c6SrcXMd : Src := ⟨"/src/x.md", true, "x.md", .file (some "")⟩

/-- Witness for the amended C6: a `.md` file source and a directory source
added to an empty registry, each cataloged exactly once; and a source whose
destination entry name is already taken, rejected with the
already-exists error. -/
theorem c6_witness :
    (∃ asset, addToRegistry c6TreeB c6SrcAMd .command none =
        .ok (c6TreeB.setRegistry .command
          (some ([] ++ [⟨c6SrcAMd.name, c6SrcAMd.node⟩])), asset) ∧
      asset.name = (none : Option String).getD (pyStem c6SrcAMd.name) ∧
      (getRegistryAssets
          (c6TreeB.setRegistry .command
            (some ([] ++ [⟨c6SrcAMd.name, c6SrcAMd.node⟩]))) none).countP
        (fun x => x.asset_type == .command && x.name == stripMd c6SrcAMd.name) = 1) ∧
    (∃ asset, addToRegistry c6TreeB c6SrcDirX .skill none =
        .ok (c6TreeB.setRegistry .skill
          (some ([] ++ [⟨(none : Option String).getD c6SrcDirX.name,
            c6SrcDirX.node⟩])), asset) ∧
      asset.name = (none : Option String).getD c6SrcDirX.name ∧
      (getRegistryAssets
          (c6TreeB.setRegistry .skill
            (some ([] ++ [⟨(none : Option String).getD c6SrcDirX.name,
              c6SrcDirX.node⟩]))) none).countP
        (fun x => x.asset_type == .skill &&
          x.name == (none : Option String).getD c6SrcDirX.name) = 1) ∧
    addToRegistry c6TreeA c6SrcXMd .command none =
      .error ("Asset already exists in registry: " ++ c6TreeA.root ++
        "/registry/" ++ AssetType.value .command ++ "/" ++ c6SrcXMd.name) :=
  ⟨(c6_add_to_registry_amended c6TreeB .command [] (by decide) c6SrcAMd
      (by decide) none).1 (some "") rfl (by decide) (by decide) (by decide)
      (by decide),
   (c6_add_to_registry_amended c6TreeB .skill [] (by decide) c6SrcDirX
      (by decide) none).2.1 none none rfl (by decide) (by decide) (by decide),
   (c6_add_to_registry_amended c6TreeA .command [⟨"x.md", .file (some "")⟩]
      (by decide) c6SrcXMd (by decide) none).2.2.1 (some "") rfl (by decide)⟩

/-! ## Toolkit: the symlink-update loop of `rename_asset` -/

/-- The rewrite condition of the loop: the resolved target equals the old
registry path, or the target no longer exists and the old name occurs in
the textual path of the link itself. -/
def renameCond (base : FS) (pname : String) (k : AssetType) (oldPath : FsPath)
    (oldName : String) (e : PEntry) : Bool :=
  match e.node with
  | .link t =>
    t == oldPath ||
      (!(base.presentNF t) && strContains (itemStr base.root pname k e.name) oldName)
  | _ => false

theorem renameStep_eq (base : FS) (pname : String) (k : AssetType)
    (oldPath : FsPath) (oldName newLinkName : String) (newTarget : FsPath)
    (cur : List PEntry) (e : PEntry) :
    renameStep base pname k oldPath oldName newLinkName newTarget cur e =
      (if renameCond base pname k oldPath oldName e then
        (fun cur1 =>
          if (cur1.find? (fun x => x.name == newLinkName)).isSome then cur1
          else cur1 ++ [⟨newLinkName, .link newTarget⟩])
          (cur.eraseP (fun x => x.name == e.name))
      else cur) := by
  cases hn : e.node with
  | link t => simp [renameStep, renameCond, hn]
  | file => simp [renameStep, renameCond, hn]
  | dir => simp [renameStep, renameCond, hn]

/-- Erasing the uniquely-named `e` from a filtered listing equals filtering
with `e` additionally dropped. -/
theorem eraseP_name_filter {es : List PEntry}
    (hnd : (es.map PEntry.name).Nodup) (P Q : PEntry → Bool) (e : PEntry)
    (he : e ∈ es) (hPQ : ∀ x ∈ es, x ≠ e → P x = Q x)
    (hPe : P e = true) (hQe : Q e = false) :
    (es.filter P).eraseP (fun x => x.name == e.name) = es.filter Q := by
  induction es with
  | nil => cases he
  | cons b bs ih =>
    simp only [List.map_cons, List.nodup_cons] at hnd
    rcases List.mem_cons.mp he with rfl | he'
    · rw [List.filter_cons_of_pos hPe, List.eraseP_cons_of_pos (by simp),
        List.filter_cons_of_neg (by simp [hQe])]
      refine List.filter_congr ?_
      intro x hx
      refine hPQ x (List.mem_cons_of_mem _ hx) ?_
      intro hxe
      subst hxe
      exact hnd.1 (List.mem_map.mpr ⟨x, hx, rfl⟩)
    · have hbe : b ≠ e := by
        intro h2
        apply hnd.1
        rw [h2]
        exact List.mem_map.mpr ⟨e, he', rfl⟩
      have hbn : (b.name == e.name) = false := by
        simp only [beq_eq_false_iff_ne, ne_eq]
        intro h2
        exact hnd.1 (h2 ▸ List.mem_map.mpr ⟨e, he', rfl⟩)
      have hPQb : P b = Q b := hPQ b (List.mem_cons_self b bs) hbe
      have hrec := ih hnd.2 he'
        (fun x hx hxe => hPQ x (List.mem_cons_of_mem b hx) hxe)
      cases hb : P b
      · rw [List.filter_cons_of_neg (by simp [hb]),
          List.filter_cons_of_neg (by simp [← hPQb, hb])]
        exact hrec
      · rw [List.filter_cons_of_pos (by simp [hb]), List.eraseP_cons_of_neg (by simp [hbn]),
          List.filter_cons_of_pos (by simp [← hPQb, hb])]
        rw [hrec]

/-- The running state of the rename loop after processing the prefix `d` of
the directory snapshot. -/
def renameLoopState (base : FS) (pname : String) (k : AssetType)
    (oldPath : FsPath) (oldName newLinkName : String) (newTarget : FsPath)
    (es d : List PEntry) : List PEntry :=
  es.filter (fun x => !(renameCond base pname k oldPath oldName x && decide (x ∈ d))) ++
    (if d.any (renameCond base pname k oldPath oldName) then
      [⟨newLinkName, .link newTarget⟩] else [])

theorem renameLoop_aux (base : FS) (pname : String) (k : AssetType)
    (oldPath : FsPath) (oldName newLinkName : String) (newTarget : FsPath)
    (es : List PEntry) (hnd : (es.map PEntry.name).Nodup)
    (hnew : newLinkName ∉ es.map PEntry.name) :
    ∀ rest done, es = done ++ rest →
      rest.foldl (renameStep base pname k oldPath oldName newLinkName newTarget)
        (renameLoopState base pname k oldPath oldName newLinkName newTarget es done) =
      renameLoopState base pname k oldPath oldName newLinkName newTarget es es := by
  set c := renameCond base pname k oldPath oldName with hc
  set nl : PEntry := ⟨newLinkName, .link newTarget⟩ with hnl
  intro rest
  induction rest with
  | nil =>
    intro done hdone
    rw [List.foldl_nil]
    rw [List.append_nil] at hdone
    rw [← hdone]
  | cons e rest' ih =>
    intro done hdone
    rw [List.foldl_cons]
    have hemem : e ∈ es := by
      rw [hdone]
      exact List.mem_append.mpr (Or.inr (List.mem_cons_self e rest'))
    have hestep : renameStep base pname k oldPath oldName newLinkName newTarget
        (renameLoopState base pname k oldPath oldName newLinkName newTarget es done) e =
        renameLoopState base pname k oldPath oldName newLinkName newTarget es
          (done ++ [e]) := by
      rw [renameStep_eq]
      have henotdone : e ∉ done := by
        intro hmem
        have h2 : (es.map PEntry.name).Nodup := hnd
        rw [hdone, List.map_append, List.map_cons] at h2
        rcases List.nodup_append.mp h2 with ⟨_, _, hdisj⟩
        exact hdisj (List.mem_map.mpr ⟨e, hmem, rfl⟩) (List.mem_cons_self _ _)
      cases hce : c e
      · rw [if_neg (by rw [← hc, hce]; simp)]
        unfold renameLoopState
        rw [← hc]
        have hfe : ∀ x ∈ es,
            (!(c x && decide (x ∈ done))) = (!(c x && decide (x ∈ done ++ [e]))) := by
          intro x hx
          by_cases hxe : x = e
          · subst hxe
            rw [hce]
            simp
          · have : (x ∈ done ++ [e]) ↔ (x ∈ done) := by
              simp [List.mem_append, hxe]
            simp [this]
        rw [List.filter_congr hfe, List.any_append]
        simp [← hc, hce]
      · rw [if_pos (by rw [← hc, hce])]
        unfold renameLoopState
        rw [← hc, ← hnl]
        have hPe : (!(c e && decide (e ∈ done))) = true := by
          simp [henotdone]
        have hQe : (!(c e && decide (e ∈ done ++ [e]))) = false := by
          simp [hce]
        have hememf : e ∈ es.filter (fun x => !(c x && decide (x ∈ done))) :=
          List.mem_filter.mpr ⟨hemem, hPe⟩
        have her :
            ((es.filter (fun x => !(c x && decide (x ∈ done))) ++
              (if done.any c then [nl] else [])).eraseP
                (fun x => x.name == e.name)) =
            es.filter (fun x => !(c x && decide (x ∈ done ++ [e]))) ++
              (if done.any c then [nl] else []) := by
          rw [List.eraseP_append_left (by simp) _ hememf]
          congr 1
          refine eraseP_name_filter hnd _ _ e hemem ?_ hPe hQe
          intro x hx hxe
          have : (x ∈ done ++ [e]) ↔ (x ∈ done) := by
            simp [List.mem_append, hxe]
          simp [this]
        rw [her]
        simp only []
        have hfnone : (es.filter
            (fun x => !(c x && decide (x ∈ done ++ [e])))).find?
              (fun x => x.name == newLinkName) = none := by
          refine List.find?_eq_none.mpr ?_
          intro x hx
          have hxes : x ∈ es := (List.mem_filter.mp hx).1
          simp only [Bool.not_eq_true, beq_eq_false_iff_ne, ne_eq]
          intro h2
          exact hnew (h2 ▸ List.mem_map.mpr ⟨x, hxes, rfl⟩)
        cases hda : done.any c
        · rw [if_neg Bool.false_ne_true, List.append_nil, hfnone, Option.isSome_none,
            if_neg Bool.false_ne_true, List.any_append, hda]
          simp [hce]
        · rw [if_pos rfl]
          have hfind : ((es.filter (fun x => !(c x && decide (x ∈ done ++ [e]))))
              ++ [nl]).find? (fun x => x.name == newLinkName) = some nl := by
            rw [List.find?_append, hfnone]
            simp [hnl]
          rw [hfind, Option.isSome_some]
          refine (if_pos rfl).trans ?_
          rw [List.any_append, hda]
          simp
    rw [hestep]
    exact ih (done ++ [e]) (by rw [hdone, List.append_assoc]; rfl)

/-- Full characterization of the `rename_asset` symlink-update loop over
one directory: condition-matching links are removed, everything else is
kept in place, and one link named after the new name is appended when any
link matched (no entry of the directory bears the new link name). -/
theorem renameDir_eq (base : FS) (pname : String) (k : AssetType)
    (oldPath : FsPath) (oldName newLinkName : String) (newTarget : FsPath)
    (es : List PEntry) (hnd : (es.map PEntry.name).Nodup)
    (hnew : newLinkName ∉ es.map PEntry.name) :
    renameDir base pname k oldPath oldName newLinkName newTarget es =
      es.filter (fun x => !(renameCond base pname k oldPath oldName x)) ++
        (if es.any (renameCond base pname k oldPath oldName) then
          [⟨newLinkName, .link newTarget⟩] else []) := by
  have h0 : renameLoopState base pname k oldPath oldName newLinkName newTarget es []
      = es := by
    unfold renameLoopState
    rw [if_neg (by simp), List.append_nil]
    rw [List.filter_congr (fun x _ => by simp : ∀ x ∈ es,
      (!(renameCond base pname k oldPath oldName x && decide (x ∈ ([] : List PEntry))))
        = true)]
    exact List.filter_eq_self.mpr (fun x _ => rfl)
  have hloop := renameLoop_aux base pname k oldPath oldName newLinkName newTarget
    es hnd hnew es [] rfl
  rw [h0] at hloop
  unfold renameDir
  rw [hloop]
  unfold renameLoopState
  congr 1
  refine List.filter_congr ?_
  intro x hx
  simp [hx]

/-! ## C7: the rewrite condition of the rename loop -/

/-- The textual rendering of a stored symlink value (an absolute path below
the marketplace root), used to state what the spec calls "the link's target
string". -/
def fsPathStr (root : String) : FsPath → String
  | [] => root
  | c :: rest => fsPathStr (root ++ "/" ++ c) rest

/-- C7 (amended): during the symlink-update loop of `rename_asset`, a link
of a plugin kind directory survives if and only if neither its resolved
target equals the old registry path nor — when the target no longer
resolves to an existing path — the textual path of the link itself,
`<root>/plugins/<plugin>/<kind>/<link name>`, contains the old name; and
whenever one of the two conditions holds, a link bearing the new name is
present afterwards.  (The heuristic fallback inspects `str(item)`, the
path of the link, not the link's stored target string.) -/
theorem c7_rename_rewrite_condition (base : FS) (pname : String) (k : AssetType)
    (oldPath : FsPath) (oldName newLinkName : String) (newTarget : FsPath)
    (es : List PEntry) (hnd : (es.map PEntry.name).Nodup)
    (hnew : newLinkName ∉ es.map PEntry.name)
    (e : PEntry) (he : e ∈ es) (t : FsPath) (ht : e.node = .link t) :
    (e ∈ renameDir base pname k oldPath oldName newLinkName newTarget es ↔
      (t == oldPath || (!(base.presentNF t) &&
        strContains (itemStr base.root pname k e.name) oldName)) = false) ∧
    ((t == oldPath || (!(base.presentNF t) &&
        strContains (itemStr base.root pname k e.name) oldName)) = true →
      (⟨newLinkName, .link newTarget⟩ : PEntry) ∈
        renameDir base pname k oldPath oldName newLinkName newTarget es) := by
  have hcond : renameCond base pname k oldPath oldName e =
      (t == oldPath || (!(base.presentNF t) &&
        strContains (itemStr base.root pname k e.name) oldName)) := by
    unfold renameCond
    rw [ht]
  rw [renameDir_eq base pname k oldPath oldName newLinkName newTarget es hnd hnew]
  constructor
  · constructor
    · intro hmem
      rcases List.mem_append.mp hmem with hf | hi
      · have h2 := (List.mem_filter.mp hf).2
        rw [hcond] at h2
        cases hb : (t == oldPath || (!(base.presentNF t) &&
            strContains (itemStr base.root pname k e.name) oldName))
        · rfl
        · rw [hb] at h2
          exact absurd h2 (by decide)
      · exfalso
        by_cases ha : es.any (renameCond base pname k oldPath oldName) = true
        · rw [if_pos ha] at hi
          have he2 := List.mem_singleton.mp hi
          subst he2
          exact hnew (List.mem_map.mpr ⟨_, he, rfl⟩)
        · rw [if_neg ha] at hi
          exact (List.not_mem_nil _) hi
    · intro hf
      exact List.mem_append.mpr (Or.inl (List.mem_filter.mpr
        ⟨he, by simp [hcond, hf]⟩))
  · intro hc
    have ha : es.any (renameCond base pname k oldPath oldName) = true :=
      List.any_eq_true.mpr ⟨e, he, by rw [hcond]; exact hc⟩
    rw [if_pos ha]
    exact List.mem_append.mpr (Or.inr (List.mem_singleton.mpr rfl))

/-- A plugin holding one stray link whose stored target does not resolve:
the target string contains the letters `old` (inside `golden.md`) while the
path of the link itself does not. -/
def c7Dir : PluginDir :=
  ⟨"demo", .valid ⟨some "demo", none, none, none⟩,
    some [⟨"stray.md", .link ["registry", "commands", "golden.md"]⟩], none, none⟩

/-- The tree holding `c7Dir` next to a registry entry named `old.md`. -/
def c7Tree : FS :=
  ⟨"/mp", some [⟨"old.md", .file (some "x")⟩], none, none, [c7Dir], []⟩

/-- C7 witness: the stray link of `c7Tree` — target unequal to the old
path, target missing, link path free of the old name — survives the rename
loop untouched. -/
theorem c7_witness :
    (⟨"stray.md", .link ["registry", "commands", "golden.md"]⟩ : PEntry) ∈
      renameDir c7Tree "demo" .command ["registry", "commands", "old.md"] "old"
        "new.md" ["registry", "commands", "new.md"]
        [⟨"stray.md", .link ["registry", "commands", "golden.md"]⟩] :=
  ((c7_rename_rewrite_condition c7Tree "demo" .command
    ["registry", "commands", "old.md"] "old" "new.md"
    ["registry", "commands", "new.md"]
    [⟨"stray.md", .link ["registry", "commands", "golden.md"]⟩]
    (by decide) (by decide)
    ⟨"stray.md", .link ["registry", "commands", "golden.md"]⟩ (by decide)
    ["registry", "commands", "golden.md"] rfl).1).mpr (by decide)

/-- C7 counterexample: in `c7Tree` the stray link's stored target string
`/mp/registry/commands/golden.md` contains the old name `old` and the
target does not resolve to an existing path, so the claim demands the link
be rewritten to the new name; yet `rename_asset("old", "new")` succeeds and
returns the tree with only the registry entry renamed — the stray link is
left exactly as it was, because the code's heuristic tests `str(item)`, the
path of the link itself, which does not contain `old`. -/
theorem c7_counterexample :
    (fsPathStr c7Tree.root ["registry", "commands", "golden.md"] =
        "/mp/registry/commands/golden.md" ∧
      strContains "/mp/registry/commands/golden.md" "old" = true ∧
      c7Tree.presentNF ["registry", "commands", "golden.md"] = false ∧
      ((["registry", "commands", "golden.md"] : FsPath) ==
        ["registry", "commands", "old.md"]) = false) ∧
    renameAsset c7Tree "old" "new" .command =
      .ok { c7Tree with regCommands := some [⟨"new.md", .file (some "x")⟩] } := by
  exact ⟨⟨by decide, by decide, by decide, by decide⟩, by decide⟩

/-! ## C1: `rename_asset` preserves referential integrity -/

theorem listAny_congr {α : Type} {l : List α} {f g : α → Bool}
    (h : ∀ x ∈ l, f x = g x) : l.any f = l.any g := by
  induction l with
  | nil => rfl
  | cons a as ih =>
    simp only [List.any_cons]
    rw [h a (List.mem_cons_self a as),
      ih (fun x hx => h x (List.mem_cons_of_mem a hx))]

theorem regResolve_mem {fs : FS} {k : AssetType} {a : String} {re : RegEntry}
    (h : regResolve fs k a = some re) :
    ∃ es, fs.registry k = some es ∧ re ∈ es := by
  unfold regResolve FS.regEntryLookup at h
  cases h2 : fs.registry k with
  | none => rw [h2] at h; cases h
  | some es =>
    rw [h2] at h
    simp only [] at h
    refine ⟨es, rfl, ?_⟩
    cases h3 : es.find? (fun e => e.name == a) with
    | some e =>
      rw [h3] at h
      injection h with h
      exact h ▸ List.mem_of_find?_eq_some h3
    | none =>
      rw [h3] at h
      exact List.mem_of_find?_eq_some h

theorem find?_isSome_map_rename {es : List RegEntry} {old new nm : String}
    (h1 : nm ≠ old) (h2 : nm ≠ new) :
    ((es.map (fun r => if r.name == old then { r with name := new } else r)).find?
        (fun r => r.name == nm)).isSome =
      (es.find? (fun r => r.name == nm)).isSome := by
  induction es with
  | nil => rfl
  | cons r rs ih =>
    simp only [List.map_cons]
    by_cases hro : r.name = old
    · have hnn : new ≠ nm := Ne.symm h2
      have hrn : r.name ≠ nm := fun hcon => h1 (hcon ▸ hro)
      rw [if_pos (by simpa using hro)]
      rw [List.find?_cons_of_neg _ (by simpa using hnn)]
      rw [List.find?_cons_of_neg _ (by simpa using hrn)]
      exact ih
    · rw [if_neg (by simpa using hro)]
      by_cases hrn : r.name = nm
      · rw [List.find?_cons_of_pos _ (by simpa using hrn),
          List.find?_cons_of_pos _ (by simpa using hrn)]
      · rw [List.find?_cons_of_neg _ (by simpa using hrn),
          List.find?_cons_of_neg _ (by simpa using hrn)]
        exact ih

theorem find?_isSome_map_rename_new {es : List RegEntry} {old new : String}
    {oe : RegEntry} (hmem : oe ∈ es) (hname : oe.name = old) :
    ((es.map (fun r => if r.name == old then { r with name := new } else r)).find?
        (fun r => r.name == new)).isSome = true := by
  rw [List.find?_isSome]
  exact ⟨{ oe with name := new },
    List.mem_map.mpr ⟨oe, hmem, by simp [hname]⟩, by simp⟩

theorem names_filterMap_sublist (l : List PluginDir)
    (hok : ∀ pd ∈ l, manifestNameOk pd = true) :
    ((l.filterMap PluginDir.toPlugin?).map Plugin.name).Sublist
      (l.map PluginDir.dirName) := by
  induction l with
  | nil => simp
  | cons pd rest ih =>
    have hok' : ∀ q ∈ rest, manifestNameOk q = true :=
      fun q hq => hok q (List.mem_cons_of_mem pd hq)
    cases hp : pd.toPlugin? with
    | none =>
      simp only [List.filterMap_cons, hp, List.map_cons]
      exact (ih hok').cons _
    | some p =>
      simp only [List.filterMap_cons, hp, List.map_cons]
      rw [toPlugin?_name hp (hok pd (List.mem_cons_self pd rest))]
      exact (ih hok').cons₂ _

theorem nodup_getPlugins_names {fs : FS} (hwf : fs.wf) :
    ((getPlugins fs).map Plugin.name).Nodup := by
  unfold getPlugins
  have hperm := perm_sortLe plugLe (fs.plugins.filterMap PluginDir.toPlugin?)
  rw [(hperm.map Plugin.name).nodup_iff]
  exact List.Nodup.sublist (names_filterMap_sublist fs.plugins hwf.2.1) hwf.1

/-- The effect of one `rename_asset` directory pass on a clean directory:
links resolving to the old registry path are dropped and, when any were,
one link bearing the new link name is appended. -/
def renameTransform (k : AssetType) (oldPath : FsPath) (nL : String)
    (newTarget : FsPath) (pd : PluginDir) : PluginDir :=
  match pd.kindDir k with
  | none => pd
  | some es =>
    pd.setKindDir k (some (es.filter (fun x => !pentryIsLinkTo x oldPath) ++
      (if es.any (fun x => pentryIsLinkTo x oldPath) then
        [⟨nL, .link newTarget⟩] else [])))

theorem renameTransform_none {k : AssetType} {oldPath : FsPath} {nL : String}
    {newTarget : FsPath} {pd : PluginDir} (h : pd.kindDir k = none) :
    renameTransform k oldPath nL newTarget pd = pd := by
  unfold renameTransform
  rw [h]

theorem renameTransform_some {k : AssetType} {oldPath : FsPath} {nL : String}
    {newTarget : FsPath} {pd : PluginDir} {es : List PEntry}
    (h : pd.kindDir k = some es) :
    renameTransform k oldPath nL newTarget pd =
      pd.setKindDir k (some (es.filter (fun x => !pentryIsLinkTo x oldPath) ++
        (if es.any (fun x => pentryIsLinkTo x oldPath) then
          [⟨nL, .link newTarget⟩] else []))) := by
  unfold renameTransform
  rw [h]

theorem renameTransform_dirName (k : AssetType) (oldPath : FsPath) (nL : String)
    (newTarget : FsPath) (pd : PluginDir) :
    (renameTransform k oldPath nL newTarget pd).dirName = pd.dirName := by
  unfold renameTransform
  cases pd.kindDir k
  · rfl
  · simp

theorem renameTransform_manifest (k : AssetType) (oldPath : FsPath) (nL : String)
    (newTarget : FsPath) (pd : PluginDir) :
    (renameTransform k oldPath nL newTarget pd).manifest = pd.manifest := by
  unfold renameTransform
  cases pd.kindDir k
  · rfl
  · simp

theorem renameTransform_kindDir_ne {k k' : AssetType} (hne : k' ≠ k)
    (oldPath : FsPath) (nL : String) (newTarget : FsPath) (pd : PluginDir) :
    (renameTransform k oldPath nL newTarget pd).kindDir k' = pd.kindDir k' := by
  unfold renameTransform
  cases pd.kindDir k
  · rfl
  · exact kindDir_setKindDir_ne pd hne _

theorem renameTransform_dirsWF {k : AssetType} {oldPath : FsPath} {nL : String}
    {newTarget : FsPath} {pd : PluginDir} (h : pd.dirsWF)
    (hfresh : ∀ es, pd.kindDir k = some es → nL ∉ es.map PEntry.name) :
    (renameTransform k oldPath nL newTarget pd).dirsWF := by
  cases hk : pd.kindDir k with
  | none =>
    rw [renameTransform_none hk]
    exact h
  | some es =>
    rw [renameTransform_some hk]
    have hnd := dirsWF_kindDir h hk
    have hndf : ((es.filter (fun x => !pentryIsLinkTo x oldPath)).map
        PEntry.name).Nodup :=
      List.Nodup.sublist (List.Sublist.map PEntry.name (List.filter_sublist es)) hnd
    cases ha : es.any (fun x => pentryIsLinkTo x oldPath) with
    | false =>
      rw [if_neg (by simp [ha]), List.append_nil]
      exact dirsWF_setKindDir h hndf
    | true =>
      rw [if_pos (by simp [ha])]
      refine dirsWF_setKindDir h ?_
      rw [List.map_append]
      rw [List.nodup_append]
      refine ⟨hndf, by simp, ?_⟩
      intro a haf hamem
      have ha1 : a = nL := by simpa using hamem
      subst ha1
      have : a ∈ es.map PEntry.name := by
        rcases List.mem_map.mp haf with ⟨e, hef, rfl⟩
        exact List.mem_map.mpr ⟨e, (List.mem_filter.mp hef).1, rfl⟩
      exact hfresh es hk this

/-- The per-plugin fold of `rename_asset` over the cataloged plugin list. -/
def renameFold (l : List Plugin) (b : FS) (k : AssetType) (oldPath : FsPath)
    (oldName nL : String) (newTarget : FsPath) : FS :=
  l.foldl (fun acc p => renamePlugin acc p.name k oldPath oldName nL newTarget) b

theorem renameFold_cons (q : Plugin) (l : List Plugin) (b : FS) (k : AssetType)
    (oldPath : FsPath) (oldName nL : String) (newTarget : FsPath) :
    renameFold (q :: l) b k oldPath oldName nL newTarget =
      renameFold l (renamePlugin b q.name k oldPath oldName nL newTarget)
        k oldPath oldName nL newTarget := rfl

/-- On a tree whose directory of name `q` (if any) is clean — distinct
entry names, new link name fresh, every link either resolving to the old
path or to an existing registry path — one `rename_asset` plugin pass acts
as `renameTransform` on that directory. -/
theorem renamePlugin_eq (b : FS) (q : String) (k : AssetType) (oldPath : FsPath)
    (oldName nL : String) (newTarget : FsPath)
    (hnodup : (b.plugins.map PluginDir.dirName).Nodup)
    (hclean : ∀ pd ∈ b.plugins, pd.dirName = q → ∀ es, pd.kindDir k = some es →
      (es.map PEntry.name).Nodup ∧ nL ∉ es.map PEntry.name ∧
      ∀ e ∈ es, ∀ t, e.node = .link t → t ≠ oldPath →
        ∃ r, t = "registry" :: r ∧ b.presentNF t = true) :
    renamePlugin b q k oldPath oldName nL newTarget =
      { b with plugins := b.plugins.map (fun pd =>
          if pd.dirName == q then renameTransform k oldPath nL newTarget pd
          else pd) } := by
  have huniq : ∀ pd ∈ b.plugins, pd.dirName = q → b.pluginDir? q = some pd := by
    intro pd hm hq
    have h2 := find?_dirName_of_nodup hnodup hm
    rw [hq] at h2
    exact h2
  unfold renamePlugin
  cases hpd : b.pluginDir? q with
  | none =>
    have hmapid : b.plugins.map (fun pd =>
        if pd.dirName == q then renameTransform k oldPath nL newTarget pd
        else pd) = b.plugins := by
      refine (List.map_congr_left ?_).trans (List.map_id _)
      intro pd hm
      have hne := List.find?_eq_none.mp hpd pd hm
      rw [if_neg (by simpa using hne)]
      rfl
    rw [hmapid]
  | some pd0 =>
    have hpd0mem : pd0 ∈ b.plugins := List.mem_of_find?_eq_some hpd
    have hpd0q : pd0.dirName = q := by
      have h2 := List.find?_some hpd
      simpa using h2
    cases hes : pd0.kindDir k with
    | none =>
      simp only [hes]
      have hmapid : b.plugins.map (fun pd =>
          if pd.dirName == q then renameTransform k oldPath nL newTarget pd
          else pd) = b.plugins := by
        refine (List.map_congr_left ?_).trans (List.map_id _)
        intro pd hm
        by_cases hq : (pd.dirName == q) = true
        · have hpdeq : pd = pd0 := by
            have h2 := huniq pd hm (by simpa using hq)
            rw [hpd] at h2
            exact (Option.some.inj h2).symm
          subst hpdeq
          rw [if_pos hq, renameTransform_none hes]
          rfl
        · rw [if_neg hq]
          rfl
      rw [hmapid]
    | some es =>
      obtain ⟨hnd, hnew, hlinks⟩ := hclean pd0 hpd0mem hpd0q es hes
      have hcond : ∀ e ∈ es, renameCond b q k oldPath oldName e =
          pentryIsLinkTo e oldPath := by
        intro e he
        unfold renameCond pentryIsLinkTo
        cases hn : e.node with
        | file => rfl
        | dir => rfl
        | link t =>
          simp only []
          by_cases hto : t = oldPath
          · subst hto
            simp
          · rcases hlinks e he t hn hto with ⟨r, _, hpres⟩
            have hbeq : (t == oldPath) = false := by simpa using hto
            rw [hbeq, hpres]
            simp
      have hfc : ∀ x ∈ es, (!(renameCond b q k oldPath oldName x)) =
          (!(pentryIsLinkTo x oldPath)) := fun x hx => by rw [hcond x hx]
      have hdir : renameDir b q k oldPath oldName nL newTarget es =
          es.filter (fun x => !pentryIsLinkTo x oldPath) ++
            (if es.any (fun x => pentryIsLinkTo x oldPath) then
              [⟨nL, .link newTarget⟩] else []) := by
        rw [renameDir_eq b q k oldPath oldName nL newTarget es hnd hnew]
        rw [List.filter_congr hfc, listAny_congr hcond]
      simp only [hes]
      unfold FS.updatePluginsNamed
      have hmap : b.plugins.map (fun pd => if pd.dirName == q then
          pd.setKindDir k (some (renameDir b q k oldPath oldName nL newTarget es))
          else pd) = b.plugins.map (fun pd =>
          if pd.dirName == q then renameTransform k oldPath nL newTarget pd
          else pd) := by
        refine List.map_congr_left ?_
        intro pd hm
        by_cases hq : (pd.dirName == q) = true
        · have hpdeq : pd = pd0 := by
            have h2 := huniq pd hm (by simpa using hq)
            rw [hpd] at h2
            exact (Option.some.inj h2).symm
          subst hpdeq
          rw [if_pos hq, if_pos hq, hdir, renameTransform_some hes]
        · rw [if_neg hq, if_neg hq]
      rw [hmap]

/-- The symlink-update fold of `rename_asset` over plugins with distinct
names applies `renameTransform` to exactly the listed plugins' directories
and keeps the registry, root and `other` fields. -/
theorem renameFold_eq (k : AssetType) (oldPath : FsPath) (oldName nL : String)
    (newTarget : FsPath) :
    ∀ (l : List Plugin) (b : FS),
      (l.map Plugin.name).Nodup →
      (b.plugins.map PluginDir.dirName).Nodup →
      (∀ p ∈ l, ∀ pd ∈ b.plugins, pd.dirName = p.name →
        ∀ es, pd.kindDir k = some es →
          (es.map PEntry.name).Nodup ∧ nL ∉ es.map PEntry.name ∧
          ∀ e ∈ es, ∀ t, e.node = .link t → t ≠ oldPath →
            ∃ r, t = "registry" :: r ∧ b.presentNF t = true) →
      (renameFold l b k oldPath oldName nL newTarget).plugins =
          b.plugins.map (fun pd =>
            if l.any (fun p => pd.dirName == p.name) then
              renameTransform k oldPath nL newTarget pd else pd) ∧
        (∀ k', (renameFold l b k oldPath oldName nL newTarget).registry k' =
          b.registry k') ∧
        (renameFold l b k oldPath oldName nL newTarget).root = b.root ∧
        (renameFold l b k oldPath oldName nL newTarget).other = b.other := by
  intro l
  induction l with
  | nil =>
    intro b _ _ _
    refine ⟨?_, fun k' => rfl, rfl, rfl⟩
    simp [renameFold]
  | cons q rest ih =>
    intro b hlnd hbnd hclean
    rw [renameFold_cons]
    have hstep := renamePlugin_eq b q.name k oldPath oldName nL newTarget hbnd
      (fun pd hm hq es hes => hclean q (List.mem_cons_self q rest) pd hm hq es hes)
    rw [hstep]
    have hreg2 : ∀ k', ({ b with plugins := b.plugins.map (fun pd =>
        if pd.dirName == q.name then renameTransform k oldPath nL newTarget pd
        else pd) } : FS).registry k' = b.registry k' := by
      intro k'
      cases k' <;> rfl
    have hBnd : ((b.plugins.map (fun pd =>
        if pd.dirName == q.name then renameTransform k oldPath nL newTarget pd
        else pd)).map PluginDir.dirName).Nodup := by
      rw [List.map_map]
      have hmc : b.plugins.map (PluginDir.dirName ∘ fun pd =>
          if pd.dirName == q.name then renameTransform k oldPath nL newTarget pd
          else pd) = b.plugins.map PluginDir.dirName := by
        refine List.map_congr_left ?_
        intro pd _
        simp only [Function.comp_apply]
        by_cases hq0 : (pd.dirName == q.name) = true
        · rw [if_pos hq0, renameTransform_dirName]
        · rw [if_neg hq0]
      rw [hmc]
      exact hbnd
    have hrnd : (rest.map Plugin.name).Nodup := by
      simp only [List.map_cons, List.nodup_cons] at hlnd
      exact hlnd.2
    have hqnotin : q.name ∉ rest.map Plugin.name := by
      simp only [List.map_cons, List.nodup_cons] at hlnd
      exact hlnd.1
    have hclean' : ∀ p ∈ rest, ∀ pd ∈ b.plugins.map (fun pd =>
        if pd.dirName == q.name then renameTransform k oldPath nL newTarget pd
        else pd), pd.dirName = p.name →
        ∀ es, pd.kindDir k = some es →
          (es.map PEntry.name).Nodup ∧ nL ∉ es.map PEntry.name ∧
          ∀ e ∈ es, ∀ t, e.node = .link t → t ≠ oldPath →
            ∃ r, t = "registry" :: r ∧
              ({ b with plugins := b.plugins.map (fun pd =>
                if pd.dirName == q.name then
                  renameTransform k oldPath nL newTarget pd
                else pd) } : FS).presentNF t = true := by
      intro p hp pd' hm' hq' es hes
      rcases List.mem_map.mp hm' with ⟨pd, hpdm, rfl⟩
      by_cases hq0 : (pd.dirName == q.name) = true
      · exfalso
        have hd : pd.dirName = q.name := by simpa using hq0
        rw [if_pos hq0, renameTransform_dirName] at hq'
        have hmem2 : p.name ∈ rest.map Plugin.name :=
          List.mem_map.mpr ⟨p, hp, rfl⟩
        rw [← hq', hd] at hmem2
        exact hqnotin hmem2
      · rw [if_neg hq0] at hq' hes
        obtain ⟨h1, h2, h3⟩ :=
          hclean p (List.mem_cons_of_mem q hp) pd hpdm hq' es hes
        refine ⟨h1, h2, ?_⟩
        intro e he t ht hto
        rcases h3 e he t ht hto with ⟨r, rfl, hpres⟩
        refine ⟨r, rfl, ?_⟩
        rw [presentNF_registry_invariant b _ hreg2 rfl r]
        exact hpres
    obtain ⟨ih1, ih2, ih3, ih4⟩ := ih { b with plugins := b.plugins.map (fun pd =>
        if pd.dirName == q.name then renameTransform k oldPath nL newTarget pd
        else pd) } hrnd hBnd hclean'
    refine ⟨?_, ?_, ?_, ?_⟩
    · rw [ih1]
      simp only []
      rw [List.map_map]
      refine List.map_congr_left ?_
      intro pd hm
      simp only [Function.comp_apply]
      by_cases hq0 : (pd.dirName == q.name) = true
      · have hd : pd.dirName = q.name := by simpa using hq0
        have hanyf : rest.any (fun p => pd.dirName == p.name) = false := by
          rw [List.any_eq_false]
          intro p hp hcon
          apply hqnotin
          have hpn : pd.dirName = p.name := by simpa using hcon
          have hmem2 : p.name ∈ rest.map Plugin.name :=
            List.mem_map.mpr ⟨p, hp, rfl⟩
          rw [← hpn, hd] at hmem2
          exact hmem2
        rw [if_pos hq0]
        have hca : rest.any (fun p =>
            (renameTransform k oldPath nL newTarget pd).dirName == p.name) =
              rest.any (fun p => pd.dirName == p.name) :=
          listAny_congr (fun p _ => by rw [renameTransform_dirName])
        rw [hca, hanyf]
        rw [if_neg (by simp), List.any_cons, hq0]
        rw [if_pos (by simp)]
      · have hq0' : (pd.dirName == q.name) = false := by simpa using hq0
        rw [if_neg hq0, List.any_cons, hq0', Bool.false_or]
    · intro k'
      rw [ih2 k', hreg2 k']
    · rw [ih3]
    · rw [ih4]

/-- A plugin-listing map preserving directory names, manifests and
per-directory name distinctness preserves well-formedness. -/
theorem wf_map_plugins {fs : FS} (hwf : fs.wf) {F : PluginDir → PluginDir}
    (hname : ∀ pd, (F pd).dirName = pd.dirName)
    (hman : ∀ pd, (F pd).manifest = pd.manifest)
    (hdirs : ∀ pd ∈ fs.plugins, (F pd).dirsWF)
    {fs' : FS} (hp : fs'.plugins = fs.plugins.map F) : fs'.wf := by
  obtain ⟨h1, h2, h3⟩ := hwf
  refine ⟨?_, ?_, ?_⟩
  · rw [hp, List.map_map]
    have hmc : fs.plugins.map (PluginDir.dirName ∘ F) =
        fs.plugins.map PluginDir.dirName :=
      List.map_congr_left (fun pd _ => hname pd)
    rw [hmc]
    exact h1
  · intro pd' hpd'
    rw [hp] at hpd'
    rcases List.mem_map.mp hpd' with ⟨pd, hpd, rfl⟩
    rw [manifestNameOk_congr (hname pd) (hman pd)]
    exact h2 pd hpd
  · intro pd' hpd'
    rw [hp] at hpd'
    rcases List.mem_map.mp hpd' with ⟨pd, hpd, rfl⟩
    exact hdirs pd hpd

/-- Whether `get_plugins` catalogs a directory depends only on its name
and manifest. -/
theorem toPlugin?_isSome_congr {pd' pd : PluginDir} (hd : pd'.dirName = pd.dirName)
    (hm : pd'.manifest = pd.manifest) :
    pd'.toPlugin?.isSome = pd.toPlugin?.isSome := by
  unfold PluginDir.toPlugin?
  rw [hd, hm]
  by_cases h : pyStartsWith pd.dirName "." = true
  · rw [if_pos h, if_pos h]
  · rw [if_neg h, if_neg h]
    cases pd.manifest <;> simp

theorem regEntryLookup_congr {fs' fs : FS} {k : AssetType}
    (h : fs'.registry k = fs.registry k) (n : String) :
    fs'.regEntryLookup k n = fs.regEntryLookup k n := by
  unfold FS.regEntryLookup
  rw [h]

/-- C1.  On a well-formed tree whose cataloged plugins carry only links
that resolve into the registry directory of their own kind, where entries
listed under the old name are links to the old asset and the new name is
taken nowhere, a successful `rename_asset(old, new, kind)` leaves every
plugin that referenced the old registry path referencing the new name —
its kind membership list contains the new name and no longer the old one —
and a subsequent `validate()` reports no broken issues. -/
theorem c1_rename_referential_integrity (fs : FS) (k : AssetType)
    (oldName newName : String) (oe : RegEntry)
    (hwf : fs.wf)
    (hoe : regResolve fs k oldName = some oe)
    (hfree1 : fs.regEntryLookup k (newName ++ ".md") = none)
    (hfree2 : fs.regEntryLookup k newName = none)
    (hmd : isMdName newName = false)
    (hdot : pyStartsWith newName "." = false)
    (hne0 : newName ≠ "")
    (hnn : newName ≠ oldName)
    (hlinks : ∀ pd ∈ fs.plugins, pd.toPlugin?.isSome = true →
      ∀ k' es, pd.kindDir k' = some es → ∀ e ∈ es, ∀ t, e.node = .link t →
        ∃ nm, t = ["registry", AssetType.value k', nm] ∧
          (fs.regEntryLookup k' nm).isSome = true)
    (hold : ∀ pd ∈ fs.plugins, pd.toPlugin?.isSome = true →
      ∀ es, pd.kindDir k = some es → ∀ e ∈ es,
        oldName ∈ pentryNames e → e.node = .link ["registry", k.value, oe.name])
    (hfreshp : ∀ pd ∈ fs.plugins, pd.toPlugin?.isSome = true →
      ∀ es, pd.kindDir k = some es →
        newName ∉ es.map PEntry.name ∧ (newName ++ ".md") ∉ es.map PEntry.name) :
    ∃ fs', renameAsset fs oldName newName k = .ok fs' ∧
      (∀ pd ∈ fs.plugins, pd.toPlugin?.isSome = true →
        ∀ es, pd.kindDir k = some es →
        (∃ e ∈ es, e.node = .link ["registry", k.value, oe.name]) →
        ∃ pd', fs'.pluginDir? pd.dirName = some pd' ∧
          newName ∈ listPluginAssets pd' k ∧
          oldName ∉ listPluginAssets pd' k) ∧
      (validate fs').1 = true ∧
      (∀ i ∈ (validate fs').2, i.issue_type ≠ "broken") := by
  obtain ⟨nE, hnE, hnEor⟩ : ∃ nE,
      (match oe.node with
        | .file _ => newName ++ ".md"
        | .dir _ _ => newName) = nE ∧
      (nE = newName ++ ".md" ∨ nE = newName) := by
    cases oe.node
    · exact ⟨newName ++ ".md", rfl, Or.inl rfl⟩
    · exact ⟨newName, rfl, Or.inr rfl⟩
  have hfreeE : fs.regEntryLookup k nE = none := by
    rcases hnEor with rfl | rfl
    · exact hfree1
    · exact hfree2
  have hstripE : stripMd nE = newName := by
    rcases hnEor with rfl | rfl
    · exact stripMd_append_md newName
    · exact stripMd_of_not_md hmd
  have hdotE : pyStartsWith nE "." = false := by
    rcases hnEor with rfl | rfl
    · exact startsWith_dot_append_md hne0 hdot
    · exact hdot
  obtain ⟨res, hres, hoem⟩ := regResolve_mem hoe
  obtain ⟨fs1, hfs1⟩ : ∃ x, x = fs.setRegistry k
      (some (((fs.registry k).getD []).map
        (fun r => if r.name == oe.name then { r with name := nE } else r))) :=
    ⟨_, rfl⟩
  have hfs1p : fs1.plugins = fs.plugins := by
    rw [hfs1, plugins_setRegistry]
  have hfs1o : fs1.other = fs.other := by
    rw [hfs1, other_setRegistry]
  have hfs1rk : fs1.registry k = some (res.map
      (fun r => if r.name == oe.name then { r with name := nE } else r)) := by
    rw [hfs1, registry_setRegistry_self, hres]
    rfl
  have hfs1rne : ∀ k', k' ≠ k → fs1.registry k' = fs.registry k' := by
    intro k' hk'
    rw [hfs1]
    exact registry_setRegistry_ne fs hk' _
  have hlookE : (fs1.regEntryLookup k nE).isSome = true := by
    unfold FS.regEntryLookup
    rw [hfs1rk]
    simp only []
    exact find?_isSome_map_rename_new hoem rfl
  have hlookO : ∀ nm, nm ≠ oe.name → nm ≠ nE →
      (fs1.regEntryLookup k nm).isSome = (fs.regEntryLookup k nm).isSome := by
    intro nm h1 h2
    unfold FS.regEntryLookup
    rw [hfs1rk, hres]
    simp only []
    exact find?_isSome_map_rename h1 h2
  have hgp1 : getPlugins fs1 = getPlugins fs := by
    unfold getPlugins
    rw [hfs1p]
  have hcat : ∀ pd ∈ fs.plugins, ∀ p ∈ getPlugins fs, pd.dirName = p.name →
      pd.toPlugin? = some p := by
    intro pd hm p hp hq
    rcases mem_getPlugins.mp hp with ⟨pd0, hm0, hp0⟩
    have hname0 : p.name = pd0.dirName := toPlugin?_name hp0 (hwf.2.1 pd0 hm0)
    have hdd : pd.dirName = pd0.dirName := hq.trans hname0
    have e1 := find?_dirName_of_nodup hwf.1 hm
    have e2 := find?_dirName_of_nodup hwf.1 hm0
    rw [hdd, e2] at e1
    rw [(Option.some.inj e1).symm]
    exact hp0
  have hcleanF : ∀ p ∈ getPlugins fs, ∀ pd ∈ fs1.plugins, pd.dirName = p.name →
      ∀ es, pd.kindDir k = some es →
        (es.map PEntry.name).Nodup ∧ nE ∉ es.map PEntry.name ∧
        ∀ e ∈ es, ∀ t, e.node = .link t → t ≠ ["registry", k.value, oe.name] →
          ∃ r, t = "registry" :: r ∧ fs1.presentNF t = true := by
    intro p hp pd hm hq es hes
    rw [hfs1p] at hm
    have hcatp := hcat pd hm p hp hq
    have hsome : pd.toPlugin?.isSome = true := by
      rw [hcatp]
      rfl
    refine ⟨dirsWF_kindDir (hwf.2.2 pd hm) hes, ?_, ?_⟩
    · rcases hnEor with rfl | rfl
      · exact (hfreshp pd hm hsome es hes).2
      · exact (hfreshp pd hm hsome es hes).1
    · intro e he t ht hto
      rcases hlinks pd hm hsome k es hes e he t ht with ⟨nm, rfl, hsm⟩
      refine ⟨[k.value, nm], rfl, ?_⟩
      have hnm1 : nm ≠ oe.name := by
        intro hcon
        exact hto (by rw [hcon])
      have hnm2 : nm ≠ nE := by
        intro hcon
        rw [hcon, hfreeE] at hsm
        simp at hsm
      rw [presentNF_reg_entry fs1 k nm, hlookO nm hnm1 hnm2]
      exact hsm
  obtain ⟨hplug, hregs, hroot, hoth⟩ := renameFold_eq k ["registry", k.value, oe.name]
    oldName nE ["registry", k.value, nE] (getPlugins fs) fs1
    (nodup_getPlugins_names hwf)
    (by rw [hfs1p]; exact hwf.1)
    hcleanF
  obtain ⟨FS2, hFS2⟩ : ∃ x, x = renameFold (getPlugins fs) fs1 k
      ["registry", k.value, oe.name] oldName nE ["registry", k.value, nE] :=
    ⟨_, rfl⟩
  rw [← hFS2] at hplug hregs hroot hoth
  rw [hfs1p] at hplug
  have hrun : renameAsset fs oldName newName k = .ok FS2 := by
    unfold renameAsset
    rw [hoe]
    simp only []
    cases hnode : oe.node with
    | file c =>
      rw [hnode] at hnE
      simp only [] at hnE
      simp only []
      rw [hnE]
      have hmdE : isMdName nE = true := by
        rw [← hnE]
        exact isMdName_append_md newName
      rw [if_pos hmdE]
      rw [show (fs.regEntryLookup k nE).isSome = false from by rw [hfreeE]; rfl]
      rw [if_neg Bool.false_ne_true]
      rw [← hfs1, hFS2, ← hgp1]
      rfl
    | dir a b =>
      rw [hnode] at hnE
      simp only [] at hnE
      simp only []
      rw [hnE]
      have hmdE : isMdName nE = false := by
        rw [← hnE]
        exact hmd
      have hmdE2 : ¬ isMdName nE = true := by
        rw [hmdE]
        exact Bool.false_ne_true
      rw [if_neg hmdE2]
      rw [show (fs.regEntryLookup k nE).isSome = false from by rw [hfreeE]; rfl]
      rw [if_neg Bool.false_ne_true]
      rw [← hfs1, hFS2, ← hgp1]
      rfl
  have hwf2 : FS2.wf := by
    refine wf_map_plugins hwf ?_ ?_ ?_ hplug
    · intro pd
      by_cases hq : ((getPlugins fs).any (fun p => pd.dirName == p.name)) = true
      · rw [if_pos hq, renameTransform_dirName]
      · rw [if_neg hq]
    · intro pd
      by_cases hq : ((getPlugins fs).any (fun p => pd.dirName == p.name)) = true
      · rw [if_pos hq, renameTransform_manifest]
      · rw [if_neg hq]
    · intro pd hm
      by_cases hq : ((getPlugins fs).any (fun p => pd.dirName == p.name)) = true
      · rw [if_pos hq]
        rcases List.any_eq_true.mp hq with ⟨p, hp, hpq⟩
        have hq2 : pd.dirName = p.name := by simpa using hpq
        have hsome : pd.toPlugin?.isSome = true := by
          rw [hcat pd hm p hp hq2]
          rfl
        refine renameTransform_dirsWF (hwf.2.2 pd hm) ?_
        intro es hes
        rcases hnEor with rfl | rfl
        · exact (hfreshp pd hm hsome es hes).2
        · exact (hfreshp pd hm hsome es hes).1
      · rw [if_neg hq]
        exact hwf.2.2 pd hm
  have hmemb : ∀ pd ∈ fs.plugins, pd.toPlugin?.isSome = true →
      ∀ es, pd.kindDir k = some es →
      (∃ e ∈ es, e.node = .link ["registry", k.value, oe.name]) →
      ∃ pd', FS2.pluginDir? pd.dirName = some pd' ∧
        newName ∈ listPluginAssets pd' k ∧ oldName ∉ listPluginAssets pd' k := by
    intro pd hm hsome es hes href
    rcases href with ⟨e, he, helink⟩
    obtain ⟨p, hp⟩ := Option.isSome_iff_exists.mp hsome
    have hpmem : p ∈ getPlugins fs := mem_getPlugins.mpr ⟨pd, hm, hp⟩
    have hpname : p.name = pd.dirName := toPlugin?_name hp (hwf.2.1 pd hm)
    have hany : ((getPlugins fs).any (fun q => pd.dirName == q.name)) = true :=
      List.any_eq_true.mpr ⟨p, hpmem, by simp [hpname]⟩
    have htr : renameTransform k ["registry", k.value, oe.name] nE
        ["registry", k.value, nE] pd ∈ FS2.plugins := by
      rw [hplug]
      refine List.mem_map.mpr ⟨pd, hm, ?_⟩
      exact if_pos hany
    have hpd' := pluginDir?_of_wf hwf2 htr
    rw [renameTransform_dirName] at hpd'
    have hanyes : es.any (fun x =>
        pentryIsLinkTo x ["registry", k.value, oe.name]) = true := by
      refine List.any_eq_true.mpr ⟨e, he, ?_⟩
      unfold pentryIsLinkTo
      rw [helink]
      simp
    have hkd : (renameTransform k ["registry", k.value, oe.name] nE
        ["registry", k.value, nE] pd).kindDir k =
        some (es.filter (fun x =>
            !pentryIsLinkTo x ["registry", k.value, oe.name]) ++
          [⟨nE, .link ["registry", k.value, nE]⟩]) := by
      rw [renameTransform_some hes, kindDir_setKindDir_self, if_pos hanyes]
    have hpent : pentryNames (⟨nE, .link ["registry", k.value, nE]⟩ : PEntry) =
        [newName] := by
      unfold pentryNames
      simp only []
      rw [if_neg (by rw [hdotE]; exact Bool.false_ne_true), hstripE]
    refine ⟨_, hpd', ?_, ?_⟩
    · refine mem_listPluginAssets.mpr ⟨_, hkd, ⟨nE, .link ["registry", k.value, nE]⟩,
        List.mem_append.mpr (Or.inr (List.mem_singleton.mpr rfl)), ?_⟩
      rw [hpent]
      exact List.mem_singleton.mpr rfl
    · intro hcon
      rcases mem_listPluginAssets.mp hcon with ⟨es2, hkd2, e2, he2, hnm⟩
      rw [hkd] at hkd2
      have hes2 := Option.some.inj hkd2
      rw [← hes2] at he2
      rcases List.mem_append.mp he2 with hf | hlast
      · have hmes : e2 ∈ es := (List.mem_filter.mp hf).1
        have hnpl := (List.mem_filter.mp hf).2
        have hlk := hold pd hm hsome es hes e2 hmes hnm
        unfold pentryIsLinkTo at hnpl
        rw [hlk] at hnpl
        simp at hnpl
      · have he2' : e2 = ⟨nE, .link ["registry", k.value, nE]⟩ :=
          List.mem_singleton.mp hlast
        rw [he2', hpent] at hnm
        exact hnn (List.mem_singleton.mp hnm).symm
  have hnobroken : ∀ i ∈ validateIssues FS2, i.issue_type ≠ "broken" := by
    intro i hi
    rcases mem_validateIssues.mp hi with
      ⟨p, hp, k', _, pd', hpd', es', hes', e, he, hiss⟩
    rcases mem_linkIssue_iff.mp hiss with ⟨t, hnode, hcase⟩
    have hpm' : pd' ∈ FS2.plugins := by
      have h0 := hpd'
      unfold FS.pluginDir? at h0
      exact List.mem_of_find?_eq_some h0
    rw [hplug] at hpm'
    rcases List.mem_map.mp hpm' with ⟨pd, hm, hfeq⟩
    have hpres : FS2.presentNF t = true := by
      by_cases hq : ((getPlugins fs).any (fun q => pd.dirName == q.name)) = true
      · have hpd'eq : pd' = renameTransform k ["registry", k.value, oe.name] nE
            ["registry", k.value, nE] pd := by
          rw [← hfeq]
          exact if_pos hq
        rcases List.any_eq_true.mp hq with ⟨pq, hpq, hqq⟩
        have hq2 : pd.dirName = pq.name := by simpa using hqq
        have hsome : pd.toPlugin?.isSome = true := by
          rw [hcat pd hm pq hpq hq2]
          rfl
        by_cases hkk : k' = k
        · subst hkk
          cases hpdk : pd.kindDir k' with
          | none =>
            rw [hpd'eq, renameTransform_none hpdk, hpdk] at hes'
            cases hes'
          | some es0 =>
            rw [hpd'eq, renameTransform_some hpdk, kindDir_setKindDir_self] at hes'
            have hesx := Option.some.inj hes'
            rw [← hesx] at he
            rcases List.mem_append.mp he with hf | hlast
            · have hmes0 : e ∈ es0 := (List.mem_filter.mp hf).1
              have hnpl := (List.mem_filter.mp hf).2
              rcases hlinks pd hm hsome k' es0 hpdk e hmes0 t hnode
                with ⟨nm, rfl, hsm⟩
              have hnm1 : nm ≠ oe.name := by
                intro hcon
                subst hcon
                unfold pentryIsLinkTo at hnpl
                rw [hnode] at hnpl
                simp at hnpl
              have hnm2 : nm ≠ nE := by
                intro hcon
                rw [hcon, hfreeE] at hsm
                simp at hsm
              rw [presentNF_registry_invariant fs1 FS2 hregs hoth,
                presentNF_reg_entry fs1 k' nm, hlookO nm hnm1 hnm2]
              exact hsm
            · have he2 : e = ⟨nE, .link ["registry", k'.value, nE]⟩ := by
                by_cases ha : es0.any (fun x =>
                    pentryIsLinkTo x ["registry", k'.value, oe.name]) = true
                · rw [if_pos ha] at hlast
                  exact List.mem_singleton.mp hlast
                · rw [if_neg ha] at hlast
                  cases hlast
              have ht2 : t = ["registry", k'.value, nE] := by
                rw [he2] at hnode
                exact (PNode.link.inj hnode).symm
              rw [ht2, presentNF_registry_invariant fs1 FS2 hregs hoth,
                presentNF_reg_entry fs1 k' nE]
              exact hlookE
        · have hpd'k : pd'.kindDir k' = pd.kindDir k' := by
            rw [hpd'eq]
            exact renameTransform_kindDir_ne hkk _ _ _ _
          rw [hpd'k] at hes'
          rcases hlinks pd hm hsome k' es' hes' e he t hnode with ⟨nm, rfl, hsm⟩
          rw [presentNF_registry_invariant fs1 FS2 hregs hoth,
            presentNF_reg_entry fs1 k' nm,
            regEntryLookup_congr (hfs1rne k' hkk) nm]
          exact hsm
      · exfalso
        have hpd'eq : pd' = pd := by
          rw [← hfeq]
          exact if_neg hq
        rcases mem_getPlugins.mp hp with ⟨pd0, hm0, hp0⟩
        have hpn0 : p.name = pd0.dirName := toPlugin?_name hp0 (hwf2.2.1 pd0 hm0)
        have hfind := pluginDir?_of_wf hwf2 hm0
        rw [← hpn0] at hfind
        rw [hpd'] at hfind
        have hpd'0 : pd' = pd0 := Option.some.inj hfind
        have hsome : pd.toPlugin?.isSome = true := by
          rw [← hpd'eq, hpd'0, hp0]
          rfl
        obtain ⟨p2, hp2⟩ := Option.isSome_iff_exists.mp hsome
        have hp2m : p2 ∈ getPlugins fs := mem_getPlugins.mpr ⟨pd, hm, hp2⟩
        have hp2n : p2.name = pd.dirName := toPlugin?_name hp2 (hwf.2.1 pd hm)
        exact hq (List.any_eq_true.mpr ⟨p2, hp2m, by simp [hp2n]⟩)
    rcases hcase with ⟨hf, _⟩ | ⟨_, _, hi2⟩
    · rw [hpres] at hf
      cases hf
    · rw [hi2]
      intro hcon
      have h3 : ("warning" : String) = "broken" := hcon
      exact absurd h3 (by decide)
  refine ⟨FS2, hrun, hmemb, ?_, ?_⟩
  · rw [validate_fst_iff]
    intro i hi
    rw [validate_snd] at hi
    exact hnobroken i hi
  · intro i hi
    rw [validate_snd] at hi
    exact hnobroken i hi

/-- A plugin referencing the registry command `old.md` through a clean
link. -/
def c1Dir : PluginDir :=
  ⟨"p", .valid ⟨some "p", none, none, none⟩,
    some [⟨"old.md", .link ["registry", "commands", "old.md"]⟩], none, none⟩

/-- The tree holding `c1Dir` and the registry entry it references. -/
def c1Tree : FS :=
  ⟨"/mp", some [⟨"old.md", .file (some "x")⟩], none, none, [c1Dir], []⟩

/-- C1 witness: renaming `old` to `new` on `c1Tree` succeeds and the
resulting tree validates cleanly. -/
theorem c1_witness :
    ∃ fs', renameAsset c1Tree "old" "new" AssetType.command = Except.ok fs' ∧
      (validate fs').1 = true := by
  obtain ⟨fs', h1, _, h3, _⟩ :=
    c1_rename_referential_integrity c1Tree .command "old" "new"
      ⟨"old.md", .file (some "x")⟩
      (by decide) (by decide) (by decide) (by decide) (by decide) (by decide)
      (by decide) (by decide)
      (by
        intro pd hm hs k' es hes e he t ht
        rw [show c1Tree.plugins = [c1Dir] from rfl] at hm
        have hpd := List.mem_singleton.mp hm
        subst hpd
        cases k' with
        | command =>
          rw [show c1Dir.kindDir .command =
            some [⟨"old.md", .link ["registry", "commands", "old.md"]⟩]
            from rfl] at hes
          have hes2 := (Option.some.inj hes).symm
          subst hes2
          have he2 := List.mem_singleton.mp he
          subst he2
          have ht2 : t = ["registry", "commands", "old.md"] :=
            (PNode.link.inj ht).symm
          subst ht2
          exact ⟨"old.md", rfl, by decide⟩
        | agent =>
          rw [show c1Dir.kindDir .agent = none from rfl] at hes
          cases hes
        | skill =>
          rw [show c1Dir.kindDir .skill = none from rfl] at hes
          cases hes)
      (by
        intro pd hm hs es hes e he hn
        rw [show c1Tree.plugins = [c1Dir] from rfl] at hm
        have hpd := List.mem_singleton.mp hm
        subst hpd
        rw [show c1Dir.kindDir .command =
          some [⟨"old.md", .link ["registry", "commands", "old.md"]⟩]
          from rfl] at hes
        have hes2 := (Option.some.inj hes).symm
        subst hes2
        have he2 := List.mem_singleton.mp he
        subst he2
        rfl)
      (by
        intro pd hm hs es hes
        rw [show c1Tree.plugins = [c1Dir] from rfl] at hm
        have hpd := List.mem_singleton.mp hm
        subst hpd
        rw [show c1Dir.kindDir .command =
          some [⟨"old.md", .link ["registry", "commands", "old.md"]⟩]
          from rfl] at hes
        have hes2 := (Option.some.inj hes).symm
        subst hes2
        exact ⟨by decide, by decide⟩)
  exact ⟨fs', h1, h3⟩

/-! ## C5: out-of-band breakage, `validate` and `cmd_repair` -/

theorem flatMap_eq_nil_of_forall {α β : Type} {l : List α} {f : α → List β}
    (h : ∀ x ∈ l, f x = []) : l.flatMap f = [] := by
  induction l with
  | nil => rfl
  | cons y ys ih =>
    rw [List.flatMap_cons, h y (List.mem_cons_self y ys), List.nil_append]
    exact ih (fun x hx => h x (List.mem_cons_of_mem y hx))

theorem flatMap_eq_singleton_of_unique {α β : Type} {x0 : α} {a : β}
    {f : α → List β} :
    ∀ {l : List α}, l.Nodup → x0 ∈ l → f x0 = [a] →
      (∀ x ∈ l, x ≠ x0 → f x = []) → l.flatMap f = [a] := by
  intro l
  induction l with
  | nil =>
    intro _ hmem
    cases hmem
  | cons y ys ih =>
    intro hnd hmem hx0 hothers
    rw [List.flatMap_cons]
    rcases List.mem_cons.mp hmem with rfl | hmem'
    · rw [hx0]
      have hrest : ys.flatMap f = [] := by
        refine flatMap_eq_nil_of_forall ?_
        intro x hx
        refine hothers x (List.mem_cons_of_mem _ hx) ?_
        intro hxe
        subst hxe
        exact (List.nodup_cons.mp hnd).1 hx
      rw [hrest, List.append_nil]
    · have hyne : y ≠ x0 := by
        intro hye
        subst hye
        exact (List.nodup_cons.mp hnd).1 hmem'
      rw [hothers y (List.mem_cons_self y ys) hyne, List.nil_append]
      exact ih (List.nodup_cons.mp hnd).2 hmem' hx0
        (fun x hx hxne => hothers x (List.mem_cons_of_mem _ hx) hxne)

/-- A link that resolves to an existing registry-rooted path contributes no
issue; plain files and directories contribute none either. -/
theorem linkIssue_nil_of_clean {fs : FS} {n : String} {k : AssetType} {e : PEntry}
    (h : ∀ t, e.node = .link t →
      (∃ r, t = "registry" :: r) ∧ fs.presentNF t = true) :
    linkIssue fs n k e = [] := by
  unfold linkIssue
  cases hn : e.node with
  | file => rfl
  | dir => rfl
  | link t =>
    obtain ⟨⟨r, rfl⟩, hp⟩ := h _ hn
    simp only []
    rw [hp]
    simp

/-- The entry found by `cmd_repair`'s candidate search exists in the
registry of that kind. -/
theorem findRepairMatch_lookup {fs : FS} {k : AssetType} {tn m : String}
    (h : findRepairMatch fs k.value tn = some m) :
    (fs.regEntryLookup k m).isSome = true := by
  unfold findRepairMatch at h
  rw [kindOf?_value] at h
  simp only [] at h
  cases hr : fs.registry k with
  | none =>
    rw [hr] at h
    cases h
  | some regs =>
    rw [hr] at h
    simp only [] at h
    have h2 := List.find?_some h
    unfold FS.regEntryLookup
    rw [hr]
    simpa using h2
  

/-- The uniquely-named entry is gone after erasing by its name. -/
theorem not_mem_eraseP_self {es : List PEntry}
    (hnd : (es.map PEntry.name).Nodup) {e : PEntry} (he : e ∈ es) :
    e ∉ es.eraseP (fun x => x.name == e.name) := by
  induction es with
  | nil => cases he
  | cons b bs ih =>
    simp only [List.map_cons, List.nodup_cons] at hnd
    by_cases hb : (b.name == e.name) = true
    · rw [show (b :: bs).eraseP (fun x => x.name == e.name) = bs from by
        simp [List.eraseP_cons, hb]]
      rcases List.mem_cons.mp he with rfl | he'
      · intro hcon
        exact hnd.1 (List.mem_map.mpr ⟨e, hcon, rfl⟩)
      · intro hcon
        apply hnd.1
        rw [show b.name = e.name from by simpa using hb]
        exact List.mem_map.mpr ⟨e, he', rfl⟩
    · rw [show (b :: bs).eraseP (fun x => x.name == e.name) =
          b :: bs.eraseP (fun x => x.name == e.name) from by
        simp [List.eraseP_cons, hb]]
      have hbe : e ≠ b := by
        intro hcon
        subst hcon
        simp at hb
      have he' : e ∈ bs := by
        rcases List.mem_cons.mp he with rfl | he'
        · exact absurd rfl hbe
        · exact he'
      intro hcon
      rcases List.mem_cons.mp hcon with rfl | hcon'
      · exact hbe rfl
      · exact ih hnd.2 he' hcon'

/-- Under well-formedness, a tree whose cataloged plugins hold only
resolving links yields no broken issue. -/
theorem no_broken_of_resolving {fs : FS} (hwf : fs.wf)
    (h : ∀ pd ∈ fs.plugins, pd.toPlugin?.isSome = true →
      ∀ k es, pd.kindDir k = some es →
      ∀ e ∈ es, ∀ t, e.node = .link t → fs.presentNF t = true) :
    ∀ i ∈ validateIssues fs, i.issue_type ≠ "broken" := by
  intro i hi
  rcases mem_validateIssues.mp hi with
    ⟨p, hp, k', _, pd', hpd', es', hes', e, he, hiss⟩
  rcases mem_getPlugins.mp hp with ⟨pd0, hm0, hp0⟩
  have hpn0 : p.name = pd0.dirName := toPlugin?_name hp0 (hwf.2.1 pd0 hm0)
  have hfind := pluginDir?_of_wf hwf hm0
  rw [← hpn0] at hfind
  rw [hpd'] at hfind
  have hpd'0 : pd' = pd0 := Option.some.inj hfind
  have hsome : pd'.toPlugin?.isSome = true := by
    rw [hpd'0, hp0]
    rfl
  have hm' : pd' ∈ fs.plugins := hpd'0 ▸ hm0
  rcases mem_linkIssue_iff.mp hiss with ⟨t, hnode, hcase⟩
  rcases hcase with ⟨hf, _⟩ | ⟨_, _, hi2⟩
  · rw [h pd' hm' hsome k' es' hes' e he t hnode] at hf
    cases hf
  · rw [hi2]
    intro hcon
    have h3 : ("warning" : String) = "broken" := hcon
    exact absurd h3 (by decide)

/-- Under well-formedness, the directory bearing a cataloged plugin's name
is the directory it was cataloged from. -/
theorem cataloged_dir_of_name {fs : FS} (hwf : fs.wf) {pd : PluginDir}
    (hm : pd ∈ fs.plugins) {p : Plugin} (hp : p ∈ getPlugins fs)
    (hq : pd.dirName = p.name) : pd.toPlugin? = some p := by
  rcases mem_getPlugins.mp hp with ⟨pd0, hm0, hp0⟩
  have hname0 : p.name = pd0.dirName := toPlugin?_name hp0 (hwf.2.1 pd0 hm0)
  have hdd : pd.dirName = pd0.dirName := hq.trans hname0
  have e1 := find?_dirName_of_nodup hwf.1 hm
  have e2 := find?_dirName_of_nodup hwf.1 hm0
  rw [hdd, e2] at e1
  rw [(Option.some.inj e1).symm]
  exact hp0

/-- Replacing one plugin's kind listing by links that resolve into the
registry — all other directories already clean — keeps the tree
well-formed and broken-free. -/
theorem no_broken_updated {fs : FS} (hwf : fs.wf) {pd : PluginDir} {k : AssetType}
    (hm : pd ∈ fs.plugins) (hcatp : pd.toPlugin?.isSome = true)
    {f : PluginDir → PluginDir}
    (hname : ∀ x, (f x).dirName = x.dirName)
    (hman : ∀ x, (f x).manifest = x.manifest)
    (hdirs : ∀ x ∈ fs.plugins, (f x).dirsWF)
    (hfother : ∀ x k2, k2 ≠ k → (f x).kindDir k2 = x.kindDir k2)
    (hfk : ∀ es2, (f pd).kindDir k = some es2 → ∀ e2 ∈ es2, ∀ t,
      e2.node = .link t → (∃ r, t = "registry" :: r) ∧ fs.presentNF t = true)
    (hcleanO : ∀ pd' ∈ fs.plugins, pd'.toPlugin?.isSome = true →
      ∀ k2 es2, pd'.kindDir k2 = some es2 → ¬(pd' = pd ∧ k2 = k) →
      ∀ e2 ∈ es2, ∀ t, e2.node = .link t →
        (∃ r, t = "registry" :: r) ∧ fs.presentNF t = true) :
    (fs.updatePluginsNamed pd.dirName f).wf ∧
    ∀ i ∈ validateIssues (fs.updatePluginsNamed pd.dirName f),
      i.issue_type ≠ "broken" := by
  have hpdq := pluginDir?_of_wf hwf hm
  have hwfT : (fs.updatePluginsNamed pd.dirName f).wf :=
    wf_updatePluginsNamed hwf hname hman hdirs
  refine ⟨hwfT, ?_⟩
  refine no_broken_of_resolving hwfT ?_
  intro pd'' hm'' hs'' k2 es2 hes2 e2 he2 t ht
  have hregT : ∀ k'', (fs.updatePluginsNamed pd.dirName f).registry k'' =
      fs.registry k'' := registry_updatePluginsNamed fs _ f
  rw [plugins_updatePluginsNamed] at hm''
  rcases List.mem_map.mp hm'' with ⟨pd1, hm1, hfeq⟩
  have hgoal : (∃ r, t = "registry" :: r) ∧ fs.presentNF t = true := by
    by_cases hb1 : (pd1.dirName == pd.dirName) = true
    · have hpd1 : pd1 = pd := by
        have e1 := find?_dirName_of_nodup hwf.1 hm1
        rw [(by simpa using hb1 : pd1.dirName = pd.dirName)] at e1
        have h0 := hpdq
        unfold FS.pluginDir? at h0
        rw [h0] at e1
        exact (Option.some.inj e1).symm
      subst hpd1
      have hpd'' : pd'' = f pd1 := by
        rw [← hfeq, if_pos hb1]
      by_cases hk2 : k2 = k
      · subst hk2
        rw [hpd''] at hes2
        exact hfk es2 hes2 e2 he2 t ht
      · have hfo := hfother pd1 k2 hk2
        rw [hpd'', hfo] at hes2
        exact hcleanO pd1 hm1 hcatp k2 es2 hes2 (fun hcon => hk2 hcon.2) e2 he2 t ht
    · have hpd'' : pd'' = pd1 := by
        rw [← hfeq, if_neg hb1]
      have hpd1ne : pd1 ≠ pd := by
        intro hcon
        rw [hcon] at hb1
        simp at hb1
      rw [hpd''] at hes2 hs''
      exact hcleanO pd1 hm1 hs'' k2 es2 hes2 (fun hcon => hpd1ne hcon.1) e2 he2 t ht
  obtain ⟨⟨r, rfl⟩, hp⟩ := hgoal
  rw [presentNF_registry_invariant fs (fs.updatePluginsNamed pd.dirName f) hregT rfl r]
  exact hp

/-- C5.  When exactly one link's registry target is gone (deleted
out-of-band) and everything else resolves into the registry, `validate()`
reports exactly the one broken issue at that link; `cmd_repair` with
`dry_run = False` and `remove_only = False` relinks the entry to a
registry candidate when the name search finds one and otherwise deletes
it, and in both cases the repaired tree has no broken link left. -/
theorem c5_break_validate_repair (fs : FS) (k : AssetType) (pd : PluginDir)
    (es : List PEntry) (e : PEntry) (gone : String)
    (hwf : fs.wf) (hm : pd ∈ fs.plugins) (hcatp : pd.toPlugin?.isSome = true)
    (hes : pd.kindDir k = some es) (he : e ∈ es)
    (hlinkE : e.node = .link ["registry", k.value, gone])
    (hgone : fs.regEntryLookup k gone = none)
    (hclean : ∀ pd' ∈ fs.plugins, pd'.toPlugin?.isSome = true →
      ∀ k' es', pd'.kindDir k' = some es' → ∀ e' ∈ es', ∀ t, e'.node = .link t →
        ¬(pd' = pd ∧ k' = k ∧ e' = e) →
        ∃ nm, t = ["registry", AssetType.value k', nm] ∧
          (fs.regEntryLookup k' nm).isSome = true) :
    (validate fs).2 =
      [⟨["plugins", pd.dirName, k.value, e.name], "broken", "Broken symlink"⟩] ∧
    (repair fs false false).broken = 1 ∧
    ((∃ m, findRepairMatch fs k.value gone = some m ∧
        (repair fs false false).tree =
          relinkEntryAt fs pd.dirName k e.name ["registry", k.value, m] ∧
        (repair fs false false).fixed = 1 ∧ (repair fs false false).removed = 0) ∨
      (findRepairMatch fs k.value gone = none ∧
        (repair fs false false).tree = removeEntryAt fs pd.dirName k e.name ∧
        (repair fs false false).fixed = 0 ∧ (repair fs false false).removed = 1)) ∧
    (validate (repair fs false false).tree).1 = true ∧
    (∀ i ∈ (validate (repair fs false false).tree).2, i.issue_type ≠ "broken") := by
  obtain ⟨p, hp⟩ := Option.isSome_iff_exists.mp hcatp
  have hpmem : p ∈ getPlugins fs := mem_getPlugins.mpr ⟨pd, hm, hp⟩
  have hpname : p.name = pd.dirName := toPlugin?_name hp (hwf.2.1 pd hm)
  have hpdq : fs.pluginDir? pd.dirName = some pd := pluginDir?_of_wf hwf hm
  have hnd := dirsWF_kindDir (hwf.2.2 pd hm) hes
  have hpkE : pluginKindEntries fs p.name k = es := by
    unfold pluginKindEntries
    rw [hpname, hpdq]
    simp only []
    rw [hes]
    rfl
  have hpres_gone : fs.presentNF ["registry", k.value, gone] = false := by
    rw [presentNF_reg_entry, hgone]
    rfl
  have hiss_e : linkIssue fs p.name k e =
      [⟨["plugins", p.name, k.value, e.name], "broken", "Broken symlink"⟩] := by
    unfold linkIssue
    rw [hlinkE]
    simp only []
    rw [hpres_gone]
    simp
  have hcleanO : ∀ pd' ∈ fs.plugins, pd'.toPlugin?.isSome = true →
      ∀ k2 es2, pd'.kindDir k2 = some es2 → ¬(pd' = pd ∧ k2 = k) →
      ∀ e2 ∈ es2, ∀ t, e2.node = .link t →
        (∃ r, t = "registry" :: r) ∧ fs.presentNF t = true := by
    intro pd' hm' hs' k2 es2 hes2 hne e2 he2 t ht
    rcases hclean pd' hm' hs' k2 es2 hes2 e2 he2 t ht
      (fun hcon => hne ⟨hcon.1, hcon.2.1⟩) with ⟨nm, rfl, hsm⟩
    exact ⟨⟨[k2.value, nm], rfl⟩, by rw [presentNF_reg_entry]; exact hsm⟩
  have h1 : validateIssues fs =
      [⟨["plugins", pd.dirName, k.value, e.name], "broken", "Broken symlink"⟩] := by
    unfold validateIssues
    refine flatMap_eq_singleton_of_unique
      (List.Nodup.of_map _ (nodup_getPlugins_names hwf)) hpmem ?_ ?_
    · refine flatMap_eq_singleton_of_unique (by decide)
        (by cases k <;> decide : k ∈ AssetType.all) ?_ ?_
      · rw [hpkE]
        refine flatMap_eq_singleton_of_unique (List.Nodup.of_map _ hnd) he ?_ ?_
        · rw [hiss_e, hpname]
        · intro e' he' hne
          refine linkIssue_nil_of_clean ?_
          intro t ht
          rcases hclean pd hm hcatp k es hes e' he' t ht
            (fun hcon => hne hcon.2.2) with ⟨nm, rfl, hsm⟩
          exact ⟨⟨[k.value, nm], rfl⟩, by rw [presentNF_reg_entry]; exact hsm⟩
      · intro k2 hk2 hkne
        refine flatMap_eq_nil_of_forall ?_
        intro e' he'
        rcases mem_pluginKindEntries.mp he' with ⟨pd2, hpd2, es2, hes2, he2'⟩
        rw [hpname, hpdq] at hpd2
        have hpd2e : pd2 = pd := (Option.some.inj hpd2).symm
        subst hpd2e
        refine linkIssue_nil_of_clean ?_
        intro t ht
        exact hcleanO pd2 hm hcatp k2 es2 hes2 (fun hcon => hkne hcon.2) e' he2' t ht
    · intro p' hp' hpne
      refine flatMap_eq_nil_of_forall ?_
      intro k2 _
      refine flatMap_eq_nil_of_forall ?_
      intro e' he'
      rcases mem_pluginKindEntries.mp he' with ⟨pd2, hpd2, es2, hes2, he2'⟩
      have hm2 : pd2 ∈ fs.plugins := by
        have h0 := hpd2
        unfold FS.pluginDir? at h0
        exact List.mem_of_find?_eq_some h0
      have hd2 : pd2.dirName = p'.name := by
        have h0 := hpd2
        unfold FS.pluginDir? at h0
        have h3 := List.find?_some h0
        simpa using h3
      have hcat2 : pd2.toPlugin? = some p' := cataloged_dir_of_name hwf hm2 hp' hd2
      have hsome2 : pd2.toPlugin?.isSome = true := by
        rw [hcat2]
        rfl
      have hpd2ne : pd2 ≠ pd := by
        intro hcon
        subst hcon
        have hnn2 : p'.name = p.name := by
          rw [← hd2, hpname]
        exact hpne (List.inj_on_of_nodup_map (nodup_getPlugins_names hwf)
          hp' hpmem hnn2)
      refine linkIssue_nil_of_clean ?_
      intro t ht
      exact hcleanO pd2 hm2 hsome2 k2 es2 hes2 (fun hcon => hpd2ne hcon.1) e' he2' t ht
  have hv2 : (validate fs).2 =
      [⟨["plugins", pd.dirName, k.value, e.name], "broken", "Broken symlink"⟩] := by
    rw [validate_snd, h1]
  have hrep : repair fs false false = repairStep false false ⟨fs, 0, 0, 0⟩
      ⟨["plugins", pd.dirName, k.value, e.name], "broken", "Broken symlink"⟩ := by
    unfold repair
    rw [validate_snd, h1, List.foldl_cons, List.foldl_nil]
  refine ⟨hv2, ?_⟩
  cases hfm : findRepairMatch fs k.value gone with
  | some m =>
    have hstep : repairStep false false ⟨fs, 0, 0, 0⟩
        ⟨["plugins", pd.dirName, k.value, e.name], "broken", "Broken symlink"⟩ =
        ⟨relinkEntryAt fs pd.dirName k e.name ["registry", k.value, m], 1, 1, 0⟩ := by
      unfold repairStep
      simp only []
      rw [if_neg (by decide)]
      rw [kindOf?_value, hpdq]
      simp only []
      rw [hes]
      simp only [Option.some_bind]
      rw [find?_name_of_nodup hnd he]
      simp only []
      rw [hlinkE]
      simp only []
      rw [show List.getLastD ["registry", k.value, gone] "" = gone from rfl]
      rw [hfm]
      simp only []
      rw [if_neg Bool.false_ne_true, if_neg Bool.false_ne_true]
    have hrep2 : repair fs false false =
        ⟨relinkEntryAt fs pd.dirName k e.name ["registry", k.value, m], 1, 1, 0⟩ :=
      hrep.trans hstep
    rw [hrep2]
    refine ⟨rfl, Or.inl ⟨m, rfl, rfl, rfl, rfl⟩, ?_⟩
    have hnb := no_broken_updated hwf hm hcatp
      (f := fun pd' =>
        match pd'.kindDir k with
        | none => pd'
        | some es' => pd'.setKindDir k (some (es'.map (fun x =>
            if x.name == e.name then ⟨e.name, .link ["registry", k.value, m]⟩
            else x))))
      (by
        intro x
        simp only []
        cases x.kindDir k
        · rfl
        · simp)
      (by
        intro x
        simp only []
        cases x.kindDir k
        · rfl
        · simp)
      (by
        intro x hx
        simp only []
        cases hkx : x.kindDir k with
        | none => exact hwf.2.2 x hx
        | some es' =>
          have hnames : ((es'.map (fun x2 =>
              if x2.name == e.name then
                (⟨e.name, .link ["registry", k.value, m]⟩ : PEntry)
              else x2)).map PEntry.name) = es'.map PEntry.name := by
            rw [List.map_map]
            refine List.map_congr_left ?_
            intro x2 _
            simp only [Function.comp_apply]
            by_cases hx2 : (x2.name == e.name) = true
            · rw [if_pos hx2]
              exact (by simpa using hx2 : x2.name = e.name).symm
            · rw [if_neg hx2]
          refine dirsWF_setKindDir (hwf.2.2 x hx) ?_
          rw [hnames]
          exact dirsWF_kindDir (hwf.2.2 x hx) hkx)
      (by
        intro x k2 hk2
        simp only []
        cases x.kindDir k
        · rfl
        · exact kindDir_setKindDir_ne x hk2 _)
      (by
        intro es2 hes2 e2 he2 t ht
        simp only [] at hes2
        rw [hes] at hes2
        simp only [] at hes2
        rw [kindDir_setKindDir_self] at hes2
        have hes2' := Option.some.inj hes2
        rw [← hes2'] at he2
        rcases List.mem_map.mp he2 with ⟨e0, he0, hge⟩
        by_cases h0 : (e0.name == e.name) = true
        · rw [if_pos h0] at hge
          rw [← hge] at ht
          have ht2 : t = ["registry", k.value, m] := (PNode.link.inj ht).symm
          subst ht2
          refine ⟨⟨[k.value, m], rfl⟩, ?_⟩
          rw [presentNF_reg_entry]
          exact findRepairMatch_lookup hfm
        · rw [if_neg h0] at hge
          rw [← hge] at ht
          have h0e : e0 ≠ e := by
            intro hcon
            subst hcon
            simp at h0
          rcases hclean pd hm hcatp k es hes e0 he0 t ht
            (fun hcon => h0e hcon.2.2) with ⟨nm, rfl, hsm⟩
          exact ⟨⟨[k.value, nm], rfl⟩, by rw [presentNF_reg_entry]; exact hsm⟩)
      hcleanO
    refine ⟨?_, ?_⟩
    · rw [validate_fst_iff]
      intro i hi
      rw [validate_snd] at hi
      exact hnb.2 i hi
    · intro i hi
      rw [validate_snd] at hi
      exact hnb.2 i hi
  | none =>
    have hstep : repairStep false false ⟨fs, 0, 0, 0⟩
        ⟨["plugins", pd.dirName, k.value, e.name], "broken", "Broken symlink"⟩ =
        ⟨removeEntryAt fs pd.dirName k e.name, 1, 0, 1⟩ := by
      unfold repairStep
      simp only []
      rw [if_neg (by decide)]
      rw [kindOf?_value, hpdq]
      simp only []
      rw [hes]
      simp only [Option.some_bind]
      rw [find?_name_of_nodup hnd he]
      simp only []
      rw [hlinkE]
      simp only []
      rw [show List.getLastD ["registry", k.value, gone] "" = gone from rfl]
      rw [hfm]
      simp only []
      rw [if_neg Bool.false_ne_true]
    have hrep2 : repair fs false false =
        ⟨removeEntryAt fs pd.dirName k e.name, 1, 0, 1⟩ := hrep.trans hstep
    rw [hrep2]
    refine ⟨rfl, Or.inr ⟨rfl, rfl, rfl, rfl⟩, ?_⟩
    have hnb := no_broken_updated hwf hm hcatp
      (f := fun pd' =>
        match pd'.kindDir k with
        | none => pd'
        | some es' => pd'.setKindDir k
            (some (es'.eraseP (fun x => x.name == e.name))))
      (by
        intro x
        simp only []
        cases x.kindDir k
        · rfl
        · simp)
      (by
        intro x
        simp only []
        cases x.kindDir k
        · rfl
        · simp)
      (by
        intro x hx
        simp only []
        cases hkx : x.kindDir k with
        | none => exact hwf.2.2 x hx
        | some es' =>
          refine dirsWF_setKindDir (hwf.2.2 x hx) ?_
          exact List.Nodup.sublist
            ((List.eraseP_sublist es').map PEntry.name)
            (dirsWF_kindDir (hwf.2.2 x hx) hkx))
      (by
        intro x k2 hk2
        simp only []
        cases x.kindDir k
        · rfl
        · exact kindDir_setKindDir_ne x hk2 _)
      (by
        intro es2 hes2 e2 he2 t ht
        simp only [] at hes2
        rw [hes] at hes2
        simp only [] at hes2
        rw [kindDir_setKindDir_self] at hes2
        have hes2' := Option.some.inj hes2
        rw [← hes2'] at he2
        have he2es : e2 ∈ es := List.mem_of_mem_eraseP he2
        have h2ne : e2 ≠ e := by
          intro hcon
          subst hcon
          exact not_mem_eraseP_self hnd he2es he2
        rcases hclean pd hm hcatp k es hes e2 he2es t ht
          (fun hcon => h2ne hcon.2.2) with ⟨nm, rfl, hsm⟩
        exact ⟨⟨[k.value, nm], rfl⟩, by rw [presentNF_reg_entry]; exact hsm⟩)
      hcleanO
    refine ⟨?_, ?_⟩
    · rw [validate_fst_iff]
      intro i hi
      rw [validate_snd] at hi
      exact hnb.2 i hi
    · intro i hi
      rw [validate_snd] at hi
      exact hnb.2 i hi

/-- A plugin holding one symlink whose registry target has been deleted
out-of-band. -/
def c5Dir : PluginDir :=
  ⟨"p", .valid ⟨some "p", none, none, none⟩,
    some [⟨"a.md", .link ["registry", "commands", "a.md"]⟩], none, none⟩

/-- The tree holding `c5Dir`; the registry command directory exists but no
longer holds `a.md`. -/
def c5Tree : FS := ⟨"", some [], none, none, [c5Dir], []⟩

/-- C5 witness: on `c5Tree` validation reports exactly the one broken
issue and the repaired tree validates cleanly. -/
theorem c5_witness :
    (validate c5Tree).2 =
      [⟨["plugins", "p", "commands", "a.md"], "broken", "Broken symlink"⟩] ∧
    (validate (repair c5Tree false false).tree).1 = true := by
  obtain ⟨h1, _, _, h4, _⟩ := c5_break_validate_repair c5Tree .command c5Dir
    [⟨"a.md", .link ["registry", "commands", "a.md"]⟩]
    ⟨"a.md", .link ["registry", "commands", "a.md"]⟩ "a.md"
    (by decide) (by decide) (by decide) (by decide) (by decide) rfl (by decide)
    (by
      intro pd' hm' hs' k' es' hes' e' he' t ht hne
      rw [show c5Tree.plugins = [c5Dir] from rfl] at hm'
      have hpd := List.mem_singleton.mp hm'
      subst hpd
      cases k' with
      | command =>
        rw [show c5Dir.kindDir .command =
          some [⟨"a.md", .link ["registry", "commands", "a.md"]⟩]
          from rfl] at hes'
        have hes2 := (Option.some.inj hes').symm
        subst hes2
        have he2 := List.mem_singleton.mp he'
        exact absurd ⟨rfl, rfl, he2⟩ hne
      | agent =>
        rw [show c5Dir.kindDir .agent = none from rfl] at hes'
        cases hes'
      | skill =>
        rw [show c5Dir.kindDir .skill = none from rfl] at hes'
        cases hes')
  exact ⟨h1, h4⟩
